import Mathlib

/-!
MiniDB (Own_Database): a shallow embedding of `Table.cpp` and `Database.cpp`.

The C++ program keeps named tables of text columns, stores each table in one
comma-separated file, and answers a small command language.  This file embeds
the storage and query core in Lean:

* `std::string` is a list of characters (`Str`); `operator<` is `strLt`.
* `std::vector` is `List`; `v[i]` is the total access `List.getD`, whose default
  is reached only when the C++ access would be out of bounds.
* A `void` member function that reports on `std::cerr` and returns early becomes
  a function returning the new state together with an `Except DbError _`.
* `std::sort` is a parameter of `Table.select`, constrained by the contract the
  C++ standard gives for it (`StdSortContract`).
* `std::map` is an association list kept in ascending key order; the
  `std::unordered_map` of the catalog is an `AList` (unique keys, no order
  promised).
* The file system under `data/` is an explicit `Storage` value: what each path
  shows, which paths can be written, and which path strings name the same file.
* Counters (`int count`, `size_t`) are natural numbers: a table is taken to hold
  fewer than 2^31 records, so no counter wraps.
* Of `Database::run` the dispatch of a parsed command is embedded (the functions
  of `Database` below start where a command has been split into its arguments),
  and of its parsing the select-list loop of the SELECT branch (`runSelect`).
* `std::sort` is also embedded as GNU libstdc++ implements it (`gnuSort`), to
  evaluate what the program prints where the contract leaves the order open.
-/

namespace MiniDB

/-- A `std::string`: a sequence of characters. -/
abbrev Str := List Char

/-- The error kinds of the specification, one per `std::cerr` report of the code. -/
inductive DbError where
  | FieldCountMismatch
  | UnknownColumn (column : Str)
  | UnsupportedAggregate (func : Str)
  | AlreadyExists (name : Str)
  | NotFound (name : Str)
  | AlreadyLoaded (name : Str)
  | AlreadyActive
  | NoActiveTransaction
  | IOFailure (path : Str)
  deriving DecidableEq, Repr

deriving instance DecidableEq for Except

/-- Class `Record` of `Record.hpp`: a vector of text fields. -/
structure Record where
  fields : List Str
  deriving DecidableEq, Repr

/-- The access `record.fields[idx]`; the default is the out-of-bounds branch. -/
def Record.fieldAt (r : Record) (idx : Nat) : Str := r.fields.getD idx []

/-- Class `Table` of `Table.hpp`. -/
structure Table where
  name : Str
  columns : List Str
  records : List Record
  filepath : Str
  deriving DecidableEq, Repr

/-- The constant `DATA_DIR` of `Table.cpp`. -/
def DATA_DIR : Str := "data/".toList

/-- The position `std::find(columns.begin(), columns.end(), col)` stops at: the
index of the first element equal to `col`, or `columns.size()` for `end()`. -/
def columnIndex : List Str → Str → Nat
  | [], _ => 0
  | c :: cs, col => if c = col then 0 else columnIndex cs col + 1

/-- The idiom `it = std::find(columns.begin(), columns.end(), col)` followed by
`std::distance(columns.begin(), it)` when `it != columns.end()`. -/
def findColumn (columns : List Str) (col : Str) : Option Nat :=
  if columnIndex columns col < columns.length then some (columnIndex columns col) else none

/-- The comparison `a < b` of two `std::string`s: lexicographic on characters. -/
def strLt : Str → Str → Bool
  | [], [] => false
  | [], _ :: _ => true
  | _ :: _, [] => false
  | a :: as, b :: bs => if a < b then true else if b < a then false else strLt as bs

/-- `Table::insert`: the field count is checked, then the record is appended. -/
def Table.insert (t : Table) (fields : List Str) : Table × Except DbError Unit :=
  if fields.length ≠ t.columns.length then
    (t, .error .FieldCountMismatch)
  else
    ({ t with records := t.records ++ [⟨fields⟩] }, .ok ())

/-- The WHERE test that `Table::select` (twice) and `Table::update` run for one
record inside their loops: `match` stays true when `where_column` is empty, is the
string comparison when the column is found, and the function reports
`UnknownColumn` otherwise. -/
def whereMatch (columns : List Str) (where_column where_value : Str) (record : Record) :
    Except DbError Bool :=
  if where_column ≠ [] then
    match findColumn columns where_column with
    | some idx => if record.fieldAt idx ≠ where_value then .ok false else .ok true
    | none => .error (.UnknownColumn where_column)
  else .ok true

/-- The loop `for (auto& record : records)` of `Table::update`.  `done` holds the
records already visited (updated in place where they matched), `updated_count` the
counter; an unknown WHERE column returns at once, leaving the vector as it is at
that moment. -/
def updateLoop (columns : List Str) (set_idx : Nat) (set_value where_column where_value : Str) :
    List Record → List Record → Nat → List Record × Except DbError Nat
  | [], done, updated_count => (done, .ok updated_count)
  | record :: rest, done, updated_count =>
    match whereMatch columns where_column where_value record with
    | .error e => (done ++ record :: rest, .error e)
    | .ok true =>
      updateLoop columns set_idx set_value where_column where_value rest
        (done ++ [⟨record.fields.set set_idx set_value⟩]) (updated_count + 1)
    | .ok false =>
      updateLoop columns set_idx set_value where_column where_value rest
        (done ++ [record]) updated_count

/-- `Table::update`: the result is the table after the call and either the error
reported or the count printed in "Updated n record(s)". -/
def Table.update (t : Table) (set_column set_value where_column where_value : Str) :
    Table × Except DbError Nat :=
  match findColumn t.columns set_column with
  | none => (t, .error (.UnknownColumn set_column))
  | some set_idx =>
    let r := updateLoop t.columns set_idx set_value where_column where_value t.records [] 0
    ({ t with records := r.1 }, r.2)

/-- The predicate handed to `std::remove_if` in `Table::deleteRecords`. -/
def deletePred (columns : List Str) (where_column where_value : Str) (record : Record) : Bool :=
  if where_column = [] then true
  else
    match findColumn columns where_column with
    | some idx => decide (record.fieldAt idx = where_value)
    | none => false

/-- `Table::deleteRecords`: `records.erase(std::remove_if(...), records.end())`
keeps, in order, the records on which the predicate is false; the count printed
is `initial_size - records.size()`. -/
def Table.deleteRecords (t : Table) (where_column where_value : Str) :
    Table × Except DbError Nat :=
  if where_column ≠ [] ∧ findColumn t.columns where_column = none then
    (t, .error (.UnknownColumn where_column))
  else
    let initial_size := t.records.length
    let kept := t.records.filter (fun r => !deletePred t.columns where_column where_value r)
    ({ t with records := kept }, .ok (initial_size - kept.length))

/-- The separator character of the storage format. -/
def COMMA : Char := ','

/-- The quote character of the storage format (code point 34). -/
def QUOTE : Char := Char.ofNat 34

/-- The line terminator written by `save` and consumed by `std::getline` (code point 10). -/
def NEWLINE : Char := Char.ofNat 10

/-- The separator `Table::select` puts after every value of a group key. -/
def UNDERSCORE : Char := '_'

/-- The loop `for i: ofs << field[i]; if (i != size - 1) ofs << ","` of `Table::save`. -/
def joinComma : List Str → Str
  | [] => []
  | [f] => f
  | f :: g :: fs => f ++ COMMA :: joinComma (g :: fs)

/-- The escaping step of `Table::save`: a field that contains a comma is wrapped
in one pair of quote characters. -/
def quoteField (field : Str) : Str :=
  if COMMA ∈ field then QUOTE :: field ++ [QUOTE] else field

/-- The bytes `Table::save` writes: the header line, then one line per record. -/
def Table.encode (t : Table) : Str :=
  joinComma t.columns ++ [NEWLINE] ++
    (t.records.map (fun record => joinComma (record.fields.map quoteField) ++ [NEWLINE])).flatten

/-- Repeated `std::getline(stream, piece, delim)` until it fails: `cur` is the
piece read so far.  At the end of the input a piece is delivered only when at
least one character was extracted for it. -/
def getlinesAux (delim : Char) : Str → Str → List Str
  | [], cur => if cur = [] then [] else [cur]
  | c :: cs, cur =>
    if c = delim then cur :: getlinesAux delim cs [] else getlinesAux delim cs (cur ++ [c])

/-- All pieces delivered by `while (std::getline(stream, piece, delim))`. -/
def getlines (delim : Char) (text : Str) : List Str := getlinesAux delim text []

/-- The character scanner of `Table::load` on one line: a quote toggles
`in_quotes`, a comma outside quotes closes `current_field`, any other character
is appended; after the loop the last field is pushed. -/
def parseLine : Str → Bool → Str → List Str → List Str
  | [], _, current_field, fields => fields ++ [current_field]
  | c :: cs, in_quotes, current_field, fields =>
    if c = QUOTE then parseLine cs (!in_quotes) current_field fields
    else if c = COMMA ∧ in_quotes = false then parseLine cs in_quotes [] (fields ++ [current_field])
    else parseLine cs in_quotes (current_field ++ [c]) fields

/-- The `while (std::getline(ifs, line))` loop of `Table::load`: the first line
replaces `columns`, every later line appends one record. -/
def loadLines : List Str → Bool → Table → Table
  | [], _, t => t
  | line :: rest, is_header, t =>
    let fields := parseLine line false [] []
    if is_header then loadLines rest false { t with columns := fields }
    else loadLines rest false { t with records := t.records ++ [⟨fields⟩] }

/-- The file system below `data/`, seen through path strings: the content read
when a path is opened (if the file exists), whether a path can be opened for
writing, and whether two path strings name the same file (as `data/a.tbl` and
`data/./a.tbl` do). -/
structure Storage where
  files : Str → Option Str
  writable : Str → Bool
  sameFile : Str → Str → Bool

/-- `Table::save`: when the file cannot be opened nothing is written; otherwise
the file is truncated and rewritten with `Table.encode`.  The new content is
what every path naming that file shows afterwards. -/
def Table.save (t : Table) (fs : Storage) : Storage :=
  if fs.writable t.filepath = false then fs
  else { fs with files := fun path =>
    if path = t.filepath ∨ fs.sameFile path t.filepath = true then some t.encode
    else fs.files path }

/-- `Table::load`: when the file cannot be opened the table is left as it is;
otherwise the lines of the file are decoded into `columns` and `records`. -/
def Table.load (t : Table) (fs : Storage) : Table :=
  match fs.files t.filepath with
  | none => t
  | some text => loadLines (getlines NEWLINE text) true t

/-- Constructor `Table::Table(name, columns)`: sets the path and saves the schema. -/
def Table.create (name : Str) (columns : List Str) (fs : Storage) : Table × Storage :=
  let t : Table := ⟨name, columns, [], DATA_DIR ++ name ++ ".tbl".toList⟩
  (t, t.save fs)

/-- Constructor `Table::Table(name)`: sets the path and loads the file. -/
def Table.loadNew (name : Str) (fs : Storage) : Table :=
  Table.load ⟨name, [], [], DATA_DIR ++ name ++ ".tbl".toList⟩ fs

/-! ### `Table::select` -/

/-- One printed row: the projected (or group) values, then one cell per
aggregate; a cell is `none` when the code prints nothing for that aggregate. -/
structure Row where
  values : List Str
  aggs : List (Option Nat)
  deriving DecidableEq, Repr

/-- What `Table::select` writes to `std::cout`, without column padding and
separator lines: the header cells, the rows, and the trailing summary lines
`label = value`. -/
structure SelectOutput where
  header : List Str
  rows : List Row
  summary : List (Str × Nat)
  deriving DecidableEq, Repr

/-- The loops that resolve `select_columns` and `group_by`: each name is looked
up and its index pushed; the first unknown name ends the call. -/
def resolveColumns (columns : List Str) : List Str → List Nat → Except DbError (List Nat)
  | [], indices => .ok indices
  | col :: rest, indices =>
    match findColumn columns col with
    | some idx => resolveColumns columns rest (indices ++ [idx])
    | none => .error (.UnknownColumn col)

/-- The loop over `order_by`: `order_indices` and `order_directions` are pushed
together, so they are kept as one list of pairs. -/
def resolveOrderBy (columns : List Str) :
    List (Str × Str) → List (Nat × Str) → Except DbError (List (Nat × Str))
  | [], keys => .ok keys
  | ob :: rest, keys =>
    match findColumn columns ob.1 with
    | some idx => resolveOrderBy columns rest (keys ++ [(idx, ob.2)])
    | none => .error (.UnknownColumn ob.1)

/-- The comparator lambda given to `std::sort`: the first key on which the two
records differ decides, by its direction; `a > b` is `b < a`. -/
def orderLess : List (Nat × Str) → Record → Record → Bool
  | [], _, _ => false
  | (idx, direction) :: rest, a, b =>
    if strLt (a.fieldAt idx) (b.fieldAt idx) then decide (direction = "ASC".toList)
    else if strLt (b.fieldAt idx) (a.fieldAt idx) then decide (direction = "DESC".toList)
    else orderLess rest a b

/-- The requirement of the C++ standard on a comparator: a strict weak ordering
(irreflexive, transitive, with transitive incomparability). -/
def StrictWeakOrder (comp : Record → Record → Bool) : Prop :=
  (∀ a, comp a a = false) ∧
  (∀ a b c, comp a b = true → comp b c = true → comp a c = true) ∧
  (∀ a b c, comp a b = false → comp b a = false → comp b c = false → comp c b = false →
    comp a c = false ∧ comp c a = false)

/-- The contract of `std::sort(first, last, comp)` in the C++ standard: for a
strict weak ordering the result is a rearrangement of the input in which no
later element compares less than an earlier one.  The relative order of
equivalent elements is left open. -/
def StdSortContract (sort : (Record → Record → Bool) → List Record → List Record) : Prop :=
  ∀ comp l, StrictWeakOrder comp →
    (sort comp l).Perm l ∧ (sort comp l).Pairwise (fun a b => comp b a = false)

/-- The filter loop of `Table::select` (no GROUP BY). -/
def filterLoop (columns : List Str) (where_column where_value : Str) :
    List Record → List Record → Except DbError (List Record)
  | [], filtered_records => .ok filtered_records
  | record :: rest, filtered_records =>
    match whereMatch columns where_column where_value record with
    | .error e => .error e
    | .ok true => filterLoop columns where_column where_value rest (filtered_records ++ [record])
    | .ok false => filterLoop columns where_column where_value rest filtered_records

/-- The group key of a record: `key += record.fields[idx] + "_"` for every group index. -/
def groupKey (group_indices : List Nat) (record : Record) : Str :=
  group_indices.foldl (fun key idx => key ++ (record.fieldAt idx ++ [UNDERSCORE])) []

/-- The statement `grouped_records[key].emplace_back(record)` on a
`std::map<std::string, std::vector<Record>>`, whose entries are kept in
ascending key order. -/
def mapAppend (key : Str) (record : Record) : List (Str × List Record) → List (Str × List Record)
  | [] => [(key, [record])]
  | (k, rs) :: m =>
    if key = k then (k, rs ++ [record]) :: m
    else if strLt key k then (key, [record]) :: (k, rs) :: m
    else (k, rs) :: mapAppend key record m

/-- The grouping loop of `Table::select` (GROUP BY present). -/
def groupLoop (columns : List Str) (where_column where_value : Str) (group_indices : List Nat) :
    List Record → List (Str × List Record) → Except DbError (List (Str × List Record))
  | [], grouped_records => .ok grouped_records
  | record :: rest, grouped_records =>
    match whereMatch columns where_column where_value record with
    | .error e => .error e
    | .ok true =>
      groupLoop columns where_column where_value group_indices rest
        (mapAppend (groupKey group_indices record) record grouped_records)
    | .ok false => groupLoop columns where_column where_value group_indices rest grouped_records

/-- The loop that prepares `agg_functions` under GROUP BY: the function name is
upper-cased; `COUNT(*)` gets index `-1`, `COUNT(col)` the index of `col`. -/
def prepareAggregates (columns : List Str) :
    List (Str × Str) → List (Str × Int) → Except DbError (List (Str × Int))
  | [], agg_functions => .ok agg_functions
  | agg :: rest, agg_functions =>
    let func := agg.1.map Char.toUpper
    let target := agg.2
    if func = "COUNT".toList then
      if target = "*".toList then prepareAggregates columns rest (agg_functions ++ [(func, -1)])
      else
        match findColumn columns target with
        | some idx => prepareAggregates columns rest (agg_functions ++ [(func, (idx : Int))])
        | none => .error (.UnknownColumn target)
    else .error (.UnsupportedAggregate func)

/-- The counting loop `for rec: if (!rec.fields[idx].empty()) count++`. -/
def countNonEmpty (idx : Nat) (recs : List Record) : Nat :=
  recs.foldl (fun count r => if r.fieldAt idx ≠ [] then count + 1 else count) 0

/-- The printing loop over the pieces of a group key: a piece is printed while
`idx < group_by.size()`. -/
def printKeyPieces (group_by_size : Nat) : List Str → Nat → List Str
  | [], _ => []
  | value :: rest, idx =>
    if idx < group_by_size then value :: printKeyPieces group_by_size rest (idx + 1)
    else printKeyPieces group_by_size rest (idx + 1)

/-- The aggregate cell of one group for one prepared aggregate. -/
def groupAggCell (agg : Str × Int) (recs : List Record) : Option Nat :=
  if agg.1 = "COUNT".toList then
    if agg.2 = -1 then some recs.length else some (countNonEmpty agg.2.toNat recs)
  else none

/-- One line of the grouped output: the key is split again at underscores, then
the aggregates of the group follow. -/
def groupRow (group_by_size : Nat) (agg_functions : List (Str × Int))
    (pair : Str × List Record) : Row :=
  { values := printKeyPieces group_by_size (getlines UNDERSCORE pair.1) 0,
    aggs := agg_functions.map (fun agg => groupAggCell agg pair.2) }

/-- The header cell of a prepared aggregate under GROUP BY. -/
def groupAggLabel (columns : List Str) (agg : Str × Int) : Str :=
  if agg.2 = -1 then "COUNT(*)".toList
  else "COUNT(".toList ++ columns.getD agg.2.toNat [] ++ ")".toList

/-- The GROUP BY branch of `Table::select`, after the projection was resolved. -/
def selectGrouped (t : Table) (aggregates : List (Str × Str)) (where_column where_value : Str)
    (group_by : List Str) : Except DbError SelectOutput :=
  match resolveColumns t.columns group_by [] with
  | .error e => .error e
  | .ok group_indices =>
    match prepareAggregates t.columns aggregates [] with
    | .error e => .error e
    | .ok agg_functions =>
      match groupLoop t.columns where_column where_value group_indices t.records [] with
      | .error e => .error e
      | .ok grouped_records =>
        .ok { header := group_by ++ agg_functions.map (groupAggLabel t.columns),
              rows := grouped_records.map (groupRow group_by.length agg_functions),
              summary := [] }

/-- The per-row aggregate cell printed without GROUP BY. -/
def rowAggCell (columns : List Str) (record : Record) (agg : Str × Str) : Option Nat :=
  if agg.1 = "COUNT".toList then
    if agg.2 = "*".toList then some 1
    else
      match findColumn columns agg.2 with
      | some idx => some (if record.fieldAt idx ≠ [] then 1 else 0)
      | none => some 0
  else none

/-- One line of the trailing summary printed without GROUP BY. -/
def summaryLine (columns : List Str) (filtered_records : List Record) (agg : Str × Str) :
    Option (Str × Nat) :=
  if agg.1 = "COUNT".toList then
    if agg.2 = "*".toList then some ("COUNT(*)".toList, filtered_records.length)
    else
      match findColumn columns agg.2 with
      | some idx =>
        some ("COUNT(".toList ++ agg.2 ++ ")".toList, countNonEmpty idx filtered_records)
      | none => some ("COUNT(".toList ++ agg.2 ++ ")".toList, 0)
  else none

/-- The printing part of `Table::select` without GROUP BY: header, one row per
record, and the summary when aggregates were requested. -/
def printPlain (t : Table) (select_columns : List Str) (aggregates : List (Str × Str))
    (col_indices : List Nat) (filtered_records : List Record) : SelectOutput :=
  { header := (if select_columns = [] then t.columns else select_columns) ++
      aggregates.map (fun agg => agg.1 ++ "(".toList ++ agg.2 ++ ")".toList),
    rows := filtered_records.map (fun record =>
      { values := col_indices.map record.fieldAt,
        aggs := aggregates.map (rowAggCell t.columns record) }),
    summary := if aggregates ≠ [] then aggregates.filterMap (summaryLine t.columns filtered_records)
      else [] }

/-- The branch of `Table::select` without GROUP BY: filter, sort, print. -/
def selectPlain (sort : (Record → Record → Bool) → List Record → List Record) (t : Table)
    (select_columns : List Str) (aggregates : List (Str × Str)) (where_column where_value : Str)
    (order_by : List (Str × Str)) (col_indices : List Nat) : Except DbError SelectOutput :=
  match filterLoop t.columns where_column where_value t.records [] with
  | .error e => .error e
  | .ok filtered_records =>
    if order_by ≠ [] then
      match resolveOrderBy t.columns order_by [] with
      | .error e => .error e
      | .ok keys =>
        .ok (printPlain t select_columns aggregates col_indices (sort (orderLess keys) filtered_records))
    else .ok (printPlain t select_columns aggregates col_indices filtered_records)

/-- `Table::select`.  An `error` is one of the early returns of the code, all of
which come before the first write to `std::cout`; `ok` carries what is printed. -/
def Table.select (sort : (Record → Record → Bool) → List Record → List Record) (t : Table)
    (select_columns : List Str) (aggregates : List (Str × Str)) (where_column where_value : Str)
    (order_by : List (Str × Str)) (group_by : List Str) : Except DbError SelectOutput :=
  match (if select_columns = [] then .ok (List.range t.columns.length)
         else resolveColumns t.columns select_columns []) with
  | .error e => .error e
  | .ok col_indices =>
    if group_by ≠ [] then selectGrouped t aggregates where_column where_value group_by
    else selectPlain sort t select_columns aggregates where_column where_value order_by col_indices

/-! ### `Database` -/

/-- A `std::unordered_map<std::string, std::unique_ptr<Table>>`: at most one
table per name; the iteration order is whatever order the entries are stored in. -/
abbrev TableMap := AList (fun _ : Str => Table)

/-- Class `Database` of `Database.hpp`, together with the file system its
tables write to. -/
structure Database where
  tables : TableMap
  transaction_active : Bool
  table_backups : TableMap
  storage : Storage

/-- `Database::createTable`: the constructor `Table(name, columns)` already saves
the schema; a second `save` follows outside a transaction. -/
def Database.createTable (db : Database) (name : Str) (columns : List Str) :
    Database × Except DbError Unit :=
  if (db.tables.lookup name).isSome then (db, .error (.AlreadyExists name))
  else
    let made := Table.create name columns db.storage
    let fs := if db.transaction_active = false then made.1.save made.2 else made.2
    ({ db with tables := db.tables.insert name made.1, storage := fs }, .ok ())

/-- `Database::loadTable`. -/
def Database.loadTable (db : Database) (name : Str) : Database × Except DbError Unit :=
  if (db.tables.lookup name).isSome then (db, .error (.AlreadyLoaded name))
  else if (db.storage.files (DATA_DIR ++ name ++ ".tbl".toList)).isNone then
    (db, .error (.NotFound name))
  else ({ db with tables := db.tables.insert name (Table.loadNew name db.storage) }, .ok ())

/-- `Database::getTable`. -/
def Database.getTable (db : Database) (name : Str) : Except DbError Table :=
  match db.tables.lookup name with
  | some t => .ok t
  | none => .error (.NotFound name)

/-- `Database::beginTransaction`: every loaded table is copied into `table_backups`. -/
def Database.beginTransaction (db : Database) : Database × Except DbError Unit :=
  if db.transaction_active then (db, .error .AlreadyActive)
  else
    ({ db with
        table_backups := db.tables.foldl (fun backups name t => backups.insert name t)
          db.table_backups,
        transaction_active := true }, .ok ())

/-- `Database::commitTransaction`: every loaded table is saved, the backups are dropped. -/
def Database.commitTransaction (db : Database) : Database × Except DbError Unit :=
  if db.transaction_active = false then (db, .error .NoActiveTransaction)
  else
    ({ db with
        storage := db.tables.foldl (fun fs _ t => t.save fs) db.storage,
        table_backups := ∅,
        transaction_active := false }, .ok ())

/-- `Database::rollbackTransaction`: every backup whose name is still in `tables`
replaces the table of that name, then the backups are dropped. -/
def Database.rollbackTransaction (db : Database) : Database × Except DbError Unit :=
  if db.transaction_active = false then (db, .error .NoActiveTransaction)
  else
    ({ db with
        tables := db.table_backups.foldl
          (fun tables name backup =>
            if (tables.lookup name).isSome then tables.insert name backup else tables)
          db.tables,
        table_backups := ∅,
        transaction_active := false }, .ok ())

/-- The INSERT branch of `Database::run` after parsing: the table is looked up,
`insert` is called, and outside a transaction the table is saved. -/
def Database.insertInto (db : Database) (table_name : Str) (values : List Str) :
    Database × Except DbError Unit :=
  match db.tables.lookup table_name with
  | none => (db, .error (.NotFound table_name))
  | some table =>
    let r := table.insert values
    let fs := if db.transaction_active = false then r.1.save db.storage else db.storage
    ({ db with tables := db.tables.insert table_name r.1, storage := fs }, r.2)

/-- The UPDATE branch of `Database::run` after parsing. -/
def Database.updateTable (db : Database) (table_name set_column set_value where_column
    where_value : Str) : Database × Except DbError Nat :=
  match db.tables.lookup table_name with
  | none => (db, .error (.NotFound table_name))
  | some table =>
    let r := table.update set_column set_value where_column where_value
    let fs := if db.transaction_active = false then r.1.save db.storage else db.storage
    ({ db with tables := db.tables.insert table_name r.1, storage := fs }, r.2)

/-- The DELETE branch of `Database::run` after parsing. -/
def Database.deleteFrom (db : Database) (table_name where_column where_value : Str) :
    Database × Except DbError Nat :=
  match db.tables.lookup table_name with
  | none => (db, .error (.NotFound table_name))
  | some table =>
    let r := table.deleteRecords where_column where_value
    let fs := if db.transaction_active = false then r.1.save db.storage else db.storage
    ({ db with tables := db.tables.insert table_name r.1, storage := fs }, r.2)

/-- The mutation requests of the command surface. -/
inductive Mutation where
  | CreateTable (name : Str) (columns : List Str)
  | Insert (table : Str) (values : List Str)
  | Update (table set_column set_value where_column where_value : Str)
  | Delete (table where_column where_value : Str)
  deriving DecidableEq, Repr

/-- The database after one mutation request was dispatched. -/
def Database.mutate (db : Database) : Mutation → Database
  | .CreateTable name columns => (db.createTable name columns).1
  | .Insert table values => (db.insertInto table values).1
  | .Update table set_column set_value where_column where_value =>
    (db.updateTable table set_column set_value where_column where_value).1
  | .Delete table where_column where_value => (db.deleteFrom table where_column where_value).1

/-- The database after a sequence of mutation requests, dispatched in order. -/
def Database.mutateAll (db : Database) (ops : List Mutation) : Database :=
  ops.foldl Database.mutate db

/-! ### The SELECT branch of `Database::run`: the select list

The branch reads the words that follow `SELECT` one by one with `ss >> token`.
The loop over the select list and the test for `FROM` that follows it are
embedded; what the branch does after `FROM` was found (table name, clauses,
`getTable`, `Table::select`) is the parameter `afterFrom` of `runSelect`. -/

/-- What the SELECT branch writes to `std::cerr` up to the test for `FROM`: a
report that belongs to an error kind, or "Invalid syntax. Missing 'FROM'". -/
inductive CommandReport where
  | error (e : DbError)
  | missingFrom
  deriving DecidableEq, Repr

/-- The variables of the select-list loop when the loop ends: the two vectors,
the last value of `token`, the words not read yet, and what was reported. -/
structure SelectList where
  selected_columns : List Str
  aggregates : List (Str × Str)
  token : Str
  unread : List Str
  reports : List CommandReport
  deriving DecidableEq, Repr

/-- The test `token == "FROM" || token == "from" || token == "From"`. -/
def isFrom (token : Str) : Bool :=
  decide (token = "FROM".toList ∨ token = "from".toList ∨ token = "From".toList)

/-- The step `if (token.back() == ',') token.pop_back()`. -/
def stripComma (token : Str) : Str :=
  if token.getLast? = some ',' then token.dropLast else token

/-- The position `token.find(c)`: the index of the first `c`, or the length of
the token for `npos`. -/
def findChar (c : Char) : Str → Nat
  | [] => 0
  | d :: rest => if d = c then 0 else findChar c rest + 1

/-- The test `pos != npos && token.back() == ')'` together with the two `substr`
calls and the upper-casing of the function name: the name and the argument of a
token of the form `func(arg)`. -/
def aggregateCall (token : Str) : Option (Str × Str) :=
  let pos := findChar '(' token
  if pos < token.length ∧ token.getLast? = some ')' then
    some ((token.take pos).map Char.toUpper,
      (token.drop (pos + 1)).take (token.length - pos - 2))
  else none

/-- The loop `while (ss >> token && token != "FROM" && ...)` over the words after
`SELECT`.  When no word is left the extraction fails and `token` keeps its
value; a function name other than `COUNT` is reported, `aggregates` is cleared
and the loop is left. -/
def selectListLoop : List Str → Str → List Str → List (Str × Str) → SelectList
  | [], token, selected_columns, aggregates => ⟨selected_columns, aggregates, token, [], []⟩
  | word :: unread, _, selected_columns, aggregates =>
    if isFrom word then ⟨selected_columns, aggregates, word, unread, []⟩
    else
      match aggregateCall (stripComma word) with
      | some (func, arg) =>
        if func = "COUNT".toList then
          selectListLoop unread (stripComma word) selected_columns
            (aggregates ++ [("COUNT".toList, arg)])
        else
          ⟨selected_columns, [], stripComma word, unread,
            [.error (.UnsupportedAggregate func)]⟩
      | none =>
        selectListLoop unread (stripComma word) (selected_columns ++ [stripComma word])
          aggregates

/-- The SELECT branch of `Database::run` on the words after `SELECT`: the select
list is read; without `FROM` as the last token the syntax error is reported and
the command ends; otherwise the rest of the branch runs.  The result is what was
reported and, when it ran, the result of the rest of the branch. -/
def runSelect {α : Type} (afterFrom : SelectList → α) (words : List Str) :
    List CommandReport × Option α :=
  let parsed := selectListLoop words [] [] []
  if isFrom parsed.token = false then (parsed.reports ++ [.missingFrom], none)
  else (parsed.reports, some (afterFrom parsed))

/-! ## Specification-side vocabulary -/

/-- The WHERE predicate in the words of the specification: an absent predicate
(empty column name) lets every record pass, otherwise the record's field for the
column must equal the value as a string. -/
def specWhere (columns : List Str) (where_column where_value : Str) (r : Record) : Bool :=
  decide (where_column = [] ∨ r.fieldAt (columnIndex columns where_column) = where_value)

/-- The field-count invariant of the data model: every record has exactly as
many fields as the table has columns. -/
def Table.fieldCountOk (t : Table) : Prop :=
  ∀ r ∈ t.records, r.fields.length = t.columns.length

instance (t : Table) : Decidable t.fieldCountOk := by
  unfold Table.fieldCountOk
  infer_instance


/-! ## Example states used by the witnesses and counterexamples -/

/-- A file system with no file in which every path can be written and different
path strings name different files. -/
def emptyStorage : Storage := ⟨fun _ => none, fun _ => true, fun p q => decide (p = q)⟩

/-- The table `t(a, b)` of the specification's scenarios, holding `(1, x)`,
`(2, y)`, `(1, z)`. -/
def scenarioTable : Table :=
  ⟨"t".toList, ["a".toList, "b".toList],
    [⟨["1".toList, "x".toList]⟩, ⟨["2".toList, "y".toList]⟩, ⟨["1".toList, "z".toList]⟩],
    "data/t.tbl".toList⟩

/-- A table `t(a)` whose only field holds a quote character and no comma. -/
def quoteTable : Table :=
  ⟨"t".toList, ["a".toList], [⟨[['x', QUOTE, 'y']]⟩], "data/t.tbl".toList⟩

/-- A table whose only column name holds a comma. -/
def commaColumnTable : Table :=
  ⟨"t".toList, [['a', COMMA, 'b']], [], "data/t.tbl".toList⟩

/-- A table `t(a)` whose only field holds a newline. -/
def newlineTable : Table :=
  ⟨"t".toList, ["a".toList], [⟨[['x', NEWLINE, 'y']]⟩], "data/t.tbl".toList⟩

/-- A table without columns and without records. -/
def noColumnTable : Table := ⟨"t".toList, [], [], "data/t.tbl".toList⟩

/-- A table `t(a, b)` whose record holds a comma inside a field and an empty field. -/
def commaFieldTable : Table :=
  ⟨"t".toList, ["a".toList, "b".toList], [⟨[['1', COMMA, '2'], []]⟩], "data/t.tbl".toList⟩

/-- A catalog holding only `scenarioTable`, outside a transaction. -/
def scenarioDatabase : Database :=
  ⟨AList.singleton "t".toList scenarioTable, false, ∅, emptyStorage⟩

/-- Mutations that touch `t` and create a second table. -/
def scenarioMutations : List Mutation :=
  [.Insert "t".toList ["3".toList, "w".toList],
   .Update "t".toList "b".toList "q".toList "a".toList "1".toList,
   .Delete "t".toList [] [],
   .CreateTable "u".toList ["c".toList]]

/-! ## Specification-side vocabulary for ORDER BY -/

/-- The resolved sort keys of an ORDER BY list: column position and direction. -/
def orderKeys (columns : List Str) (order_by : List (Str × Str)) : List (Nat × Str) :=
  order_by.map (fun ob => (columnIndex columns ob.1, ob.2))

/-- The multi-key order in the words of the specification: at the first key on
which the two records differ, the earlier one has the smaller text when the key
is ascending and the larger text when it is descending. -/
def specOrdered (keys : List (Nat × Str)) (earlier later : Record) : Prop :=
  ∀ (pre : List (Nat × Str)) (idx : Nat) (direction : Str) (post : List (Nat × Str)),
    keys = pre ++ (idx, direction) :: post →
    (∀ key ∈ pre, earlier.fieldAt key.1 = later.fieldAt key.1) →
    earlier.fieldAt idx ≠ later.fieldAt idx →
    (direction = "ASC".toList → strLt (earlier.fieldAt idx) (later.fieldAt idx) = true) ∧
    (direction = "DESC".toList → strLt (later.fieldAt idx) (earlier.fieldAt idx) = true)

/-- Two records are equal on all sort keys. -/
def tiedOn (keys : List (Nat × Str)) (a b : Record) : Bool :=
  keys.all (fun key => decide (a.fieldAt key.1 = b.fieldAt key.1))

/-- The values a plain select shows for a record: the requested columns in the
requested order, or every column position when the projection is empty. -/
def specProject (columns select_columns : List Str) (r : Record) : List Str :=
  if select_columns = [] then (List.range columns.length).map r.fieldAt
  else select_columns.map (fun c => r.fieldAt (columnIndex columns c))

/-- One routine that meets the contract of `std::sort`: insertion sort, which
keeps equivalent elements in input order. -/
def insertionSortBy (comp : Record → Record → Bool) (l : List Record) : List Record :=
  l.insertionSort (fun a b => comp b a = false)

/-- Another routine that meets the contract of `std::sort`: insertion sort run
on the reversed input, which puts equivalent elements in reverse input order. -/
def reverseInsertionSort (comp : Record → Record → Bool) (l : List Record) : List Record :=
  l.reverse.insertionSort (fun a b => comp b a = false)

/-! ## Specification-side vocabulary for GROUP BY -/

/-- The keys of a `std::map` after `map[key]` was evaluated: the key is put at
its place in ascending order unless it is present. -/
def insertKey (key : Str) : List Str → List Str
  | [] => [key]
  | k :: ks =>
    if key = k then k :: ks
    else if strLt key k then key :: k :: ks
    else k :: insertKey key ks

/-- The number a COUNT aggregate must show for the group with the given key, in
the words of the specification: `COUNT(*)` is the number of filtered records
with that key, `COUNT(column)` the number of those whose value for the column is
not empty. -/
def specGroupCount (columns : List Str) (group_indices : List Nat) (filtered : List Record)
    (key : Str) (agg : Str × Str) : Nat :=
  if agg.2 = "*".toList then
    filtered.countP (fun r => decide (groupKey group_indices r = key))
  else
    filtered.countP (fun r => decide (groupKey group_indices r = key ∧
      r.fieldAt (columnIndex columns agg.2) ≠ []))

/-- The entry `agg_functions` holds for a COUNT aggregate: the upper-cased name
and `-1` for `COUNT(*)` or the position of the target column. -/
def aggCode (columns : List Str) (agg : Str × Str) : Str × Int :=
  ("COUNT".toList, if agg.2 = "*".toList then -1 else (columnIndex columns agg.2 : Int))

/-! ## Example states for the error and transaction claims -/

/-- The table `t(a)` without records. -/
def emptyTable : Table := ⟨"t".toList, ["a".toList], [], "data/t.tbl".toList⟩

/-- A catalog without tables inside a transaction, over a writable empty file system. -/
def activeDatabase : Database := ⟨∅, true, ∅, emptyStorage⟩

/-- A catalog without tables outside a transaction, over a file system in which
no file can be opened for writing. -/
def readOnlyDatabase : Database :=
  ⟨∅, false, ∅, ⟨fun _ => none, fun _ => false, fun p q => decide (p = q)⟩⟩

/-- The storage path both constructors of `Table` derive from the table name. -/
def tablePath (name : Str) : Str := DATA_DIR ++ name ++ ".tbl".toList

/-- The catalog invariant the constructors establish: the table registered under
a name has the storage path derived from that name. -/
def catalogPathsOk (tables : TableMap) : Prop :=
  ∀ (name : Str) (t : Table), tables.lookup name = some t → t.filepath = tablePath name

/-- No two tables of the catalog are stored in the same file: the paths of two
tables registered under different names do not name the same file. -/
def catalogFilesDistinct (fs : Storage) (tables : TableMap) : Prop :=
  ∀ (a b : Str) (ta tb : Table), tables.lookup a = some ta → tables.lookup b = some tb →
    a ≠ b → fs.sameFile ta.filepath tb.filepath = false

/-- The components of a path between slashes, without the components `.`, each
of which names the directory it stands in. -/
def pathSegments (path : Str) : List Str :=
  (getlines '/' path).filter (fun segment => decide (segment ≠ ".".toList))

/-- An empty file system in which every path can be written and in which two
paths name the same file when they differ only in `.` components, as
`data/a.tbl` and `data/./a.tbl` do. -/
def posixStorage : Storage :=
  ⟨fun _ => none, fun _ => true, fun p q => decide (pathSegments p = pathSegments q)⟩

/-- The database reached over `posixStorage` by `CREATE TABLE a (x)`,
`CREATE TABLE ./a (y)`, `BEGIN` and `INSERT INTO a VALUES (1)`. -/
def aliasedDatabase : Database :=
  (((((⟨∅, false, ∅, posixStorage⟩ : Database).createTable "a".toList ["x".toList]).1.createTable
    "./a".toList ["y".toList]).1.beginTransaction).1.insertInto "a".toList ["1".toList]).1

/-- A table `t(a)` whose only field holds an underscore. -/
def underscoreTable : Table :=
  ⟨"t".toList, ["a".toList], [⟨["x_y".toList]⟩], "data/t.tbl".toList⟩

/-! ## Specification-side vocabulary for the storage format -/

/-- Spec side: the number of quote characters among the first `i` characters of
the line. -/
def quotesBefore (s : Str) (i : Nat) : Nat :=
  ((s.take i).filter (fun c => decide (c = QUOTE))).length

/-- Spec side: position `i` of the line holds a comma preceded by an even number
of quote characters. -/
def isSplitComma (s : Str) (i : Nat) : Bool :=
  decide (s[i]? = some COMMA) && decide (quotesBefore s i % 2 = 0)

/-- Spec side: one plus the number of splitting commas of the line. -/
def specFieldCount (s : Str) : Nat :=
  1 + ((List.range' 0 s.length).filter (isSplitComma s)).length

/-- Spec side: position `i` of the line holds neither a quote character nor a
splitting comma. -/
def isKept (s : Str) (i : Nat) : Bool :=
  !decide (s[i]? = some QUOTE) && !isSplitComma s i

/-- Spec side: the line with every quote character and every splitting comma
removed. -/
def specFieldText (s : Str) : Str :=
  ((List.range' 0 s.length).filter (isKept s)).filterMap (fun i => s[i]?)

/-- A file whose second line is empty: `a`, an empty line, `x`, each ended by a
newline. -/
def blankLineText : Str := ['a', NEWLINE, NEWLINE, 'x', NEWLINE]

/-- A file system holding `blankLineText` at `data/t.tbl`. -/
def blankLineStorage : Storage :=
  ⟨fun path => if path = "data/t.tbl".toList then some blankLineText else none,
    fun _ => true, fun p q => decide (p = q)⟩

/-! ## Specification-side vocabulary for COUNT without GROUP BY -/

/-- Spec side: the value one row contributes to a COUNT aggregate: 1 for
`COUNT(*)`, and for `COUNT(column)` 1 or 0 according to whether the record's
value for the column is non-empty. -/
def specRowCount (columns : List Str) (r : Record) (agg : Str × Str) : Nat :=
  if agg.2 = "*".toList then 1
  else if r.fieldAt (columnIndex columns agg.2) ≠ [] then 1 else 0

/-- Spec side: the summary value of a COUNT aggregate: the number of filtered
records for `COUNT(*)`, the number of filtered records whose value for the
column is non-empty for `COUNT(column)`. -/
def specSummaryCount (columns : List Str) (filtered : List Record) (agg : Str × Str) : Nat :=
  if agg.2 = "*".toList then filtered.length
  else filtered.countP (fun r => decide (r.fieldAt (columnIndex columns agg.2) ≠ []))

/-! ## The same code with checked field access

The definitions above read `record.fields[idx]` through the total access
`Record.fieldAt`.  The definitions below embed the same functions of `Table.cpp`
once more with the access as C++ defines it: it has a value only when `idx` is
below `fields.size()`.  A result `none` stands for a call that performs an access
out of bounds; `some` carries what the call does otherwise. -/

/-- The read access `record.fields[idx]`, defined only in bounds. -/
def Record.fieldChecked (r : Record) (idx : Nat) : Option Str := r.fields[idx]?

/-- The assignment `record.fields[idx] = value`, defined only in bounds. -/
def Record.setChecked (r : Record) (idx : Nat) (value : Str) : Option Record :=
  if idx < r.fields.length then some ⟨r.fields.set idx value⟩ else none

/-- A loop that computes one value per element and whose body may perform an
access out of bounds. -/
def mapChecked {α β : Type} (f : α → Option β) : List α → Option (List β)
  | [] => some []
  | a :: rest =>
    match f a with
    | none => none
    | some b =>
      match mapChecked f rest with
      | none => none
      | some bs => some (b :: bs)

/-- The WHERE test of `whereMatch` with the checked access. -/
def whereMatchChecked (columns : List Str) (where_column where_value : Str) (record : Record) :
    Option (Except DbError Bool) :=
  if where_column ≠ [] then
    match findColumn columns where_column with
    | some idx =>
      match record.fieldChecked idx with
      | some field => if field ≠ where_value then some (.ok false) else some (.ok true)
      | none => none
    | none => some (.error (.UnknownColumn where_column))
  else some (.ok true)

/-- The loop of `Table::update` with checked accesses. -/
def updateLoopChecked (columns : List Str) (set_idx : Nat)
    (set_value where_column where_value : Str) :
    List Record → List Record → Nat → Option (List Record × Except DbError Nat)
  | [], done, updated_count => some (done, .ok updated_count)
  | record :: rest, done, updated_count =>
    match whereMatchChecked columns where_column where_value record with
    | none => none
    | some (.error e) => some (done ++ record :: rest, .error e)
    | some (.ok true) =>
      match record.setChecked set_idx set_value with
      | none => none
      | some updated =>
        updateLoopChecked columns set_idx set_value where_column where_value rest
          (done ++ [updated]) (updated_count + 1)
    | some (.ok false) =>
      updateLoopChecked columns set_idx set_value where_column where_value rest
        (done ++ [record]) updated_count

/-- `Table::update` with checked accesses. -/
def Table.updateChecked (t : Table) (set_column set_value where_column where_value : Str) :
    Option (Table × Except DbError Nat) :=
  match findColumn t.columns set_column with
  | none => some (t, .error (.UnknownColumn set_column))
  | some set_idx =>
    match updateLoopChecked t.columns set_idx set_value where_column where_value
        t.records [] 0 with
    | none => none
    | some r => some ({ t with records := r.1 }, r.2)

/-- The predicate of `Table::deleteRecords` with the checked access. -/
def deletePredChecked (columns : List Str) (where_column where_value : Str) (record : Record) :
    Option Bool :=
  if where_column = [] then some true
  else
    match findColumn columns where_column with
    | some idx =>
      match record.fieldChecked idx with
      | some field => some (decide (field = where_value))
      | none => none
    | none => some false

/-- `Table::deleteRecords` with checked accesses: `std::remove_if` applies the
predicate to every record. -/
def Table.deleteRecordsChecked (t : Table) (where_column where_value : Str) :
    Option (Table × Except DbError Nat) :=
  if where_column ≠ [] ∧ findColumn t.columns where_column = none then
    some (t, .error (.UnknownColumn where_column))
  else
    match mapChecked (deletePredChecked t.columns where_column where_value) t.records with
    | none => none
    | some flags =>
      let initial_size := t.records.length
      let kept := ((t.records.zip flags).filter (fun p => !p.2)).map Prod.fst
      some ({ t with records := kept }, .ok (initial_size - kept.length))

/-- The comparator lambda of `orderLess` with checked accesses. -/
def orderLessChecked : List (Nat × Str) → Record → Record → Option Bool
  | [], _, _ => some false
  | (idx, direction) :: rest, a, b =>
    match a.fieldChecked idx, b.fieldChecked idx with
    | some field_a, some field_b =>
      if strLt field_a field_b then some (decide (direction = "ASC".toList))
      else if strLt field_b field_a then some (decide (direction = "DESC".toList))
      else orderLessChecked rest a b
    | _, _ => none

/-- The call of `std::sort` with the comparator above.  `std::sort` applies the
comparator to elements of the range only; the call counts as in bounds when the
comparator is in bounds on every two elements of the range. -/
def sortChecked (sort : (Record → Record → Bool) → List Record → List Record)
    (keys : List (Nat × Str)) (filtered_records : List Record) : Option (List Record) :=
  if filtered_records.all (fun a => filtered_records.all (fun b =>
      (orderLessChecked keys a b).isSome)) then
    some (sort (orderLess keys) filtered_records)
  else none

/-- The filter loop of `Table::select` with checked accesses. -/
def filterLoopChecked (columns : List Str) (where_column where_value : Str) :
    List Record → List Record → Option (Except DbError (List Record))
  | [], filtered_records => some (.ok filtered_records)
  | record :: rest, filtered_records =>
    match whereMatchChecked columns where_column where_value record with
    | none => none
    | some (.error e) => some (.error e)
    | some (.ok true) =>
      filterLoopChecked columns where_column where_value rest (filtered_records ++ [record])
    | some (.ok false) => filterLoopChecked columns where_column where_value rest filtered_records

/-- The loop `key += record.fields[idx] + "_"` with checked accesses. -/
def groupKeyChecked (record : Record) : List Nat → Str → Option Str
  | [], key => some key
  | idx :: rest, key =>
    match record.fieldChecked idx with
    | none => none
    | some field => groupKeyChecked record rest (key ++ (field ++ [UNDERSCORE]))

/-- The grouping loop of `Table::select` with checked accesses. -/
def groupLoopChecked (columns : List Str) (where_column where_value : Str)
    (group_indices : List Nat) :
    List Record → List (Str × List Record) → Option (Except DbError (List (Str × List Record)))
  | [], grouped_records => some (.ok grouped_records)
  | record :: rest, grouped_records =>
    match whereMatchChecked columns where_column where_value record with
    | none => none
    | some (.error e) => some (.error e)
    | some (.ok true) =>
      match groupKeyChecked record group_indices [] with
      | none => none
      | some key =>
        groupLoopChecked columns where_column where_value group_indices rest
          (mapAppend key record grouped_records)
    | some (.ok false) =>
      groupLoopChecked columns where_column where_value group_indices rest grouped_records

/-- The counting loop of `countNonEmpty` with checked accesses. -/
def countNonEmptyChecked (idx : Nat) : List Record → Nat → Option Nat
  | [], count => some count
  | r :: rest, count =>
    match r.fieldChecked idx with
    | none => none
    | some field => countNonEmptyChecked idx rest (if field ≠ [] then count + 1 else count)

/-- The aggregate cell of one group with checked accesses. -/
def groupAggCellChecked (agg : Str × Int) (recs : List Record) : Option (Option Nat) :=
  if agg.1 = "COUNT".toList then
    if agg.2 = -1 then some (some recs.length)
    else
      match countNonEmptyChecked agg.2.toNat recs 0 with
      | none => none
      | some count => some (some count)
  else some none

/-- One line of the grouped output with checked accesses. -/
def groupRowChecked (group_by_size : Nat) (agg_functions : List (Str × Int))
    (pair : Str × List Record) : Option Row :=
  match mapChecked (fun agg => groupAggCellChecked agg pair.2) agg_functions with
  | none => none
  | some aggs =>
    some { values := printKeyPieces group_by_size (getlines UNDERSCORE pair.1) 0, aggs := aggs }

/-- The GROUP BY branch of `Table::select` with checked accesses. -/
def selectGroupedChecked (t : Table) (aggregates : List (Str × Str))
    (where_column where_value : Str) (group_by : List Str) :
    Option (Except DbError SelectOutput) :=
  match resolveColumns t.columns group_by [] with
  | .error e => some (.error e)
  | .ok group_indices =>
    match prepareAggregates t.columns aggregates [] with
    | .error e => some (.error e)
    | .ok agg_functions =>
      match groupLoopChecked t.columns where_column where_value group_indices t.records [] with
      | none => none
      | some (.error e) => some (.error e)
      | some (.ok grouped_records) =>
        match mapChecked (groupRowChecked group_by.length agg_functions) grouped_records with
        | none => none
        | some rows =>
          some (.ok { header := group_by ++ agg_functions.map (groupAggLabel t.columns),
                      rows := rows,
                      summary := [] })

/-- The per-row aggregate cell printed without GROUP BY, with the checked access. -/
def rowAggCellChecked (columns : List Str) (record : Record) (agg : Str × Str) :
    Option (Option Nat) :=
  if agg.1 = "COUNT".toList then
    if agg.2 = "*".toList then some (some 1)
    else
      match findColumn columns agg.2 with
      | some idx =>
        match record.fieldChecked idx with
        | none => none
        | some field => some (some (if field ≠ [] then 1 else 0))
      | none => some (some 0)
  else some none

/-- One line of the trailing summary with checked accesses. -/
def summaryLineChecked (columns : List Str) (filtered_records : List Record) (agg : Str × Str) :
    Option (Option (Str × Nat)) :=
  if agg.1 = "COUNT".toList then
    if agg.2 = "*".toList then some (some ("COUNT(*)".toList, filtered_records.length))
    else
      match findColumn columns agg.2 with
      | some idx =>
        match countNonEmptyChecked idx filtered_records 0 with
        | none => none
        | some count => some (some ("COUNT(".toList ++ agg.2 ++ ")".toList, count))
      | none => some (some ("COUNT(".toList ++ agg.2 ++ ")".toList, 0))
  else some none

/-- One printed row without GROUP BY, with checked accesses. -/
def plainRowChecked (columns : List Str) (aggregates : List (Str × Str))
    (col_indices : List Nat) (record : Record) : Option Row :=
  match mapChecked record.fieldChecked col_indices with
  | none => none
  | some values =>
    match mapChecked (rowAggCellChecked columns record) aggregates with
    | none => none
    | some aggs => some { values := values, aggs := aggs }

/-- The printing part of `Table::select` without GROUP BY, with checked accesses. -/
def printPlainChecked (t : Table) (select_columns : List Str) (aggregates : List (Str × Str))
    (col_indices : List Nat) (filtered_records : List Record) : Option SelectOutput :=
  match mapChecked (plainRowChecked t.columns aggregates col_indices) filtered_records with
  | none => none
  | some rows =>
    match (if aggregates ≠ [] then
        mapChecked (summaryLineChecked t.columns filtered_records) aggregates
      else some []) with
    | none => none
    | some lines =>
      some { header := (if select_columns = [] then t.columns else select_columns) ++
               aggregates.map (fun agg => agg.1 ++ "(".toList ++ agg.2 ++ ")".toList),
             rows := rows,
             summary := lines.filterMap id }

/-- The branch of `Table::select` without GROUP BY, with checked accesses. -/
def selectPlainChecked (sort : (Record → Record → Bool) → List Record → List Record)
    (t : Table) (select_columns : List Str) (aggregates : List (Str × Str))
    (where_column where_value : Str) (order_by : List (Str × Str)) (col_indices : List Nat) :
    Option (Except DbError SelectOutput) :=
  match filterLoopChecked t.columns where_column where_value t.records [] with
  | none => none
  | some (.error e) => some (.error e)
  | some (.ok filtered_records) =>
    if order_by ≠ [] then
      match resolveOrderBy t.columns order_by [] with
      | .error e => some (.error e)
      | .ok keys =>
        match sortChecked sort keys filtered_records with
        | none => none
        | some sorted_records =>
          match printPlainChecked t select_columns aggregates col_indices sorted_records with
          | none => none
          | some out => some (.ok out)
    else
      match printPlainChecked t select_columns aggregates col_indices filtered_records with
      | none => none
      | some out => some (.ok out)

/-- `Table::select` with checked accesses. -/
def Table.selectChecked (sort : (Record → Record → Bool) → List Record → List Record)
    (t : Table) (select_columns : List Str) (aggregates : List (Str × Str))
    (where_column where_value : Str) (order_by : List (Str × Str)) (group_by : List Str) :
    Option (Except DbError SelectOutput) :=
  match (if select_columns = [] then .ok (List.range t.columns.length)
         else resolveColumns t.columns select_columns []) with
  | .error e => some (.error e)
  | .ok col_indices =>
    if group_by ≠ [] then selectGroupedChecked t aggregates where_column where_value group_by
    else
      selectPlainChecked sort t select_columns aggregates where_column where_value order_by
        col_indices

/-- A table `t(a, b)` whose only record has one field: the field-count invariant
does not hold. -/
def shortRecordTable : Table :=
  ⟨"t".toList, ["a".toList, "b".toList], [⟨["1".toList]⟩], "data/t.tbl".toList⟩

/-! ### `std::sort` as GNU libstdc++ implements it

`Table::select` calls `std::sort`; the C++ standard fixes only its contract.  The
definitions below embed the algorithm of GNU libstdc++ (`bits/stl_algo.h`):
introsort with a median-of-three pivot on ranges of more than 16 elements,
followed by insertion sort.  The vector is a list, iterators are positions in
it.  Loops that the C++ code runs without a bound check get the length of the
vector as fuel.  The heap sort that libstdc++ switches to when the depth limit
is used up is not embedded: `introsortLoop` then has no value. -/

/-- The threshold `_S_threshold` of libstdc++. -/
def S_threshold : Nat := 16

/-- `std::iter_swap(first + i, first + j)`. -/
def iterSwap (v : List Record) (i j : Nat) : List Record :=
  (v.set i (v.getD j ⟨[]⟩)).set j (v.getD i ⟨[]⟩)

/-- `std::__move_median_to_first(result, a, b, c, comp)`. -/
def moveMedianToFirst (comp : Record → Record → Bool) (v : List Record)
    (result a b c : Nat) : List Record :=
  if comp (v.getD a ⟨[]⟩) (v.getD b ⟨[]⟩) then
    if comp (v.getD b ⟨[]⟩) (v.getD c ⟨[]⟩) then iterSwap v result b
    else if comp (v.getD a ⟨[]⟩) (v.getD c ⟨[]⟩) then iterSwap v result c
    else iterSwap v result a
  else if comp (v.getD a ⟨[]⟩) (v.getD c ⟨[]⟩) then iterSwap v result a
  else if comp (v.getD b ⟨[]⟩) (v.getD c ⟨[]⟩) then iterSwap v result c
  else iterSwap v result b

/-- The loop `while (comp(first, pivot)) ++first` of `__unguarded_partition`. -/
def partitionAdvance (comp : Record → Record → Bool) (v : List Record) (pivot : Nat) :
    Nat → Nat → Nat
  | 0, first => first
  | fuel + 1, first =>
    if comp (v.getD first ⟨[]⟩) (v.getD pivot ⟨[]⟩) then
      partitionAdvance comp v pivot fuel (first + 1)
    else first

/-- The loop `while (comp(pivot, last)) --last` of `__unguarded_partition`. -/
def partitionRetreat (comp : Record → Record → Bool) (v : List Record) (pivot : Nat) :
    Nat → Nat → Nat
  | 0, last => last
  | fuel + 1, last =>
    if comp (v.getD pivot ⟨[]⟩) (v.getD last ⟨[]⟩) then
      partitionRetreat comp v pivot fuel (last - 1)
    else last

/-- `std::__unguarded_partition(first, last, pivot, comp)`: the vector after the
swaps and the position returned. -/
def unguardedPartition (comp : Record → Record → Bool) (pivot : Nat) :
    Nat → List Record → Nat → Nat → List Record × Nat
  | 0, v, first, _ => (v, first)
  | fuel + 1, v, first, last =>
    let first := partitionAdvance comp v pivot v.length first
    let last := partitionRetreat comp v pivot v.length (last - 1)
    if ¬ first < last then (v, first)
    else unguardedPartition comp pivot fuel (iterSwap v first last) (first + 1) last

/-- `std::__unguarded_partition_pivot(first, last, comp)`. -/
def unguardedPartitionPivot (comp : Record → Record → Bool) (v : List Record)
    (first last : Nat) : List Record × Nat :=
  let mid := first + (last - first) / 2
  let v := moveMedianToFirst comp v first (first + 1) mid (last - 1)
  unguardedPartition comp first v.length v (first + 1) last

/-- `std::__introsort_loop(first, last, depth_limit, comp)`; no value when the
depth limit is used up on a range of more than 16 elements. -/
def introsortLoop (comp : Record → Record → Bool) :
    Nat → List Record → Nat → Nat → Nat → Option (List Record)
  | 0, v, first, last, _ => if last - first > S_threshold then none else some v
  | fuel + 1, v, first, last, depth_limit =>
    if last - first > S_threshold then
      if depth_limit = 0 then none
      else
        let cut := unguardedPartitionPivot comp v first last
        match introsortLoop comp fuel cut.1 cut.2 last (depth_limit - 1) with
        | none => none
        | some v => introsortLoop comp fuel v first cut.2 (depth_limit - 1)
    else some v

/-- `std::__unguarded_linear_insert(last, comp)` with `val` already taken out.
The loop has no bound check in the C++ code; here it also ends at the start of
the vector. -/
def unguardedLinearInsert (comp : Record → Record → Bool) (val : Record) :
    Nat → List Record → Nat → List Record
  | 0, v, last => v.set last val
  | fuel + 1, v, last =>
    if last ≠ 0 ∧ comp val (v.getD (last - 1) ⟨[]⟩) = true then
      unguardedLinearInsert comp val fuel (v.set last (v.getD (last - 1) ⟨[]⟩)) (last - 1)
    else v.set last val

/-- One step of the loop of `std::__insertion_sort(first, last, comp)` for the
position `i`: an element less than the first one is moved to the front with
`std::move_backward`, any other is inserted without a bound check. -/
def insertionStep (comp : Record → Record → Bool) (first : Nat) (v : List Record) (i : Nat) :
    List Record :=
  if comp (v.getD i ⟨[]⟩) (v.getD first ⟨[]⟩) then
    v.take first ++ [v.getD i ⟨[]⟩] ++ (v.drop first).take (i - first) ++ v.drop (i + 1)
  else unguardedLinearInsert comp (v.getD i ⟨[]⟩) v.length v i

/-- `std::__insertion_sort(first, last, comp)`. -/
def insertionSortRange (comp : Record → Record → Bool) (v : List Record) (first last : Nat) :
    List Record :=
  if first = last then v
  else (List.range' (first + 1) (last - (first + 1))).foldl (insertionStep comp first) v

/-- `std::__unguarded_insertion_sort(first, last, comp)`. -/
def unguardedInsertionSort (comp : Record → Record → Bool) (v : List Record)
    (first last : Nat) : List Record :=
  (List.range' first (last - first)).foldl
    (fun v i => unguardedLinearInsert comp (v.getD i ⟨[]⟩) v.length v i) v

/-- `std::__final_insertion_sort(first, last, comp)`. -/
def finalInsertionSort (comp : Record → Record → Bool) (v : List Record) (first last : Nat) :
    List Record :=
  if last - first > S_threshold then
    unguardedInsertionSort comp (insertionSortRange comp v first (first + S_threshold))
      (first + S_threshold) last
  else insertionSortRange comp v first last

/-- `std::__lg(n)`: the position of the highest bit of `n`. -/
def lg : Nat → Nat → Nat
  | 0, _ => 0
  | fuel + 1, n => if n < 2 then 0 else lg fuel (n / 2) + 1

/-- `std::sort(first, last, comp)` of libstdc++ on a whole vector; no value when
the heap sort would be needed. -/
def gnuSort (comp : Record → Record → Bool) (v : List Record) : Option (List Record) :=
  if v.length = 0 then some v
  else
    match introsortLoop comp v.length v 0 v.length (lg v.length v.length * 2) with
    | none => none
    | some sorted => some (finalInsertionSort comp sorted 0 v.length)

/-- The sort routine handed to `Table.select` for libstdc++: `gnuSort`, and the
vector as it is in the case that is not embedded. -/
def gnuSortOrKeep (comp : Record → Record → Bool) (v : List Record) : List Record :=
  (gnuSort comp v).getD v

/-- The table `t(a, b)` after seventeen inserts `(1, 01)`, `(1, 02)`, ..., `(1, 17)`:
all records are equal in column `a`. -/
def tiesTable : Table :=
  ⟨"t".toList, ["a".toList, "b".toList],
   [
    ⟨["1".toList, "01".toList]⟩, ⟨["1".toList, "02".toList]⟩, ⟨["1".toList, "03".toList]⟩,
    ⟨["1".toList, "04".toList]⟩, ⟨["1".toList, "05".toList]⟩, ⟨["1".toList, "06".toList]⟩,
    ⟨["1".toList, "07".toList]⟩, ⟨["1".toList, "08".toList]⟩, ⟨["1".toList, "09".toList]⟩,
    ⟨["1".toList, "10".toList]⟩, ⟨["1".toList, "11".toList]⟩, ⟨["1".toList, "12".toList]⟩,
    ⟨["1".toList, "13".toList]⟩, ⟨["1".toList, "14".toList]⟩, ⟨["1".toList, "15".toList]⟩,
    ⟨["1".toList, "16".toList]⟩, ⟨["1".toList, "17".toList]⟩],
   "data/t.tbl".toList⟩

/-! ## Lemmas on column lookup and the WHERE test -/

theorem columnIndex_lt_length {columns : List Str} {col : Str} :
    columnIndex columns col < columns.length ↔ col ∈ columns := by
  induction columns with
  | nil => simp [columnIndex]
  | cons c cs ih =>
    by_cases h : c = col
    · simp [columnIndex, h]
    · have h2 : ¬ col = c := fun e => h e.symm
      simp [columnIndex, h, h2, ih]

theorem findColumn_of_mem {columns : List Str} {col : Str} (h : col ∈ columns) :
    findColumn columns col = some (columnIndex columns col) := by
  have hlt := columnIndex_lt_length.mpr h
  simp [findColumn, hlt]

theorem findColumn_of_not_mem {columns : List Str} {col : Str} (h : col ∉ columns) :
    findColumn columns col = none := by
  have hlt : ¬ columnIndex columns col < columns.length :=
    fun hlt => h (columnIndex_lt_length.mp hlt)
  simp only [findColumn, if_neg hlt]

theorem findColumn_lt {columns : List Str} {col : Str} {idx : Nat}
    (h : findColumn columns col = some idx) : idx < columns.length := by
  unfold findColumn at h
  split at h
  · cases h; assumption
  · cases h

theorem whereMatch_of_known {columns : List Str} {where_column : Str} (where_value : Str)
    (r : Record) (h : where_column = [] ∨ where_column ∈ columns) :
    whereMatch columns where_column where_value r =
      .ok (specWhere columns where_column where_value r) := by
  unfold whereMatch specWhere
  by_cases hw : where_column = []
  · simp [hw]
  · have hm : where_column ∈ columns := h.resolve_left hw
    rw [if_pos hw, findColumn_of_mem hm]
    by_cases hf : r.fieldAt (columnIndex columns where_column) = where_value
    · simp [hf]
    · simp [hf, hw]

theorem whereMatch_of_unknown {columns : List Str} {where_column : Str} (where_value : Str)
    (r : Record) (hne : where_column ≠ []) (h : where_column ∉ columns) :
    whereMatch columns where_column where_value r = .error (.UnknownColumn where_column) := by
  unfold whereMatch
  rw [if_pos hne, findColumn_of_not_mem h]

theorem filterLoop_of_known {columns : List Str} {where_column : Str} (where_value : Str)
    (h : where_column = [] ∨ where_column ∈ columns) (l acc : List Record) :
    filterLoop columns where_column where_value l acc =
      .ok (acc ++ l.filter (specWhere columns where_column where_value)) := by
  induction l generalizing acc with
  | nil => simp [filterLoop]
  | cons r rest ih =>
    unfold filterLoop
    rw [whereMatch_of_known where_value r h]
    cases hs : specWhere columns where_column where_value r
    · simp [ih, hs]
    · simp [ih, hs]

theorem updateLoop_of_known {columns : List Str} {where_column : Str}
    (set_idx : Nat) (set_value where_value : Str)
    (h : where_column = [] ∨ where_column ∈ columns) (l done : List Record) (n : Nat) :
    updateLoop columns set_idx set_value where_column where_value l done n =
      (done ++ l.map (fun r => if specWhere columns where_column where_value r
          then ⟨r.fields.set set_idx set_value⟩ else r),
        .ok (n + l.countP (specWhere columns where_column where_value))) := by
  induction l generalizing done n with
  | nil => simp [updateLoop]
  | cons r rest ih =>
    unfold updateLoop
    rw [whereMatch_of_known where_value r h]
    cases hs : specWhere columns where_column where_value r
    · simp [ih, hs]
    · simp [ih, hs, Nat.add_assoc, Nat.add_comm 1]

theorem resolveColumns_of_known {columns : List Str} (cols : List Str)
    (h : ∀ c ∈ cols, c ∈ columns) (acc : List Nat) :
    resolveColumns columns cols acc = .ok (acc ++ cols.map (columnIndex columns)) := by
  induction cols generalizing acc with
  | nil => simp [resolveColumns]
  | cons c rest ih =>
    unfold resolveColumns
    rw [findColumn_of_mem (h c (List.mem_cons_self _ _))]
    simp [ih (fun c hc => h c (List.mem_cons_of_mem _ hc))]

theorem range_map_fieldAt (r : Record) (n : Nat) (h : r.fields.length = n) :
    (List.range n).map r.fieldAt = r.fields := by
  apply List.ext_getElem
  · simp [h]
  · intro i h1 h2
    simp [Record.fieldAt, List.getD_eq_getElem?_getD, List.getElem?_eq_getElem h2]

/-! ## The mutation engine -/

/-- C10: `insert` fails, with `FieldCountMismatch`, exactly when the number of
fields differs from the number of columns; when it succeeds the records are the
previous records followed by one new record holding the given fields, and the
columns are unchanged. -/
theorem insert_spec (t : Table) (fields : List Str) :
    ((t.insert fields).2 = .error .FieldCountMismatch ↔ fields.length ≠ t.columns.length) ∧
    ((t.insert fields).2 = .ok () ↔ fields.length = t.columns.length) ∧
    ((t.insert fields).2 = .ok () →
      (t.insert fields).1.records = t.records ++ [⟨fields⟩] ∧
      (t.insert fields).1.columns = t.columns) := by
  unfold Table.insert
  by_cases h : fields.length = t.columns.length <;> simp [h]

/-- Witness for C10: inserting `(1, x)` into an empty table `t(a, b)`. -/
theorem insert_spec_witness :
    (Table.insert ⟨"t".toList, ["a".toList, "b".toList], [], []⟩
        ["1".toList, "x".toList]).1.records = [] ++ [⟨["1".toList, "x".toList]⟩] ∧
    (Table.insert ⟨"t".toList, ["a".toList, "b".toList], [], []⟩
        ["1".toList, "x".toList]).1.columns = ["a".toList, "b".toList] :=
  (insert_spec ⟨"t".toList, ["a".toList, "b".toList], [], []⟩
    ["1".toList, "x".toList]).2.2 (by decide)

/-- C8: `deleteRecords` with no predicate leaves no record; with a predicate on
an existing column it leaves exactly the records whose field for that column
differs from the value, in their original order.  The count reported is the old
record count minus the new one, which is the number of matching records, and
the columns are unchanged. -/
theorem deleteRecords_spec (t : Table) (where_column where_value : Str) :
    ((t.deleteRecords [] where_value).1.records = [] ∧
      (t.deleteRecords [] where_value).1.columns = t.columns ∧
      (t.deleteRecords [] where_value).2 = .ok t.records.length) ∧
    (where_column ≠ [] → where_column ∈ t.columns →
      (t.deleteRecords where_column where_value).1.records =
        t.records.filter (fun r => r.fieldAt (columnIndex t.columns where_column) ≠ where_value) ∧
      (t.deleteRecords where_column where_value).1.columns = t.columns ∧
      (t.deleteRecords where_column where_value).2 =
        .ok (t.records.length - (t.deleteRecords where_column where_value).1.records.length) ∧
      (t.deleteRecords where_column where_value).2 =
        .ok (t.records.countP
          (fun r => r.fieldAt (columnIndex t.columns where_column) = where_value))) := by
  constructor
  · simp [Table.deleteRecords, deletePred]
  · intro hne hmem
    have hfilter : t.records.filter
          (fun r => !deletePred t.columns where_column where_value r) =
        t.records.filter
          (fun r => r.fieldAt (columnIndex t.columns where_column) ≠ where_value) := by
      apply List.filter_congr
      intro r _
      simp [deletePred, hne, findColumn_of_mem hmem]
    have hcount : t.records.length - (t.records.filter
          (fun r => decide (r.fieldAt (columnIndex t.columns where_column) ≠ where_value))).length =
        t.records.countP
          (fun r => r.fieldAt (columnIndex t.columns where_column) = where_value) := by
      have h1 := List.length_eq_countP_add_countP
        (fun r => decide (r.fieldAt (columnIndex t.columns where_column) = where_value)) t.records
      rw [← List.countP_eq_length_filter]
      have h2 : List.countP
          (fun r => decide (r.fieldAt (columnIndex t.columns where_column) ≠ where_value)) t.records =
          List.countP (fun r => ¬ (decide (r.fieldAt (columnIndex t.columns where_column) =
            where_value)) = true) t.records := by
        apply List.countP_congr
        intro r _
        simp
      omega
    simp only [Table.deleteRecords, findColumn_of_mem hmem, hfilter]
    rw [hcount]
    simp [hne, ← hcount]

/-- Witness for C8: deleting `WHERE a = 1` from `t(a, b)` holding `(1, x)`, `(2, y)`. -/
theorem deleteRecords_spec_witness :
    (Table.deleteRecords ⟨"t".toList, ["a".toList, "b".toList],
        [⟨["1".toList, "x".toList]⟩, ⟨["2".toList, "y".toList]⟩], []⟩
        "a".toList "1".toList).2 = .ok 1 := by
  have h := (deleteRecords_spec ⟨"t".toList, ["a".toList, "b".toList],
        [⟨["1".toList, "x".toList]⟩, ⟨["2".toList, "y".toList]⟩], []⟩
        "a".toList "1".toList).2 (by decide) (by decide)
  exact h.2.2.2.trans (by decide)

/-- C9: for an update whose SET column and (when present) WHERE column exist,
the columns and the number of records stay, the record at every position is
unchanged when it does not match and has exactly its SET field overwritten when
it matches, the count reported is the number of records that matched before the
update, and with no matching record the count is 0 and the table is unchanged. -/
theorem update_spec (t : Table) (set_column set_value where_column where_value : Str)
    (hset : set_column ∈ t.columns) (hwhere : where_column = [] ∨ where_column ∈ t.columns) :
    (t.update set_column set_value where_column where_value).1.columns = t.columns ∧
    (t.update set_column set_value where_column where_value).1.records.length =
      t.records.length ∧
    (∀ (i : Nat) (r : Record), t.records[i]? = some r →
      ∃ r2, (t.update set_column set_value where_column where_value).1.records[i]? = some r2 ∧
        (specWhere t.columns where_column where_value r = false → r2 = r) ∧
        (specWhere t.columns where_column where_value r = true →
          r2.fields.length = r.fields.length ∧
          (columnIndex t.columns set_column < r.fields.length →
            r2.fieldAt (columnIndex t.columns set_column) = set_value) ∧
          (∀ j, j ≠ columnIndex t.columns set_column → r2.fieldAt j = r.fieldAt j))) ∧
    (t.update set_column set_value where_column where_value).2 =
      .ok (t.records.countP (specWhere t.columns where_column where_value)) ∧
    ((∀ r ∈ t.records, specWhere t.columns where_column where_value r = false) →
      (t.update set_column set_value where_column where_value).2 = .ok 0 ∧
      (t.update set_column set_value where_column where_value).1 = t) := by
  have hupd : t.update set_column set_value where_column where_value =
      ({ t with records := t.records.map (fun r =>
          if specWhere t.columns where_column where_value r
          then Record.mk (r.fields.set (columnIndex t.columns set_column) set_value) else r) },
        .ok (t.records.countP (specWhere t.columns where_column where_value))) := by
    simp [Table.update, findColumn_of_mem hset,
      updateLoop_of_known (columnIndex t.columns set_column) set_value where_value hwhere]
  rw [hupd]
  refine ⟨rfl, by simp, ?_, rfl, ?_⟩
  · intro i r hr
    dsimp only
    rw [List.getElem?_map, hr]
    by_cases hs : specWhere t.columns where_column where_value r = true
    · refine ⟨Record.mk (r.fields.set (columnIndex t.columns set_column) set_value),
        by simp [hs], fun h => by simp [hs] at h, fun _ => ⟨by simp, ?_, ?_⟩⟩
      · intro hlt
        simp [Record.fieldAt, List.getD_eq_getElem?_getD, List.getElem?_set, hlt]
      · intro j hj
        simp [Record.fieldAt, List.getD_eq_getElem?_getD, List.getElem?_set, Ne.symm hj]
    · exact ⟨r, by simp [hs], fun _ => rfl, fun h => absurd h hs⟩
  · intro hnone
    have hmap : t.records.map (fun r => if specWhere t.columns where_column where_value r
          then Record.mk (r.fields.set (columnIndex t.columns set_column) set_value) else r) =
        t.records := by
      conv_rhs => rw [← List.map_id t.records]
      apply List.map_congr_left
      intro r hr
      simp [hnone r hr]
    have hzero : t.records.countP (specWhere t.columns where_column where_value) = 0 := by
      rw [List.countP_eq_zero]
      intro r hr
      simp [hnone r hr]
    rw [hmap, hzero]
    exact ⟨rfl, rfl⟩

/-- Witness for C9: `UPDATE t SET b = q WHERE a = 1` on `t(a, b)` holding
`(1, x)`, `(2, y)` reports one updated record. -/
theorem update_spec_witness :
    (Table.update ⟨"t".toList, ["a".toList, "b".toList],
        [⟨["1".toList, "x".toList]⟩, ⟨["2".toList, "y".toList]⟩], []⟩
        "b".toList "q".toList "a".toList "1".toList).2 = .ok 1 :=
  (update_spec ⟨"t".toList, ["a".toList, "b".toList],
        [⟨["1".toList, "x".toList]⟩, ⟨["2".toList, "y".toList]⟩], []⟩
        "b".toList "q".toList "a".toList "1".toList (by decide) (by decide)).2.2.2.1.trans
    (by decide)

/-! ## The query engine without GROUP BY -/

theorem foldl_insert_records (inserted : List (List Str)) (t : Table)
    (h : ∀ fields ∈ inserted, fields.length = t.columns.length) :
    inserted.foldl (fun t fields => (t.insert fields).1) t =
      { t with records := t.records ++ inserted.map Record.mk } := by
  induction inserted generalizing t with
  | nil => simp
  | cons f rest ih =>
    have hf : f.length = t.columns.length := h f (List.mem_cons_self _ _)
    have hstep : (t.insert f).1 = { t with records := t.records ++ [⟨f⟩] } := by
      simp [Table.insert, hf]
    rw [List.foldl_cons, hstep, ih]
    · simp
    · intro fields hmem
      exact h fields (List.mem_cons_of_mem _ hmem)

theorem select_plain_unsorted (sort : (Record → Record → Bool) → List Record → List Record)
    (t : Table) (select_columns : List Str) (aggregates : List (Str × Str))
    (where_column where_value : Str)
    (hproj : ∀ c ∈ select_columns, c ∈ t.columns)
    (hwhere : where_column = [] ∨ where_column ∈ t.columns) :
    t.select sort select_columns aggregates where_column where_value [] [] =
      .ok (printPlain t select_columns aggregates
        (if select_columns = [] then List.range t.columns.length
          else select_columns.map (columnIndex t.columns))
        (t.records.filter (specWhere t.columns where_column where_value))) := by
  unfold Table.select selectPlain
  rw [filterLoop_of_known where_value hwhere, resolveColumns_of_known select_columns hproj]
  by_cases hs : select_columns = [] <;> simp [hs]

/-- C3: on a newly created table, after inserts whose field lists all have as
many fields as the table has columns, a select with empty projection, no WHERE,
no ORDER BY, no GROUP BY and no aggregates prints exactly the inserted field
lists, once each, in insertion order. -/
theorem insert_then_select (sort : (Record → Record → Bool) → List Record → List Record)
    (name : Str) (columns : List Str) (fs : Storage) (inserted : List (List Str))
    (h : ∀ fields ∈ inserted, fields.length = columns.length) :
    ∃ out, (inserted.foldl (fun t fields => (t.insert fields).1)
        (Table.create name columns fs).1).select sort [] [] [] [] [] [] = .ok out ∧
      out.header = columns ∧
      out.rows = inserted.map (fun fields => ⟨fields, []⟩) ∧
      out.summary = [] := by
  have hrec := foldl_insert_records inserted (Table.create name columns fs).1 h
  rw [hrec, select_plain_unsorted sort _ [] [] [] [] (by simp) (Or.inl rfl)]
  refine ⟨_, rfl, by simp [printPlain, Table.create], ?_, by simp [printPlain]⟩
  have hall : (inserted.map Record.mk).filter (specWhere columns [] []) =
      inserted.map Record.mk := by
    rw [List.filter_eq_self]
    intro r _
    simp [specWhere]
  simp only [printPlain, Table.create, List.nil_append, List.map_map, List.map_nil, hall]
  apply List.map_congr_left
  intro fields hmem
  simp [Function.comp, range_map_fieldAt ⟨fields⟩ columns.length (h fields hmem)]

/-- Witness for C3: two inserts into a new table `t(a, b)`. -/
theorem insert_then_select_witness :
    ∃ out, ([["1".toList, "x".toList], ["2".toList, "y".toList]].foldl
        (fun t fields => (Table.insert t fields).1)
        (Table.create "t".toList ["a".toList, "b".toList]
          emptyStorage).1).select (fun _ l => l) [] [] [] [] [] [] = .ok out ∧
      out.header = ["a".toList, "b".toList] ∧
      out.rows = [["1".toList, "x".toList], ["2".toList, "y".toList]].map
        (fun fields => ⟨fields, []⟩) ∧
      out.summary = [] :=
  insert_then_select (fun _ l => l) "t".toList ["a".toList, "b".toList]
    emptyStorage [["1".toList, "x".toList], ["2".toList, "y".toList]]
    (by decide)

/-- C4: without GROUP BY and ORDER BY, when every referenced column exists, the
rows printed are the records that pass the WHERE test (all records when WHERE is
absent), in record order, each shown through the requested columns in the
requested order, or through all column positions in table order when the
projection list is empty. -/
theorem select_filter_project (sort : (Record → Record → Bool) → List Record → List Record)
    (t : Table) (select_columns : List Str) (aggregates : List (Str × Str))
    (where_column where_value : Str)
    (hproj : ∀ c ∈ select_columns, c ∈ t.columns)
    (hwhere : where_column = [] ∨ where_column ∈ t.columns) :
    ∃ out, t.select sort select_columns aggregates where_column where_value [] [] = .ok out ∧
      out.rows.map Row.values =
        (t.records.filter (fun r => where_column = [] ∨
            r.fieldAt (columnIndex t.columns where_column) = where_value)).map
          (fun r => if select_columns = [] then (List.range t.columns.length).map r.fieldAt
            else select_columns.map (fun c => r.fieldAt (columnIndex t.columns c))) ∧
      (select_columns = [] → ∀ (i : Nat) (r : Record),
        (t.records.filter (fun r => where_column = [] ∨
            r.fieldAt (columnIndex t.columns where_column) = where_value))[i]? = some r →
        r.fields.length = t.columns.length →
        (out.rows.map Row.values)[i]? = some r.fields) := by
  rw [select_plain_unsorted sort t select_columns aggregates where_column where_value hproj hwhere]
  have hpred : specWhere t.columns where_column where_value = fun r =>
      decide (where_column = [] ∨
        r.fieldAt (columnIndex t.columns where_column) = where_value) := by
    funext r
    rfl
  rw [hpred]
  have hrows : (printPlain t select_columns aggregates
        (if select_columns = [] then List.range t.columns.length
          else select_columns.map (columnIndex t.columns))
        (t.records.filter (fun r => decide (where_column = [] ∨
            r.fieldAt (columnIndex t.columns where_column) = where_value)))).rows.map
        Row.values =
      (t.records.filter (fun r => decide (where_column = [] ∨
            r.fieldAt (columnIndex t.columns where_column) = where_value))).map
          (fun r => if select_columns = [] then (List.range t.columns.length).map r.fieldAt
            else select_columns.map (fun c => r.fieldAt (columnIndex t.columns c))) := by
    by_cases hs : select_columns = []
    · simp only [printPlain, hs, List.map_map, if_true]
      rfl
    · simp only [printPlain, hs, List.map_map, if_false]
      rfl
  refine ⟨_, rfl, hrows, ?_⟩
  intro hs i r hr hlen
  rw [hrows, List.getElem?_map, hr]
  simp [hs, range_map_fieldAt r _ hlen]

/-- Witness for C4: `SELECT b FROM t WHERE a = 1` on `t(a, b)`. -/
theorem select_filter_project_witness :
    ∃ out, Table.select (fun _ l => l) ⟨"t".toList, ["a".toList, "b".toList],
        [⟨["1".toList, "x".toList]⟩, ⟨["2".toList, "y".toList]⟩, ⟨["1".toList, "z".toList]⟩], []⟩
        ["b".toList] [] "a".toList "1".toList [] [] = .ok out ∧
      out.rows.map Row.values = [["x".toList], ["z".toList]] := by
  obtain ⟨out, h1, h2, _⟩ := select_filter_project (fun _ l => l)
    ⟨"t".toList, ["a".toList, "b".toList],
      [⟨["1".toList, "x".toList]⟩, ⟨["2".toList, "y".toList]⟩, ⟨["1".toList, "z".toList]⟩], []⟩
    ["b".toList] [] "a".toList "1".toList (by decide) (by decide)
  exact ⟨out, h1, h2.trans (by decide)⟩

/-! ## The persistence codec -/

theorem getlinesAux_piece (delim : Char) (s rest cur : Str) (h : delim ∉ s) :
    getlinesAux delim (s ++ delim :: rest) cur = (cur ++ s) :: getlinesAux delim rest [] := by
  induction s generalizing cur with
  | nil => simp [getlinesAux]
  | cons c cs ih =>
    have hc : c ≠ delim := fun e => h (by simp [e])
    have hcs : delim ∉ cs := fun hm => h (List.mem_cons_of_mem _ hm)
    simp [getlinesAux, hc, ih (cur ++ [c]) hcs]

theorem getlines_terminated (delim : Char) (lines : List Str) (h : ∀ l ∈ lines, delim ∉ l) :
    getlines delim (lines.map (fun l => l ++ [delim])).flatten = lines := by
  unfold getlines
  induction lines with
  | nil => simp [getlinesAux]
  | cons l rest ih =>
    have hl : delim ∉ l := h l (List.mem_cons_self _ _)
    have hrest : ∀ l ∈ rest, delim ∉ l := fun l hm => h l (List.mem_cons_of_mem _ hm)
    simp only [List.map_cons, List.flatten_cons, List.append_assoc, List.singleton_append]
    rw [getlinesAux_piece delim l _ [] hl, ih hrest]
    simp

theorem parseLine_plain (s rest : Str) (q : Bool) (cur : Str) (acc : List Str)
    (hq : QUOTE ∉ s) (hc : q = true ∨ COMMA ∉ s) :
    parseLine (s ++ rest) q cur acc = parseLine rest q (cur ++ s) acc := by
  induction s generalizing cur with
  | nil => simp
  | cons c cs ih =>
    have h1 : c ≠ QUOTE := fun e => hq (by simp [e])
    have h2 : QUOTE ∉ cs := fun hm => hq (List.mem_cons_of_mem _ hm)
    have h3 : q = true ∨ COMMA ∉ cs :=
      hc.imp id (fun hn hm => hn (List.mem_cons_of_mem _ hm))
    have h4 : ¬ (c = COMMA ∧ q = false) := by
      rintro ⟨e, hf⟩
      rcases hc with hc | hc
      · simp [hc] at hf
      · exact hc (by simp [e])
    have hstep : parseLine (c :: (cs ++ rest)) q cur acc =
        parseLine (cs ++ rest) q (cur ++ [c]) acc := by
      simp only [parseLine, if_neg h1, if_neg h4]
    rw [List.cons_append, hstep, ih (cur ++ [c]) h2 h3]
    simp

theorem parseLine_quoteField (f rest cur : Str) (acc : List Str) (hq : QUOTE ∉ f) :
    parseLine (quoteField f ++ rest) false cur acc = parseLine rest false (cur ++ f) acc := by
  unfold quoteField
  by_cases hc : COMMA ∈ f
  · have hstep : parseLine (f ++ QUOTE :: rest) true cur acc =
        parseLine (QUOTE :: rest) true (cur ++ f) acc :=
      parseLine_plain f (QUOTE :: rest) true cur acc hq (Or.inl rfl)
    simp [hc, parseLine, hstep]
  · simp only [if_neg hc]
    exact parseLine_plain f rest false cur acc hq (Or.inr hc)

theorem parseLine_joinComma (f : Str) (fields : List Str) (cur : Str) (acc : List Str)
    (hq : ∀ g ∈ f :: fields, QUOTE ∉ g) :
    parseLine (joinComma ((f :: fields).map quoteField)) false cur acc =
      acc ++ (cur ++ f) :: fields := by
  induction fields generalizing f cur acc with
  | nil =>
    have h := parseLine_quoteField f [] cur acc (hq f (List.mem_cons_self _ _))
    simp only [List.append_nil] at h
    simp [joinComma, h, parseLine]
  | cons g rest ih =>
    have hf : QUOTE ∉ f := hq f (List.mem_cons_self _ _)
    have hrest : ∀ x ∈ g :: rest, QUOTE ∉ x := fun x hm => hq x (List.mem_cons_of_mem _ hm)
    have hcq : COMMA ≠ QUOTE := by decide
    simp only [List.map_cons, joinComma]
    rw [parseLine_quoteField f _ cur acc hf]
    simp only [parseLine, if_neg hcq, true_and, if_true]
    have h := ih g [] (acc ++ [cur ++ f]) hrest
    simp only [List.map_cons] at h
    rw [h]
    simp

theorem quoteField_of_no_comma {f : Str} (h : COMMA ∉ f) : quoteField f = f := by
  simp [quoteField, h]

theorem not_mem_joinComma (c : Char) (hc : c ≠ COMMA) (fields : List Str)
    (h : ∀ f ∈ fields, c ∉ f) : c ∉ joinComma fields := by
  induction fields with
  | nil => simp [joinComma]
  | cons f rest ih =>
    cases rest with
    | nil => simpa [joinComma] using h f (List.mem_cons_self _ _)
    | cons g rest2 =>
      have h1 := h f (List.mem_cons_self _ _)
      have h2 := ih (fun x hm => h x (List.mem_cons_of_mem _ hm))
      simp [joinComma, h1, hc] at h2 ⊢
      exact h2

theorem not_mem_quoteField (c : Char) (hc : c ≠ QUOTE) (f : Str) (h : c ∉ f) :
    c ∉ quoteField f := by
  unfold quoteField
  split <;> simp [h, hc]

theorem loadLines_records (lines : List Str) (t : Table) :
    loadLines lines false t =
      { t with records := t.records ++ lines.map (fun l => ⟨parseLine l false [] []⟩) } := by
  induction lines generalizing t with
  | nil => simp [loadLines]
  | cons l rest ih => simp [loadLines, ih]

/-- The round trip through the storage format, under the weakest conditions on
the table: at least one column, no comma, quote or newline in a column name, at
least one field in every record, no quote or newline in a field. -/
theorem load_save_roundtrip (t : Table) (fs : Storage) (hw : fs.writable t.filepath = true)
    (hcols : t.columns ≠ [])
    (hnames : ∀ c ∈ t.columns, COMMA ∉ c ∧ QUOTE ∉ c ∧ NEWLINE ∉ c)
    (hrecs : ∀ r ∈ t.records, r.fields ≠ [])
    (hfields : ∀ r ∈ t.records, ∀ f ∈ r.fields, QUOTE ∉ f ∧ NEWLINE ∉ f) :
    Table.load ⟨t.name, [], [], t.filepath⟩ (t.save fs) = t := by
  have hnc : NEWLINE ≠ COMMA := by decide
  have hnq : NEWLINE ≠ QUOTE := by decide
  have henc : t.encode = ((joinComma (t.columns.map quoteField) ::
      t.records.map (fun r => joinComma (r.fields.map quoteField))).map
        (fun l => l ++ [NEWLINE])).flatten := by
    have hmap : t.columns.map quoteField = t.columns := by
      conv_rhs => rw [← List.map_id t.columns]
      exact List.map_congr_left (fun c hc => quoteField_of_no_comma (hnames c hc).1)
    simp only [Table.encode, hmap, List.map_cons, List.map_map, List.flatten_cons,
      List.append_assoc]
    rfl
  have hlines : getlines NEWLINE t.encode = joinComma (t.columns.map quoteField) ::
      t.records.map (fun r => joinComma (r.fields.map quoteField)) := by
    rw [henc]
    apply getlines_terminated
    intro l hl
    rcases List.mem_cons.mp hl with rfl | hl
    · apply not_mem_joinComma _ hnc
      intro f hf
      obtain ⟨c, hc, rfl⟩ := List.mem_map.mp hf
      exact not_mem_quoteField _ hnq _ (hnames c hc).2.2
    · obtain ⟨r, hr, rfl⟩ := List.mem_map.mp hl
      apply not_mem_joinComma _ hnc
      intro f hf
      obtain ⟨g, hg, rfl⟩ := List.mem_map.mp hf
      exact not_mem_quoteField _ hnq _ (hfields r hr g hg).2
  have hparse : ∀ fields : List Str, fields ≠ [] → (∀ g ∈ fields, QUOTE ∉ g) →
      parseLine (joinComma (fields.map quoteField)) false [] [] = fields := by
    intro fields hne hq
    cases fields with
    | nil => exact absurd rfl hne
    | cons f rest => simpa using parseLine_joinComma f rest [] [] hq
  have hrecords : t.records.map (fun r =>
        Record.mk (parseLine (joinComma (r.fields.map quoteField)) false [] [])) = t.records := by
    conv_rhs => rw [← List.map_id t.records]
    apply List.map_congr_left
    intro r hr
    simp [hparse r.fields (hrecs r hr) (fun g hg => (hfields r hr g hg).1)]
  have hrecords2 : (t.records.map (fun r => joinComma (r.fields.map quoteField))).map
      (fun l => Record.mk (parseLine l false [] [])) = t.records := by
    rw [List.map_map]
    exact hrecords
  simp only [Table.load, Table.save, hw, Bool.true_eq_false, if_false, if_true, true_or, hlines,
    loadLines, loadLines_records, List.nil_append,
    hparse t.columns hcols (fun c hc => (hnames c hc).2.1), hrecords2]

/-- C1 as stated fails: a field that holds a quote character and no comma loses
the quote on the way through `save` and `load`; a column name with a comma is
split, a field with a newline becomes two records, and an empty column list
comes back as one empty column name. -/
theorem roundtrip_counterexample :
    ((∀ r ∈ quoteTable.records, ∀ f ∈ r.fields, COMMA ∈ f → QUOTE ∉ f) ∧
      (Table.load ⟨quoteTable.name, [], [], quoteTable.filepath⟩
        (quoteTable.save emptyStorage)).records = [⟨["xy".toList]⟩] ∧
      (Table.load ⟨quoteTable.name, [], [], quoteTable.filepath⟩
        (quoteTable.save emptyStorage)).records ≠ quoteTable.records) ∧
    ((∀ r ∈ commaColumnTable.records, ∀ f ∈ r.fields, COMMA ∈ f → QUOTE ∉ f) ∧
      (Table.load ⟨commaColumnTable.name, [], [], commaColumnTable.filepath⟩
        (commaColumnTable.save emptyStorage)).columns = ["a".toList, "b".toList] ∧
      (Table.load ⟨commaColumnTable.name, [], [], commaColumnTable.filepath⟩
        (commaColumnTable.save emptyStorage)).columns ≠ commaColumnTable.columns) ∧
    ((∀ r ∈ newlineTable.records, ∀ f ∈ r.fields, COMMA ∈ f → QUOTE ∉ f) ∧
      (Table.load ⟨newlineTable.name, [], [], newlineTable.filepath⟩
        (newlineTable.save emptyStorage)).records = [⟨["x".toList]⟩, ⟨["y".toList]⟩] ∧
      (Table.load ⟨newlineTable.name, [], [], newlineTable.filepath⟩
        (newlineTable.save emptyStorage)).records ≠ newlineTable.records) ∧
    ((∀ r ∈ noColumnTable.records, ∀ f ∈ r.fields, COMMA ∈ f → QUOTE ∉ f) ∧
      (Table.load ⟨noColumnTable.name, [], [], noColumnTable.filepath⟩
        (noColumnTable.save emptyStorage)).columns = [[]] ∧
      (Table.load ⟨noColumnTable.name, [], [], noColumnTable.filepath⟩
        (noColumnTable.save emptyStorage)).columns ≠ noColumnTable.columns) := by
  decide

/-- C1, amended: for a table with at least one column and at least one field in
every record, whose column names hold no comma, quote or newline and whose
fields hold no quote or newline, `load` applied to the file written by `save`
gives back the same columns and the same records in the same order; fields
with commas are covered. -/
theorem save_load_roundtrip (t : Table) (fs : Storage) (hw : fs.writable t.filepath = true)
    (hcols : t.columns ≠ [])
    (hnames : ∀ c ∈ t.columns, COMMA ∉ c ∧ QUOTE ∉ c ∧ NEWLINE ∉ c)
    (hrecs : ∀ r ∈ t.records, r.fields ≠ [])
    (hfields : ∀ r ∈ t.records, ∀ f ∈ r.fields, QUOTE ∉ f ∧ NEWLINE ∉ f) :
    (Table.load ⟨t.name, [], [], t.filepath⟩ (t.save fs)).columns = t.columns ∧
    (Table.load ⟨t.name, [], [], t.filepath⟩ (t.save fs)).records = t.records := by
  rw [load_save_roundtrip t fs hw hcols hnames hrecs hfields]
  exact ⟨rfl, rfl⟩

/-- Witness for C1 (amended): a record with a comma inside a field and an empty field. -/
theorem save_load_roundtrip_witness :
    (Table.load ⟨commaFieldTable.name, [], [], commaFieldTable.filepath⟩
      (commaFieldTable.save emptyStorage)).columns = commaFieldTable.columns ∧
    (Table.load ⟨commaFieldTable.name, [], [], commaFieldTable.filepath⟩
      (commaFieldTable.save emptyStorage)).records = commaFieldTable.records :=
  save_load_roundtrip commaFieldTable emptyStorage rfl (by decide) (by decide) (by decide)
    (by decide)

/-! ## Transactions -/

theorem foldl_backup_lookup_of_not_mem (l : List (Sigma fun _ : Str => Table))
    (backups : TableMap) (k : Str) (hk : k ∉ l.keys) :
    (l.foldl (fun r a => r.insert a.1 a.2) backups).lookup k = backups.lookup k := by
  induction l generalizing backups with
  | nil => rfl
  | cons e rest ih =>
    rw [List.keys_cons, List.mem_cons, not_or] at hk
    obtain ⟨hne, hrest⟩ := hk
    rw [List.foldl_cons, ih _ hrest, AList.lookup_insert_ne hne]

theorem foldl_backup_lookup (l : List (Sigma fun _ : Str => Table)) (hl : l.NodupKeys)
    (backups : TableMap) (k : Str) (t : Table) (h : l.dlookup k = some t) :
    (l.foldl (fun r a => r.insert a.1 a.2) backups).lookup k = some t := by
  induction l generalizing backups with
  | nil => simp at h
  | cons e rest ih =>
    obtain ⟨hnot, hrest⟩ := List.nodupKeys_cons.mp hl
    by_cases hk : k = e.1
    · subst hk
      have ht : e.2 = t := by
        have h2 : List.dlookup e.1 (e :: rest) = some e.2 := by
          cases e
          exact List.dlookup_cons_eq _ _ _
        rw [h2] at h
        exact Option.some.inj h
      rw [List.foldl_cons, foldl_backup_lookup_of_not_mem rest _ e.1 hnot,
        AList.lookup_insert, ht]
    · rw [List.dlookup_cons_ne _ _ hk] at h
      rw [List.foldl_cons]
      exact ih hrest _ h

theorem foldl_restore_lookup_of_not_mem (l : List (Sigma fun _ : Str => Table))
    (tables : TableMap) (k : Str) (hk : k ∉ l.keys) :
    (l.foldl (fun (r : TableMap) a =>
        if (r.lookup a.1).isSome then r.insert a.1 a.2 else r) tables).lookup k =
      tables.lookup k := by
  induction l generalizing tables with
  | nil => rfl
  | cons e rest ih =>
    rw [List.keys_cons, List.mem_cons, not_or] at hk
    obtain ⟨hne, hrest⟩ := hk
    rw [List.foldl_cons, ih _ hrest]
    split
    · exact AList.lookup_insert_ne hne
    · rfl

theorem foldl_restore_lookup (l : List (Sigma fun _ : Str => Table)) (hl : l.NodupKeys)
    (tables : TableMap) (k : Str) (b : Table) (h : l.dlookup k = some b)
    (hmem : (tables.lookup k).isSome = true) :
    (l.foldl (fun (r : TableMap) a =>
        if (r.lookup a.1).isSome then r.insert a.1 a.2 else r) tables).lookup k = some b := by
  induction l generalizing tables with
  | nil => simp at h
  | cons e rest ih =>
    obtain ⟨hnot, hrest⟩ := List.nodupKeys_cons.mp hl
    by_cases hk : k = e.1
    · subst hk
      have hb : e.2 = b := by
        have h2 : List.dlookup e.1 (e :: rest) = some e.2 := by
          cases e
          exact List.dlookup_cons_eq _ _ _
        rw [h2] at h
        exact Option.some.inj h
      rw [List.foldl_cons, foldl_restore_lookup_of_not_mem rest _ e.1 hnot, if_pos hmem,
        AList.lookup_insert, hb]
    · rw [List.dlookup_cons_ne _ _ hk] at h
      rw [List.foldl_cons]
      apply ih hrest _ h
      split
      · rw [AList.lookup_insert_ne hk]
        exact hmem
      · exact hmem

theorem lookup_insert_isSome (tables : TableMap) (k name : Str) (t : Table)
    (h : (tables.lookup k).isSome = true) : ((tables.insert name t).lookup k).isSome = true := by
  by_cases hk : k = name
  · subst hk
    rw [AList.lookup_insert]
    rfl
  · rw [AList.lookup_insert_ne hk]
    exact h

theorem mutate_in_transaction (db : Database) (op : Mutation)
    (hactive : db.transaction_active = true) :
    (db.mutate op).transaction_active = true ∧
    (db.mutate op).table_backups = db.table_backups ∧
    ∀ k, (db.tables.lookup k).isSome = true → ((db.mutate op).tables.lookup k).isSome = true := by
  cases op with
  | CreateTable name columns =>
    simp only [Database.mutate, Database.createTable]
    split
    · exact ⟨hactive, rfl, fun _ h => h⟩
    · exact ⟨hactive, rfl, fun k h => lookup_insert_isSome _ k _ _ h⟩
  | Insert table values =>
    simp only [Database.mutate, Database.insertInto]
    split
    · exact ⟨hactive, rfl, fun _ h => h⟩
    · exact ⟨hactive, rfl, fun k h => lookup_insert_isSome _ k _ _ h⟩
  | Update table set_column set_value where_column where_value =>
    simp only [Database.mutate, Database.updateTable]
    split
    · exact ⟨hactive, rfl, fun _ h => h⟩
    · exact ⟨hactive, rfl, fun k h => lookup_insert_isSome _ k _ _ h⟩
  | Delete table where_column where_value =>
    simp only [Database.mutate, Database.deleteFrom]
    split
    · exact ⟨hactive, rfl, fun _ h => h⟩
    · exact ⟨hactive, rfl, fun k h => lookup_insert_isSome _ k _ _ h⟩

theorem mutateAll_in_transaction (ops : List Mutation) (db : Database)
    (hactive : db.transaction_active = true) :
    (db.mutateAll ops).transaction_active = true ∧
    (db.mutateAll ops).table_backups = db.table_backups ∧
    ∀ k, (db.tables.lookup k).isSome = true →
      ((db.mutateAll ops).tables.lookup k).isSome = true := by
  induction ops generalizing db with
  | nil => exact ⟨hactive, rfl, fun _ h => h⟩
  | cons op rest ih =>
    obtain ⟨h1, h2, h3⟩ := mutate_in_transaction db op hactive
    obtain ⟨g1, g2, g3⟩ := ih (db.mutate op) h1
    refine ⟨g1, g2.trans h2, fun k h => g3 k (h3 k h)⟩

/-- C2: after a successful begin, any sequence of insert, update, delete and
create-table requests, and a rollback, the rollback succeeds and every table
that was in the catalog at begin is in the catalog again with exactly the state
(columns, records, order) it had at begin. -/
theorem rollback_restores (db : Database) (ops : List Mutation)
    (hbegin : db.beginTransaction.2 = .ok ()) :
    ((db.beginTransaction.1.mutateAll ops).rollbackTransaction).2 = .ok () ∧
    ((db.beginTransaction.1.mutateAll ops).rollbackTransaction).1.transaction_active = false ∧
    ∀ (name : Str) (t : Table), db.tables.lookup name = some t →
      ∃ t2, ((db.beginTransaction.1.mutateAll ops).rollbackTransaction).1.tables.lookup name =
          some t2 ∧
        t2.columns = t.columns ∧ t2.records = t.records ∧ t2 = t := by
  have hidle : db.transaction_active = false := by
    cases h : db.transaction_active
    · rfl
    · simp [Database.beginTransaction, h] at hbegin
  have hb : db.beginTransaction.1 =
      { db with
        table_backups := db.tables.foldl (fun backups name t => backups.insert name t)
          db.table_backups,
        transaction_active := true } := by
    simp [Database.beginTransaction, hidle]
  obtain ⟨h1, h2, h3⟩ := mutateAll_in_transaction ops db.beginTransaction.1 (by rw [hb])
  have hr : (db.beginTransaction.1.mutateAll ops).rollbackTransaction =
      ({ (db.beginTransaction.1.mutateAll ops) with
        tables := (db.beginTransaction.1.mutateAll ops).table_backups.foldl
          (fun tables name backup =>
            if (tables.lookup name).isSome then tables.insert name backup else tables)
          (db.beginTransaction.1.mutateAll ops).tables,
        table_backups := ∅,
        transaction_active := false }, .ok ()) := by
    simp [Database.rollbackTransaction, h1]
  rw [hr]
  refine ⟨rfl, rfl, ?_⟩
  intro name t ht
  refine ⟨t, ?_, rfl, rfl, rfl⟩
  have hbackup : (db.beginTransaction.1.mutateAll ops).table_backups.lookup name = some t := by
    rw [h2, hb]
    exact foldl_backup_lookup db.tables.entries db.tables.nodupKeys _ name t ht
  have hpresent : ((db.beginTransaction.1.mutateAll ops).tables.lookup name).isSome = true := by
    apply h3
    rw [hb]
    simp [ht]
  exact foldl_restore_lookup _ (AList.nodupKeys _) _ name t hbackup hpresent

/-- Witness for C2: insert, update, delete-all and create-table inside a
transaction on a catalog holding `t`; after rollback `t` is as it was. -/
theorem rollback_restores_witness :
    ∃ t2, ((scenarioDatabase.beginTransaction.1.mutateAll
        scenarioMutations).rollbackTransaction).1.tables.lookup "t".toList = some t2 ∧
      t2.columns = scenarioTable.columns ∧ t2.records = scenarioTable.records ∧
      t2 = scenarioTable :=
  (rollback_restores scenarioDatabase scenarioMutations rfl).2.2 "t".toList scenarioTable rfl

/-! ## String comparison and the ORDER BY comparator -/

theorem strLt_irrefl (a : Str) : strLt a a = false := by
  induction a with
  | nil => rfl
  | cons c cs ih => simp [strLt, ih]

theorem strLt_trans {a b c : Str} (hab : strLt a b = true) (hbc : strLt b c = true) :
    strLt a c = true := by
  induction a generalizing b c with
  | nil =>
    cases b with
    | nil => simp [strLt] at hab
    | cons y ys =>
      cases c with
      | nil => simp [strLt] at hbc
      | cons z zs => simp [strLt]
  | cons x xs ih =>
    cases b with
    | nil => simp [strLt] at hab
    | cons y ys =>
      cases c with
      | nil => simp [strLt] at hbc
      | cons z zs =>
        simp only [strLt] at hab hbc ⊢
        rcases lt_trichotomy x y with hxy | hxy | hxy
        · rcases lt_trichotomy y z with hyz | hyz | hyz
          · simp [lt_trans hxy hyz]
          · subst hyz
            simp [hxy]
          · simp [hyz, not_lt_of_lt hyz] at hbc
        · subst hxy
          rcases lt_trichotomy x z with hyz | hyz | hyz
          · simp [hyz]
          · subst hyz
            simp only [lt_irrefl, if_false] at hab hbc ⊢
            exact ih hab hbc
          · simp [hyz, not_lt_of_lt hyz] at hbc
        · simp [hxy, not_lt_of_lt hxy] at hab

theorem strLt_asymm {a b : Str} (hab : strLt a b = true) : strLt b a = false := by
  cases h : strLt b a
  · rfl
  · have := strLt_trans hab h
    rw [strLt_irrefl] at this
    cases this

theorem strLt_total {a b : Str} (hab : strLt a b = false) (hba : strLt b a = false) : a = b := by
  induction a generalizing b with
  | nil =>
    cases b with
    | nil => rfl
    | cons y ys => simp [strLt] at hab
  | cons x xs ih =>
    cases b with
    | nil => simp [strLt] at hba
    | cons y ys =>
      simp only [strLt] at hab hba
      rcases lt_trichotomy x y with hxy | hxy | hxy
      · simp [hxy] at hab
      · subst hxy
        simp only [lt_irrefl, if_false] at hab hba
        rw [ih hab hba]
      · simp [hxy] at hba

theorem strLt_trichotomy (a b : Str) : strLt a b = true ∨ a = b ∨ strLt b a = true := by
  cases hab : strLt a b
  · cases hba : strLt b a
    · exact Or.inr (Or.inl (strLt_total hab hba))
    · exact Or.inr (Or.inr rfl)
  · exact Or.inl rfl

theorem orderLess_cons_lt {idx : Nat} {direction : Str} {rest : List (Nat × Str)} {a b : Record}
    (h : strLt (a.fieldAt idx) (b.fieldAt idx) = true) :
    orderLess ((idx, direction) :: rest) a b = decide (direction = "ASC".toList) := by
  simp [orderLess, h]

theorem orderLess_cons_gt {idx : Nat} {direction : Str} {rest : List (Nat × Str)} {a b : Record}
    (h : strLt (b.fieldAt idx) (a.fieldAt idx) = true) :
    orderLess ((idx, direction) :: rest) a b = decide (direction = "DESC".toList) := by
  simp [orderLess, h, strLt_asymm h]

theorem orderLess_cons_eq {idx : Nat} {direction : Str} {rest : List (Nat × Str)} {a b : Record}
    (h : a.fieldAt idx = b.fieldAt idx) :
    orderLess ((idx, direction) :: rest) a b = orderLess rest a b := by
  simp [orderLess, h, strLt_irrefl]

theorem orderLess_irrefl (keys : List (Nat × Str)) (a : Record) : orderLess keys a a = false := by
  induction keys with
  | nil => rfl
  | cons key rest ih =>
    obtain ⟨idx, direction⟩ := key
    rw [orderLess_cons_eq rfl, ih]

theorem asc_ne_desc : ("ASC".toList : Str) ≠ "DESC".toList := by decide

theorem orderLess_trans (keys : List (Nat × Str)) {a b c : Record}
    (hab : orderLess keys a b = true) (hbc : orderLess keys b c = true) :
    orderLess keys a c = true := by
  induction keys with
  | nil => simp [orderLess] at hab
  | cons key rest ih =>
    obtain ⟨idx, direction⟩ := key
    rcases strLt_trichotomy (a.fieldAt idx) (b.fieldAt idx) with h1 | h1 | h1
    · rw [orderLess_cons_lt h1] at hab
      rcases strLt_trichotomy (b.fieldAt idx) (c.fieldAt idx) with h2 | h2 | h2
      · rw [orderLess_cons_lt (strLt_trans h1 h2)]
        exact hab
      · rw [orderLess_cons_lt (h2 ▸ h1)]
        exact hab
      · rw [orderLess_cons_gt h2] at hbc
        simp only [decide_eq_true_eq] at hab hbc
        exact absurd (hab.symm.trans hbc) asc_ne_desc
    · rcases strLt_trichotomy (b.fieldAt idx) (c.fieldAt idx) with h2 | h2 | h2
      · rw [orderLess_cons_lt h2] at hbc
        rw [orderLess_cons_lt (h1 ▸ h2)]
        exact hbc
      · rw [orderLess_cons_eq h1] at hab
        rw [orderLess_cons_eq h2] at hbc
        rw [orderLess_cons_eq (h1.trans h2)]
        exact ih hab hbc
      · rw [orderLess_cons_gt h2] at hbc
        rw [orderLess_cons_gt (h1 ▸ h2)]
        exact hbc
    · rw [orderLess_cons_gt h1] at hab
      rcases strLt_trichotomy (b.fieldAt idx) (c.fieldAt idx) with h2 | h2 | h2
      · rw [orderLess_cons_lt h2] at hbc
        simp only [decide_eq_true_eq] at hab hbc
        exact absurd (hbc.symm.trans hab) asc_ne_desc
      · rw [orderLess_cons_gt (h2 ▸ h1)]
        exact hab
      · rw [orderLess_cons_gt (strLt_trans h2 h1)]
        exact hab

theorem orderLess_incomparable_iff (keys : List (Nat × Str))
    (hdirs : ∀ key ∈ keys, key.2 = "ASC".toList ∨ key.2 = "DESC".toList) (a b : Record) :
    (orderLess keys a b = false ∧ orderLess keys b a = false) ↔
      ∀ key ∈ keys, a.fieldAt key.1 = b.fieldAt key.1 := by
  induction keys with
  | nil => simp [orderLess]
  | cons key rest ih =>
    obtain ⟨idx, direction⟩ := key
    have hdir := hdirs (idx, direction) (List.mem_cons_self _ _)
    have hrest : ∀ key ∈ rest, key.2 = "ASC".toList ∨ key.2 = "DESC".toList :=
      fun key hm => hdirs key (List.mem_cons_of_mem _ hm)
    rcases strLt_trichotomy (a.fieldAt idx) (b.fieldAt idx) with h1 | h1 | h1
    · have hne : a.fieldAt idx ≠ b.fieldAt idx := by
        intro e
        rw [e, strLt_irrefl] at h1
        cases h1
      rw [orderLess_cons_lt h1, orderLess_cons_gt h1]
      constructor
      · rintro ⟨h2, h3⟩
        simp only [decide_eq_false_iff_not] at h2 h3
        rcases hdir with h | h
        · exact absurd h h2
        · exact absurd h h3
      · intro h
        exact absurd (h (idx, direction) (List.mem_cons_self _ _)) hne
    · rw [orderLess_cons_eq h1, orderLess_cons_eq h1.symm, ih hrest]
      simp [h1]
    · have hne : a.fieldAt idx ≠ b.fieldAt idx := by
        intro e
        rw [e, strLt_irrefl] at h1
        cases h1
      rw [orderLess_cons_gt h1, orderLess_cons_lt h1]
      constructor
      · rintro ⟨h2, h3⟩
        simp only [decide_eq_false_iff_not] at h2 h3
        rcases hdir with h | h
        · exact absurd h h3
        · exact absurd h h2
      · intro h
        exact absurd (h (idx, direction) (List.mem_cons_self _ _)) hne

/-- The comparator of ORDER BY is a strict weak ordering when every direction is
`ASC` or `DESC`. -/
theorem orderLess_strictWeakOrder (keys : List (Nat × Str))
    (hdirs : ∀ key ∈ keys, key.2 = "ASC".toList ∨ key.2 = "DESC".toList) :
    StrictWeakOrder (orderLess keys) := by
  refine ⟨orderLess_irrefl keys, fun a b c => orderLess_trans keys, ?_⟩
  intro a b c h1 h2 h3 h4
  have hab := (orderLess_incomparable_iff keys hdirs a b).mp ⟨h1, h2⟩
  have hbc := (orderLess_incomparable_iff keys hdirs b c).mp ⟨h3, h4⟩
  exact (orderLess_incomparable_iff keys hdirs a c).mpr
    (fun key hk => (hab key hk).trans (hbc key hk))

theorem specOrdered_of_not_less (keys : List (Nat × Str)) (a b : Record)
    (h : orderLess keys b a = false) : specOrdered keys a b := by
  induction keys with
  | nil =>
    intro pre idx direction post hkeys
    cases pre <;> simp at hkeys
  | cons key rest ih =>
    intro pre idx direction post hkeys hpre hne
    cases pre with
    | nil =>
      simp only [List.nil_append, List.cons.injEq] at hkeys
      obtain ⟨hkey, -⟩ := hkeys
      subst hkey
      rcases strLt_trichotomy (a.fieldAt idx) (b.fieldAt idx) with h1 | h1 | h1
      · rw [orderLess_cons_gt h1] at h
        simp only [decide_eq_false_iff_not] at h
        exact ⟨fun _ => h1, fun hd => absurd hd h⟩
      · exact absurd h1 hne
      · rw [orderLess_cons_lt h1] at h
        simp only [decide_eq_false_iff_not] at h
        exact ⟨fun hd => absurd hd h, fun _ => h1⟩
    | cons p pre2 =>
      simp only [List.cons_append, List.cons.injEq] at hkeys
      obtain ⟨hkey, hrest⟩ := hkeys
      subst hkey
      have heq : a.fieldAt key.1 = b.fieldAt key.1 := hpre key (List.mem_cons_self _ _)
      obtain ⟨i0, d0⟩ := key
      rw [orderLess_cons_eq heq.symm] at h
      exact ih h pre2 idx direction post hrest
        (fun k hk => hpre k (List.mem_cons_of_mem _ hk)) hne

theorem tiedOn_iff (keys : List (Nat × Str)) (a b : Record) :
    tiedOn keys a b = true ↔ ∀ key ∈ keys, a.fieldAt key.1 = b.fieldAt key.1 := by
  simp [tiedOn, List.all_eq_true]

/-! ## `std::sort`: consequences of the contract and two conforming routines -/

theorem swo_asymm {comp : Record → Record → Bool} (h : StrictWeakOrder comp) (a b : Record) :
    comp b a = false ∨ comp a b = false := by
  cases hba : comp b a
  · exact Or.inl rfl
  · cases hab : comp a b
    · exact Or.inr rfl
    · have := h.2.1 a b a hab hba
      rw [h.1 a] at this
      cases this

theorem swo_le_trans {comp : Record → Record → Bool} (h : StrictWeakOrder comp) {a b c : Record}
    (hab : comp b a = false) (hbc : comp c b = false) : comp c a = false := by
  cases hca : comp c a
  · rfl
  · cases hbc2 : comp b c
    · cases hab2 : comp a b
      · have := (h.2.2 a b c hab2 hab hbc2 hbc).2
        rw [hca] at this
        cases this
      · have := h.2.1 c a b hca hab2
        rw [hbc] at this
        cases this
    · have := h.2.1 b c a hbc2 hca
      rw [hab] at this
      cases this

theorem insertionSort_sorted_of_swo {comp : Record → Record → Bool} (h : StrictWeakOrder comp)
    (l : List Record) :
    (l.insertionSort (fun a b => comp b a = false)).Pairwise (fun a b => comp b a = false) := by
  haveI : IsTotal Record (fun a b => comp b a = false) := ⟨fun a b => swo_asymm h a b⟩
  haveI : IsTrans Record (fun a b => comp b a = false) := ⟨fun _ _ _ => swo_le_trans h⟩
  exact List.sorted_insertionSort _ l

theorem insertionSortBy_contract : StdSortContract insertionSortBy := by
  intro comp l h
  exact ⟨List.perm_insertionSort _ l, insertionSort_sorted_of_swo h l⟩

theorem reverseInsertionSort_contract : StdSortContract reverseInsertionSort := by
  intro comp l h
  exact ⟨(List.perm_insertionSort _ l.reverse).trans (List.reverse_perm l),
    insertionSort_sorted_of_swo h l.reverse⟩

theorem sorted_pair {R : Record → Record → Prop} {l : List Record} {x y : Record}
    (hperm : l.Perm [x, y]) (hsorted : l.Pairwise R) (hxy : ¬ R x y) : l = [y, x] := by
  obtain ⟨u, v, rfl⟩ := List.length_eq_two.mp hperm.length_eq
  have hu : u ∈ [x, y] := hperm.subset (List.mem_cons_self _ _)
  have hv : v ∈ [x, y] := hperm.subset (List.mem_cons_of_mem _ (List.mem_cons_self _ _))
  have hx : x ∈ [u, v] := hperm.symm.subset (List.mem_cons_self _ _)
  have hy : y ∈ [u, v] := hperm.symm.subset (List.mem_cons_of_mem _ (List.mem_cons_self _ _))
  have hR : R u v := by
    simpa using hsorted
  simp only [List.mem_cons, List.mem_singleton, List.not_mem_nil, or_false] at hu hv hx hy
  rcases hu with rfl | rfl <;> rcases hv with rfl | rfl
  · rcases hy with rfl | rfl <;> rfl
  · exact absurd hR hxy
  · rfl
  · rcases hx with rfl | rfl <;> rfl

/-! ## The query engine with ORDER BY -/

theorem resolveColumns_ok_inv {columns : List Str} (cols : List Str) (acc idxs : List Nat)
    (h : resolveColumns columns cols acc = .ok idxs) : ∀ c ∈ cols, c ∈ columns := by
  induction cols generalizing acc with
  | nil => simp
  | cons c rest ih =>
    by_cases hc : c ∈ columns
    · intro d hd
      rcases List.mem_cons.mp hd with rfl | hd
      · exact hc
      · unfold resolveColumns at h
        rw [findColumn_of_mem hc] at h
        exact ih _ h d hd
    · unfold resolveColumns at h
      rw [findColumn_of_not_mem hc] at h
      cases h

theorem resolveOrderBy_of_known {columns : List Str} (order_by : List (Str × Str))
    (h : ∀ ob ∈ order_by, ob.1 ∈ columns) (acc : List (Nat × Str)) :
    resolveOrderBy columns order_by acc = .ok (acc ++ orderKeys columns order_by) := by
  induction order_by generalizing acc with
  | nil => simp [resolveOrderBy, orderKeys]
  | cons ob rest ih =>
    unfold resolveOrderBy
    rw [findColumn_of_mem (h ob (List.mem_cons_self _ _))]
    simp [ih (fun ob hm => h ob (List.mem_cons_of_mem _ hm)), orderKeys]

theorem resolveOrderBy_ok_inv {columns : List Str} (order_by : List (Str × Str))
    (acc keys : List (Nat × Str)) (h : resolveOrderBy columns order_by acc = .ok keys) :
    ∀ ob ∈ order_by, ob.1 ∈ columns := by
  induction order_by generalizing acc with
  | nil => simp
  | cons ob rest ih =>
    by_cases hc : ob.1 ∈ columns
    · intro d hd
      rcases List.mem_cons.mp hd with rfl | hd
      · exact hc
      · unfold resolveOrderBy at h
        rw [findColumn_of_mem hc] at h
        exact ih _ h d hd
    · unfold resolveOrderBy at h
      rw [findColumn_of_not_mem hc] at h
      cases h

theorem filterLoop_ok_inv {columns : List Str} {where_column where_value : Str}
    (l acc filtered : List Record)
    (h : filterLoop columns where_column where_value l acc = .ok filtered) :
    filtered = acc ++ l.filter (specWhere columns where_column where_value) := by
  by_cases hk : where_column = [] ∨ where_column ∈ columns
  · rw [filterLoop_of_known where_value hk] at h
    cases h
    rfl
  · rw [not_or] at hk
    cases l with
    | nil =>
      simp only [filterLoop] at h
      cases h
      simp
    | cons r rest =>
      unfold filterLoop at h
      rw [whereMatch_of_unknown where_value r hk.1 hk.2] at h
      cases h

theorem select_sorted_of_known (sort : (Record → Record → Bool) → List Record → List Record)
    (t : Table) (select_columns : List Str) (aggregates : List (Str × Str))
    (where_column where_value : Str) (order_by : List (Str × Str)) (hne : order_by ≠ [])
    (hproj : ∀ c ∈ select_columns, c ∈ t.columns)
    (hwhere : where_column = [] ∨ where_column ∈ t.columns)
    (horder : ∀ ob ∈ order_by, ob.1 ∈ t.columns) :
    t.select sort select_columns aggregates where_column where_value order_by [] =
      .ok (printPlain t select_columns aggregates
        (if select_columns = [] then List.range t.columns.length
          else select_columns.map (columnIndex t.columns))
        (sort (orderLess (orderKeys t.columns order_by))
          (t.records.filter (specWhere t.columns where_column where_value)))) := by
  unfold Table.select selectPlain
  rw [filterLoop_of_known where_value hwhere, resolveColumns_of_known select_columns hproj,
    resolveOrderBy_of_known order_by horder]
  by_cases hs : select_columns = [] <;> simp [hs, hne]

theorem select_sorted_inv (sort : (Record → Record → Bool) → List Record → List Record)
    (t : Table) (select_columns : List Str) (aggregates : List (Str × Str))
    (where_column where_value : Str) (order_by : List (Str × Str)) (hne : order_by ≠ [])
    (out : SelectOutput)
    (h : t.select sort select_columns aggregates where_column where_value order_by [] = .ok out) :
    out = printPlain t select_columns aggregates
        (if select_columns = [] then List.range t.columns.length
          else select_columns.map (columnIndex t.columns))
        (sort (orderLess (orderKeys t.columns order_by))
          (t.records.filter (specWhere t.columns where_column where_value))) := by
  have hproj : ∀ c ∈ select_columns, c ∈ t.columns := by
    by_cases hs : select_columns = []
    · simp [hs]
    · cases hres : resolveColumns t.columns select_columns [] with
      | error e => simp [Table.select, hs, hres] at h
      | ok idxs => exact resolveColumns_ok_inv _ _ _ hres
  unfold Table.select selectPlain at h
  rw [resolveColumns_of_known select_columns hproj] at h
  have h2 : (match filterLoop t.columns where_column where_value t.records [] with
      | .error e => .error e
      | .ok filtered_records =>
        match resolveOrderBy t.columns order_by [] with
        | .error e => .error e
        | .ok keys => .ok (printPlain t select_columns aggregates
            (if select_columns = [] then List.range t.columns.length
              else select_columns.map (columnIndex t.columns))
            (sort (orderLess keys) filtered_records))) = Except.ok out := by
    by_cases hs : select_columns = [] <;> simpa [hs, hne] using h
  cases hf : filterLoop t.columns where_column where_value t.records [] with
  | error e => simp [hf] at h2
  | ok filtered =>
    have hfil := filterLoop_ok_inv _ _ _ hf
    cases hk : resolveOrderBy t.columns order_by [] with
    | error e => simp [hf, hk] at h2
    | ok keys =>
      have horder := resolveOrderBy_ok_inv _ _ _ hk
      have hkeys : keys = orderKeys t.columns order_by := by
        rw [resolveOrderBy_of_known order_by horder] at hk
        cases hk
        rfl
      simp only [hf, hk] at h2
      cases h2
      rw [hfil, hkeys]
      rfl

theorem printPlain_rows_values (t : Table) (select_columns : List Str)
    (aggregates : List (Str × Str)) (recs : List Record) :
    (printPlain t select_columns aggregates
        (if select_columns = [] then List.range t.columns.length
          else select_columns.map (columnIndex t.columns)) recs).rows.map Row.values =
      recs.map (specProject t.columns select_columns) := by
  simp only [printPlain, List.map_map]
  apply List.map_congr_left
  intro r _
  by_cases hs : select_columns = [] <;> simp [specProject, hs, Function.comp]

theorem orderKeys_directions (columns : List Str) (order_by : List (Str × Str))
    (hdirs : ∀ ob ∈ order_by, ob.2 = "ASC".toList ∨ ob.2 = "DESC".toList) :
    ∀ key ∈ orderKeys columns order_by, key.2 = "ASC".toList ∨ key.2 = "DESC".toList := by
  intro key hkey
  obtain ⟨ob, hob, rfl⟩ := List.mem_map.mp hkey
  exact hdirs ob hob

/-- C5: with a non-empty ORDER BY list whose directions are `ASC` or `DESC` and
no GROUP BY, under any `std::sort` that meets its contract: the select succeeds
when the referenced columns exist, and whenever it prints, the rows shown are
the projections of a permutation of the filtered records in which every earlier
record precedes every later one in the multi-key order (first differing key
decides, smaller text first for `ASC`, larger text first for `DESC`).  For
`t(a, b)` with `(1, x)`, `(2, y)`, `(1, z)`, `WHERE a = 1 ORDER BY b DESC` prints
`(1, z)` then `(1, x)`. -/
theorem select_order_by (sort : (Record → Record → Bool) → List Record → List Record)
    (hsort : StdSortContract sort) (t : Table) (select_columns : List Str)
    (aggregates : List (Str × Str)) (where_column where_value : Str)
    (order_by : List (Str × Str)) (hne : order_by ≠ [])
    (hdirs : ∀ ob ∈ order_by, ob.2 = "ASC".toList ∨ ob.2 = "DESC".toList) :
    ((∀ c ∈ select_columns, c ∈ t.columns) → (where_column = [] ∨ where_column ∈ t.columns) →
      (∀ ob ∈ order_by, ob.1 ∈ t.columns) →
      ∃ out, t.select sort select_columns aggregates where_column where_value order_by [] =
        .ok out) ∧
    (∀ out, t.select sort select_columns aggregates where_column where_value order_by [] =
        .ok out →
      ∃ sorted : List Record,
        sorted.Perm (t.records.filter (specWhere t.columns where_column where_value)) ∧
        out.rows.map Row.values = sorted.map (specProject t.columns select_columns) ∧
        sorted.Pairwise (specOrdered (orderKeys t.columns order_by))) ∧
    scenarioTable.select sort [] [] "a".toList "1".toList [("b".toList, "DESC".toList)] [] =
      .ok ⟨["a".toList, "b".toList],
        [⟨["1".toList, "z".toList], []⟩, ⟨["1".toList, "x".toList], []⟩], []⟩ := by
  refine ⟨fun hproj hwhere horder => ⟨_, select_sorted_of_known sort t select_columns aggregates
    where_column where_value order_by hne hproj hwhere horder⟩, ?_, ?_⟩
  · intro out hout
    have hswo := orderLess_strictWeakOrder (orderKeys t.columns order_by)
      (orderKeys_directions t.columns order_by hdirs)
    obtain ⟨hperm, hsorted⟩ := hsort (orderLess (orderKeys t.columns order_by))
      (t.records.filter (specWhere t.columns where_column where_value)) hswo
    refine ⟨_, hperm, ?_, hsorted.imp (fun {a b} h => specOrdered_of_not_less _ a b h)⟩
    rw [select_sorted_inv sort t select_columns aggregates where_column where_value order_by
      hne out hout]
    exact printPlain_rows_values t select_columns aggregates _
  · have hsel := select_sorted_of_known sort scenarioTable [] [] "a".toList "1".toList
      [("b".toList, "DESC".toList)] (by decide) (by decide) (by decide) (by decide)
    have hf : scenarioTable.records.filter
        (specWhere scenarioTable.columns "a".toList "1".toList) =
        [⟨["1".toList, "x".toList]⟩, ⟨["1".toList, "z".toList]⟩] := by decide
    have hk : orderKeys scenarioTable.columns [("b".toList, "DESC".toList)] =
        [(1, "DESC".toList)] := by decide
    obtain ⟨hperm, hsorted⟩ := hsort (orderLess [(1, "DESC".toList)])
      [⟨["1".toList, "x".toList]⟩, ⟨["1".toList, "z".toList]⟩]
      (orderLess_strictWeakOrder _ (by decide))
    have hlist := sorted_pair hperm hsorted (by decide)
    rw [hsel, hf, hk, hlist]
    rfl

/-- Witness for C5: the scenario of the specification under insertion sort. -/
theorem select_order_by_witness :
    scenarioTable.select insertionSortBy [] [] "a".toList "1".toList
        [("b".toList, "DESC".toList)] [] =
      .ok ⟨["a".toList, "b".toList],
        [⟨["1".toList, "z".toList], []⟩, ⟨["1".toList, "x".toList], []⟩], []⟩ :=
  (select_order_by insertionSortBy insertionSortBy_contract scenarioTable [] []
    "a".toList "1".toList [("b".toList, "DESC".toList)] (by decide) (by decide)).2.2

/-- The contract of `std::sort` alone does not fix the order of ties: a routine
that meets it (insertion sort on the reversed input) puts `(1, z)` before
`(1, x)` for `ORDER BY a ASC` on `(1, x)`, `(2, y)`, `(1, z)`. -/
theorem sort_contract_allows_reordering :
    StdSortContract reverseInsertionSort ∧
    tiedOn (orderKeys scenarioTable.columns [("a".toList, "ASC".toList)])
      ⟨["1".toList, "x".toList]⟩ ⟨["1".toList, "z".toList]⟩ = true ∧
    scenarioTable.records = [⟨["1".toList, "x".toList]⟩, ⟨["2".toList, "y".toList]⟩,
      ⟨["1".toList, "z".toList]⟩] ∧
    scenarioTable.select reverseInsertionSort [] [] [] [] [("a".toList, "ASC".toList)] [] =
      .ok ⟨["a".toList, "b".toList],
        [⟨["1".toList, "z".toList], []⟩, ⟨["1".toList, "x".toList], []⟩,
          ⟨["2".toList, "y".toList], []⟩], []⟩ :=
  ⟨reverseInsertionSort_contract, by decide, by decide, by decide⟩

set_option maxRecDepth 100000 in
/-- C6 as stated fails: `Table::select` sorts with `std::sort`, which is not a
stable sort.  On the table holding `(1, 01)`, `(1, 02)`, ..., `(1, 17)` in
insertion order, all seventeen records are equal on the sort key of
`ORDER BY a ASC`, and with the `std::sort` of GNU libstdc++ (introsort; the
heap sort is not reached) the select prints them in the order `09`, `17`, `16`,
..., `10`, `01`, `08`, ..., `02`: for instance `(1, 09)` before `(1, 01)`, which
was inserted first. -/
theorem order_by_unstable_counterexample :
    tiesTable.records.length = 17 ∧
    (∀ r ∈ tiesTable.records, ∀ q ∈ tiesTable.records,
      tiedOn (orderKeys tiesTable.columns [("a".toList, "ASC".toList)]) r q = true) ∧
    tiesTable.records.take 2 = [⟨["1".toList, "01".toList]⟩, ⟨["1".toList, "02".toList]⟩] ∧
    (gnuSort (orderLess (orderKeys tiesTable.columns [("a".toList, "ASC".toList)]))
      tiesTable.records).isSome = true ∧
    tiesTable.select gnuSortOrKeep [] [] [] [] [("a".toList, "ASC".toList)] [] =
      .ok ⟨["a".toList, "b".toList],
        [
          ⟨["1".toList, "09".toList], []⟩, ⟨["1".toList, "17".toList], []⟩, ⟨["1".toList, "16".toList], []⟩,
          ⟨["1".toList, "15".toList], []⟩, ⟨["1".toList, "14".toList], []⟩, ⟨["1".toList, "13".toList], []⟩,
          ⟨["1".toList, "12".toList], []⟩, ⟨["1".toList, "11".toList], []⟩, ⟨["1".toList, "10".toList], []⟩,
          ⟨["1".toList, "01".toList], []⟩, ⟨["1".toList, "08".toList], []⟩, ⟨["1".toList, "07".toList], []⟩,
          ⟨["1".toList, "06".toList], []⟩, ⟨["1".toList, "05".toList], []⟩, ⟨["1".toList, "04".toList], []⟩,
          ⟨["1".toList, "03".toList], []⟩, ⟨["1".toList, "02".toList], []⟩],
        []⟩ := by
  refine ⟨by decide, by decide, by decide, by decide, by decide⟩

/-- C6, amended: with a non-empty ORDER BY list whose directions are `ASC` or
`DESC` and no GROUP BY, under any `std::sort` that meets its contract: the select
succeeds when the referenced columns exist, and whenever it prints, the rows
shown are the projections of a rearrangement of the filtered records in which
every earlier record precedes every later one in the multi-key order, and the
filtered records that are equal to a given record on all sort keys all appear
in it, each as often as among the filtered records; their relative order is not
determined. -/
theorem order_by_ties_permuted (sort : (Record → Record → Bool) → List Record → List Record)
    (hsort : StdSortContract sort) (t : Table) (select_columns : List Str)
    (aggregates : List (Str × Str)) (where_column where_value : Str)
    (order_by : List (Str × Str)) (hne : order_by ≠ [])
    (hdirs : ∀ ob ∈ order_by, ob.2 = "ASC".toList ∨ ob.2 = "DESC".toList) :
    ((∀ c ∈ select_columns, c ∈ t.columns) → (where_column = [] ∨ where_column ∈ t.columns) →
      (∀ ob ∈ order_by, ob.1 ∈ t.columns) →
      ∃ out, t.select sort select_columns aggregates where_column where_value order_by [] =
        .ok out) ∧
    (∀ out, t.select sort select_columns aggregates where_column where_value order_by [] =
        .ok out →
      ∃ sorted : List Record,
        out.rows.map Row.values = sorted.map (specProject t.columns select_columns) ∧
        sorted.Perm (t.records.filter (specWhere t.columns where_column where_value)) ∧
        sorted.Pairwise (specOrdered (orderKeys t.columns order_by)) ∧
        ∀ r : Record,
          (sorted.filter (tiedOn (orderKeys t.columns order_by) r)).Perm
            ((t.records.filter (specWhere t.columns where_column where_value)).filter
              (tiedOn (orderKeys t.columns order_by) r))) := by
  refine ⟨fun hproj hwhere horder => ⟨_, select_sorted_of_known sort t select_columns aggregates
    where_column where_value order_by hne hproj hwhere horder⟩, ?_⟩
  intro out hout
  have hswo := orderLess_strictWeakOrder (orderKeys t.columns order_by)
    (orderKeys_directions t.columns order_by hdirs)
  obtain ⟨hperm, hsorted⟩ := hsort (orderLess (orderKeys t.columns order_by))
    (t.records.filter (specWhere t.columns where_column where_value)) hswo
  refine ⟨_, ?_, hperm, hsorted.imp (fun {a b} h => specOrdered_of_not_less _ a b h),
    fun r => hperm.filter _⟩
  rw [select_sorted_inv sort t select_columns aggregates where_column where_value order_by
    hne out hout]
  exact printPlain_rows_values t select_columns aggregates _

/-- Witness for C6 (amended): `ORDER BY a ASC` on the scenario table under
insertion sort. -/
theorem order_by_ties_permuted_witness :
    ∃ sorted : List Record,
      [["1".toList, "x".toList], ["1".toList, "z".toList], ["2".toList, "y".toList]] =
        sorted.map (specProject scenarioTable.columns []) ∧
      sorted.Perm (scenarioTable.records.filter (specWhere scenarioTable.columns [] [])) ∧
      sorted.Pairwise (specOrdered (orderKeys scenarioTable.columns
        [("a".toList, "ASC".toList)])) ∧
      ∀ r : Record,
        (sorted.filter (tiedOn (orderKeys scenarioTable.columns
            [("a".toList, "ASC".toList)]) r)).Perm
          ((scenarioTable.records.filter (specWhere scenarioTable.columns [] [])).filter
            (tiedOn (orderKeys scenarioTable.columns [("a".toList, "ASC".toList)]) r)) :=
  (order_by_ties_permuted insertionSortBy insertionSortBy_contract scenarioTable [] []
    [] [] [("a".toList, "ASC".toList)] (by decide) (by decide)).2
    ⟨["a".toList, "b".toList],
      [⟨["1".toList, "x".toList], []⟩, ⟨["1".toList, "z".toList], []⟩,
        ⟨["2".toList, "y".toList], []⟩], []⟩ (by decide)

/-! ## The query engine with GROUP BY -/

theorem mem_insertKey (key k : Str) (ks : List Str) :
    k ∈ insertKey key ks ↔ k = key ∨ k ∈ ks := by
  induction ks with
  | nil => simp [insertKey]
  | cons k0 rest ih =>
    unfold insertKey
    by_cases h1 : key = k0
    · subst h1
      simp
    · by_cases h2 : strLt key k0 = true
      · simp [h1, h2]
      · simp only [if_neg h1, if_neg h2, List.mem_cons, ih]
        tauto

theorem insertKey_sorted (key : Str) (ks : List Str)
    (hs : ks.Pairwise (fun a b => strLt a b = true)) :
    (insertKey key ks).Pairwise (fun a b => strLt a b = true) := by
  induction ks with
  | nil => simp [insertKey]
  | cons k0 rest ih =>
    obtain ⟨hk0, hrest⟩ := List.pairwise_cons.mp hs
    unfold insertKey
    by_cases h1 : key = k0
    · rw [if_pos h1]
      exact hs
    · by_cases h2 : strLt key k0 = true
      · rw [if_neg h1, if_pos h2]
        refine List.pairwise_cons.mpr ⟨?_, hs⟩
        intro k hk
        rcases List.mem_cons.mp hk with rfl | hk
        · exact h2
        · exact strLt_trans h2 (hk0 k hk)
      · rw [if_neg h1, if_neg h2]
        refine List.pairwise_cons.mpr ⟨?_, ih hrest⟩
        intro k hk
        rcases (mem_insertKey key k rest).mp hk with rfl | hk
        · rcases strLt_trichotomy k k0 with h | h | h
          · exact absurd h h2
          · exact absurd h h1
          · exact h
        · exact hk0 k hk

theorem mapAppend_map (key : Str) (r : Record) (g : Str → List Record) (ks : List Str)
    (hs : ks.Pairwise (fun a b => strLt a b = true)) (hg : key ∉ ks → g key = []) :
    mapAppend key r (ks.map (fun k => (k, g k))) =
      (insertKey key ks).map (fun k => (k, g k ++ if key = k then [r] else [])) := by
  induction ks with
  | nil => simp [mapAppend, insertKey, hg]
  | cons k0 rest ih =>
    obtain ⟨hk0, hrest⟩ := List.pairwise_cons.mp hs
    have hne_rest : ∀ k ∈ rest, k0 ≠ k := by
      intro k hk e
      have := hk0 k hk
      rw [e, strLt_irrefl] at this
      cases this
    by_cases h1 : key = k0
    · subst h1
      have hcongr : rest.map (fun k => (k, g k ++ if key = k then [r] else [])) =
          rest.map (fun k => (k, g k)) := by
        apply List.map_congr_left
        intro k hk
        simp [hne_rest k hk]
      simp [mapAppend, insertKey, hcongr]
    · by_cases h2 : strLt key k0 = true
      · have hnot : key ∉ k0 :: rest := by
          intro hm
          rcases List.mem_cons.mp hm with e | hm
          · exact h1 e
          · have := strLt_trans h2 (hk0 key hm)
            rw [strLt_irrefl] at this
            cases this
        have hcongr : (k0 :: rest).map (fun k => (k, g k ++ if key = k then [r] else [])) =
            (k0 :: rest).map (fun k => (k, g k)) := by
          apply List.map_congr_left
          intro k hk
          have hne : key ≠ k := fun e => hnot (e ▸ hk)
          simp [hne]
        have hstep : mapAppend key r ((k0, g k0) :: rest.map (fun k => (k, g k))) =
            (key, [r]) :: (k0, g k0) :: rest.map (fun k => (k, g k)) := by
          simp [mapAppend, h1, h2]
        rw [List.map_cons, hstep]
        simp only [insertKey, if_neg h1, if_pos h2]
        rw [List.map_cons, hcongr, hg hnot]
        simp
      · have hg2 : key ∉ rest → g key = [] := by
          intro hm
          apply hg
          intro hm2
          rcases List.mem_cons.mp hm2 with e | hm2
          · exact h1 e
          · exact hm hm2
        have hstep : mapAppend key r ((k0, g k0) :: rest.map (fun k => (k, g k))) =
            (k0, g k0) :: mapAppend key r (rest.map (fun k => (k, g k))) := by
          simp [mapAppend, h1, h2]
        rw [List.map_cons, hstep, ih hrest hg2]
        simp [insertKey, h1, h2]

theorem groupLoop_of_known {columns : List Str} {where_column : Str} (where_value : Str)
    (group_indices : List Nat) (hwhere : where_column = [] ∨ where_column ∈ columns)
    (l seen : List Record) (ks : List Str)
    (hs : ks.Pairwise (fun a b => strLt a b = true))
    (hks : ∀ k, k ∈ ks ↔ ∃ r ∈ seen, groupKey group_indices r = k) :
    ∃ ks2 : List Str, ks2.Pairwise (fun a b => strLt a b = true) ∧
      (∀ k, k ∈ ks2 ↔ ∃ r ∈ seen ++ l.filter (specWhere columns where_column where_value),
        groupKey group_indices r = k) ∧
      groupLoop columns where_column where_value group_indices l
          (ks.map (fun k => (k, seen.filter (fun r => decide (groupKey group_indices r = k))))) =
        .ok (ks2.map (fun k =>
          (k, (seen ++ l.filter (specWhere columns where_column where_value)).filter
            (fun r => decide (groupKey group_indices r = k))))) := by
  induction l generalizing seen ks with
  | nil => exact ⟨ks, hs, by simpa using hks, by simp [groupLoop]⟩
  | cons r rest ih =>
    unfold groupLoop
    rw [whereMatch_of_known where_value r hwhere]
    cases hp : specWhere columns where_column where_value r
    · obtain ⟨ks2, h1, h2, h3⟩ := ih seen ks hs hks
      refine ⟨ks2, h1, ?_, ?_⟩
      · simpa [List.filter_cons, hp] using h2
      · simpa [List.filter_cons, hp] using h3
    · have hg : groupKey group_indices r ∉ ks →
          seen.filter (fun x => decide (groupKey group_indices x = groupKey group_indices r)) =
            [] := by
        intro hnot
        rw [List.filter_eq_nil_iff]
        intro x hx hd
        exact hnot ((hks _).mpr ⟨x, hx, of_decide_eq_true hd⟩)
      have hacc : mapAppend (groupKey group_indices r) r
            (ks.map (fun k => (k, seen.filter (fun x => decide (groupKey group_indices x = k))))) =
          (insertKey (groupKey group_indices r) ks).map (fun k =>
            (k, (seen ++ [r]).filter (fun x => decide (groupKey group_indices x = k)))) := by
        rw [mapAppend_map (groupKey group_indices r) r
          (fun k => seen.filter (fun x => decide (groupKey group_indices x = k))) ks hs hg]
        apply List.map_congr_left
        intro k _
        by_cases hk : groupKey group_indices r = k <;> simp [List.filter_cons, hk]
      have hks2 : ∀ k, k ∈ insertKey (groupKey group_indices r) ks ↔
          ∃ x ∈ seen ++ [r], groupKey group_indices x = k := by
        intro k
        rw [mem_insertKey, hks]
        constructor
        · rintro (rfl | ⟨x, hx, rfl⟩)
          · exact ⟨r, by simp, rfl⟩
          · exact ⟨x, by simp [hx], rfl⟩
        · rintro ⟨x, hx, rfl⟩
          rcases List.mem_append.mp hx with hx | hx
          · exact Or.inr ⟨x, hx, rfl⟩
          · simp only [List.mem_singleton] at hx
            subst hx
            exact Or.inl rfl
      obtain ⟨ks2, h1, h2, h3⟩ := ih (seen ++ [r]) _ (insertKey_sorted _ ks hs) hks2
      refine ⟨ks2, h1, ?_, ?_⟩
      · simpa [List.filter_cons, hp] using h2
      · simp only [hacc]
        simpa [List.filter_cons, hp] using h3

theorem groupLoop_ok_inv {columns : List Str} {where_column where_value : Str}
    (group_indices : List Nat) (l : List Record) (m : List (Str × List Record))
    (h : groupLoop columns where_column where_value group_indices l [] = .ok m) :
    ∃ ks : List Str, ks.Pairwise (fun a b => strLt a b = true) ∧
      (∀ k, k ∈ ks ↔ ∃ r ∈ l.filter (specWhere columns where_column where_value),
        groupKey group_indices r = k) ∧
      m = ks.map (fun k => (k, (l.filter (specWhere columns where_column where_value)).filter
        (fun r => decide (groupKey group_indices r = k)))) := by
  by_cases hk : where_column = [] ∨ where_column ∈ columns
  · obtain ⟨ks, h1, h2, h3⟩ := groupLoop_of_known where_value group_indices hk l [] []
      List.Pairwise.nil (by simp)
    simp only [List.map_nil, List.nil_append] at h2 h3
    rw [h3] at h
    cases h
    exact ⟨ks, h1, h2, rfl⟩
  · rw [not_or] at hk
    cases l with
    | nil =>
      simp only [groupLoop] at h
      cases h
      exact ⟨[], List.Pairwise.nil, by simp, rfl⟩
    | cons r rest =>
      unfold groupLoop at h
      rw [whereMatch_of_unknown where_value r hk.1 hk.2] at h
      cases h

theorem prepareAggregates_of_valid {columns : List Str} (aggregates : List (Str × Str))
    (h : ∀ agg ∈ aggregates, agg.1.map Char.toUpper = "COUNT".toList ∧
      (agg.2 = "*".toList ∨ agg.2 ∈ columns)) (acc : List (Str × Int)) :
    prepareAggregates columns aggregates acc = .ok (acc ++ aggregates.map (aggCode columns)) := by
  induction aggregates generalizing acc with
  | nil => simp [prepareAggregates]
  | cons agg rest ih =>
    obtain ⟨hfunc, htarget⟩ := h agg (List.mem_cons_self _ _)
    have hrest := ih (fun a hm => h a (List.mem_cons_of_mem _ hm))
    unfold prepareAggregates
    simp only [hfunc, if_true]
    by_cases hstar : agg.2 = "*".toList
    · simp [hstar, hrest, aggCode]
    · have hstar2 : ¬ agg.2 = ['*'] := hstar
      rw [if_neg hstar, findColumn_of_mem (htarget.resolve_left hstar)]
      simp [hrest, aggCode, hstar2]

theorem prepareAggregates_ok_inv {columns : List Str} (aggregates : List (Str × Str))
    (acc fs : List (Str × Int)) (h : prepareAggregates columns aggregates acc = .ok fs) :
    ∀ agg ∈ aggregates, agg.1.map Char.toUpper = "COUNT".toList ∧
      (agg.2 = "*".toList ∨ agg.2 ∈ columns) := by
  induction aggregates generalizing acc with
  | nil => simp
  | cons agg rest ih =>
    unfold prepareAggregates at h
    by_cases hfunc : agg.1.map Char.toUpper = "COUNT".toList
    · simp only [hfunc, if_true] at h
      by_cases hstar : agg.2 = "*".toList
      · rw [if_pos hstar] at h
        intro a ha
        rcases List.mem_cons.mp ha with rfl | ha
        · exact ⟨hfunc, Or.inl hstar⟩
        · exact ih _ h a ha
      · rw [if_neg hstar] at h
        by_cases hc : agg.2 ∈ columns
        · rw [findColumn_of_mem hc] at h
          intro a ha
          rcases List.mem_cons.mp ha with rfl | ha
          · exact ⟨hfunc, Or.inr hc⟩
          · exact ih _ h a ha
        · rw [findColumn_of_not_mem hc] at h
          cases h
    · simp only [hfunc, if_false] at h
      cases h

theorem countNonEmpty_eq_countP (idx : Nat) (recs : List Record) :
    countNonEmpty idx recs = recs.countP (fun r => decide (r.fieldAt idx ≠ [])) := by
  have hgen : ∀ (l : List Record) (n : Nat),
      l.foldl (fun count r => if r.fieldAt idx ≠ [] then count + 1 else count) n =
        n + l.countP (fun r => decide (r.fieldAt idx ≠ [])) := by
    intro l
    induction l with
    | nil => simp
    | cons r rest ih =>
      intro n
      by_cases hr : r.fieldAt idx = []
      · have hstep : (if r.fieldAt idx ≠ [] then n + 1 else n) = n := by simp [hr]
        rw [List.foldl_cons, hstep, ih, List.countP_cons]
        simp [hr]
      · have hstep : (if r.fieldAt idx ≠ [] then n + 1 else n) = n + 1 := by simp [hr]
        rw [List.foldl_cons, hstep, ih, List.countP_cons]
        simp [hr]
        omega
  simpa [countNonEmpty] using hgen recs 0

theorem groupAggCell_aggCode (columns : List Str) (group_indices : List Nat)
    (filtered : List Record) (key : Str) (agg : Str × Str) :
    groupAggCell (aggCode columns agg)
        (filtered.filter (fun r => decide (groupKey group_indices r = key))) =
      some (specGroupCount columns group_indices filtered key agg) := by
  by_cases hstar : agg.2 = "*".toList
  · simp [groupAggCell, aggCode, specGroupCount, hstar, List.countP_eq_length_filter]
  · have hne : ((columnIndex columns agg.2 : Nat) : Int) ≠ -1 := by omega
    simp only [groupAggCell, aggCode, specGroupCount, if_neg hstar, if_true, if_neg hne,
      Int.toNat_ofNat, countNonEmpty_eq_countP, List.countP_filter]
    congr 1
    apply List.countP_congr
    intro r _
    simp [and_comm]

theorem select_grouped_of_known (sort : (Record → Record → Bool) → List Record → List Record)
    (t : Table) (select_columns : List Str) (aggregates : List (Str × Str))
    (where_column where_value : Str) (order_by : List (Str × Str)) (group_by : List Str)
    (hgb : group_by ≠ [])
    (hproj : ∀ c ∈ select_columns, c ∈ t.columns)
    (hwhere : where_column = [] ∨ where_column ∈ t.columns)
    (hgroup : ∀ g ∈ group_by, g ∈ t.columns)
    (haggs : ∀ agg ∈ aggregates, agg.1.map Char.toUpper = "COUNT".toList ∧
      (agg.2 = "*".toList ∨ agg.2 ∈ t.columns)) :
    ∃ out, t.select sort select_columns aggregates where_column where_value order_by group_by =
      .ok out := by
  obtain ⟨ks, -, -, hloop⟩ := groupLoop_of_known where_value
    (group_by.map (columnIndex t.columns)) hwhere t.records [] [] List.Pairwise.nil (by simp)
  simp only [List.map_nil] at hloop
  unfold Table.select selectGrouped
  rw [resolveColumns_of_known select_columns hproj, resolveColumns_of_known group_by hgroup,
    prepareAggregates_of_valid aggregates haggs]
  simp only [List.nil_append, hloop]
  by_cases hs : select_columns = [] <;> simp [hs, hgb]

theorem select_grouped_inv (sort : (Record → Record → Bool) → List Record → List Record)
    (t : Table) (select_columns : List Str) (aggregates : List (Str × Str))
    (where_column where_value : Str) (order_by : List (Str × Str)) (group_by : List Str)
    (hgb : group_by ≠ []) (out : SelectOutput)
    (h : t.select sort select_columns aggregates where_column where_value order_by group_by =
      .ok out) :
    ∃ ks : List Str, ks.Pairwise (fun a b => strLt a b = true) ∧
      (∀ k, k ∈ ks ↔ ∃ r ∈ t.records.filter (specWhere t.columns where_column where_value),
        groupKey (group_by.map (columnIndex t.columns)) r = k) ∧
      out.rows = ks.map (fun k => groupRow group_by.length (aggregates.map (aggCode t.columns))
        (k, (t.records.filter (specWhere t.columns where_column where_value)).filter
          (fun r => decide (groupKey (group_by.map (columnIndex t.columns)) r = k)))) := by
  have h2 : selectGrouped t aggregates where_column where_value group_by = .ok out := by
    unfold Table.select at h
    by_cases hs : select_columns = []
    · simpa [hs, hgb] using h
    · cases hres : resolveColumns t.columns select_columns [] with
      | error e => simp [hs, hres] at h
      | ok idxs => simpa [hs, hres, hgb] using h
  unfold selectGrouped at h2
  cases hg : resolveColumns t.columns group_by [] with
  | error e => simp [hg] at h2
  | ok group_indices =>
    have hgroup := resolveColumns_ok_inv _ _ _ hg
    have hidx : group_indices = group_by.map (columnIndex t.columns) := by
      rw [resolveColumns_of_known group_by hgroup] at hg
      cases hg
      rfl
    cases ha : prepareAggregates t.columns aggregates [] with
    | error e => simp [hg, ha] at h2
    | ok agg_functions =>
      have haggs := prepareAggregates_ok_inv _ _ _ ha
      have hfs : agg_functions = aggregates.map (aggCode t.columns) := by
        rw [prepareAggregates_of_valid aggregates haggs] at ha
        cases ha
        rfl
      cases hl : groupLoop t.columns where_column where_value group_indices t.records [] with
      | error e => simp [hg, ha, hl] at h2
      | ok grouped =>
        simp only [hg, ha, hl] at h2
        cases h2
        rw [hidx] at hl
        obtain ⟨ks, h1, h3, h4⟩ := groupLoop_ok_inv _ _ _ hl
        refine ⟨ks, h1, h3, ?_⟩
        simp only [h4, hfs, List.map_map]
        rfl

theorem update_spec_core (t : Table) (set_column set_value where_column where_value : Str)
    (hset : set_column ∈ t.columns) (hwhere : where_column = [] ∨ where_column ∈ t.columns) :
    (t.update set_column set_value where_column where_value).2 =
      .ok (t.records.countP (specWhere t.columns where_column where_value)) := by
  simp [Table.update, findColumn_of_mem hset,
    updateLoop_of_known (columnIndex t.columns set_column) set_value where_value hwhere]

theorem update_unknown_set (t : Table) (set_column set_value where_column where_value : Str)
    (h : set_column ∉ t.columns) :
    t.update set_column set_value where_column where_value =
      (t, .error (.UnknownColumn set_column)) := by
  simp only [Table.update, findColumn_of_not_mem h]

theorem updateLoop_unknown_where {columns : List Str} {where_column : Str} (set_idx : Nat)
    (set_value where_value : Str) (hne : where_column ≠ []) (h : where_column ∉ columns)
    (l : List Record) :
    updateLoop columns set_idx set_value where_column where_value l [] 0 =
      (l, if l = [] then .ok 0 else .error (.UnknownColumn where_column)) := by
  cases l with
  | nil => simp [updateLoop]
  | cons r rest =>
    unfold updateLoop
    rw [whereMatch_of_unknown where_value r hne h]
    simp

theorem table_with_own_records (t : Table) : { t with records := t.records } = t := by
  cases t
  rfl

theorem update_unknown_where (t : Table) (set_column set_value where_column where_value : Str)
    (hset : set_column ∈ t.columns) (hne : where_column ≠ []) (h : where_column ∉ t.columns) :
    t.update set_column set_value where_column where_value =
      (t, if t.records = [] then .ok 0 else .error (.UnknownColumn where_column)) := by
  simp only [Table.update, findColumn_of_mem hset,
    updateLoop_unknown_where (columnIndex t.columns set_column) set_value where_value hne h,
    table_with_own_records]

/-- C11, evaluated at the failing input: on the table `t(a)` without records,
`UPDATE t SET a = x WHERE nosuch = 1` names a WHERE column that is not a column of
the table, and `Table::update` reports no error: it leaves the table as it is and
prints "Updated 0 record(s)".  The check of the WHERE column sits inside the loop
over the records, so it is never reached on an empty table. -/
theorem update_unknown_where_on_empty_table :
    "nosuch".toList ∉ emptyTable.columns ∧ "nosuch".toList ≠ [] ∧
    emptyTable.update "a".toList "x".toList "nosuch".toList "1".toList =
      (emptyTable, .ok 0) := by
  decide

/-- C12: no mutation applies partially.  Whenever `insert`, `update` or
`deleteRecords` reports an error, the error is `FieldCountMismatch` (insert) or
`UnknownColumn` (update, delete) and the table after the call is the table
before it; `deleteRecords` with a WHERE column that is given and unknown fails
and removes nothing, and `update` with such a WHERE column leaves the table as
it is, whether or not it reports the error. -/
theorem mutation_error_leaves_table (t : Table) (fields : List Str)
    (set_column set_value where_column where_value : Str) :
    (∀ e, (t.insert fields).2 = .error e →
      e = .FieldCountMismatch ∧ (t.insert fields).1 = t) ∧
    (∀ e, (t.update set_column set_value where_column where_value).2 = .error e →
      (∃ c, e = .UnknownColumn c) ∧
      (t.update set_column set_value where_column where_value).1 = t) ∧
    (∀ e, (t.deleteRecords where_column where_value).2 = .error e →
      (∃ c, e = .UnknownColumn c) ∧ (t.deleteRecords where_column where_value).1 = t) ∧
    (where_column ≠ [] → where_column ∉ t.columns →
      t.deleteRecords where_column where_value = (t, .error (.UnknownColumn where_column)) ∧
      (t.update set_column set_value where_column where_value).1 = t) := by
  refine ⟨?_, ?_, ?_, ?_⟩
  · intro e he
    by_cases h : fields.length = t.columns.length
    · simp [Table.insert, h] at he
    · have hi : t.insert fields = (t, .error .FieldCountMismatch) := by
        simp [Table.insert, h]
      rw [hi] at he ⊢
      cases he
      exact ⟨rfl, rfl⟩
  · intro e he
    by_cases hset : set_column ∈ t.columns
    · by_cases hk : where_column = [] ∨ where_column ∈ t.columns
      · rw [(update_spec_core t set_column set_value where_column where_value hset hk)] at he
        cases he
      · rw [not_or] at hk
        rw [update_unknown_where t set_column set_value where_column where_value hset hk.1
          hk.2] at he ⊢
        by_cases hr : t.records = []
        · simp [hr] at he
        · simp only [hr, if_false] at he
          cases he
          exact ⟨⟨_, rfl⟩, rfl⟩
    · rw [update_unknown_set t set_column set_value where_column where_value hset] at he ⊢
      cases he
      exact ⟨⟨_, rfl⟩, rfl⟩
  · intro e he
    by_cases h : where_column ≠ [] ∧ findColumn t.columns where_column = none
    · have hd : t.deleteRecords where_column where_value =
          (t, .error (.UnknownColumn where_column)) := by
        rw [Table.deleteRecords, if_pos h]
      rw [hd] at he ⊢
      cases he
      exact ⟨⟨_, rfl⟩, rfl⟩
    · rw [Table.deleteRecords, if_neg h] at he
      cases he
  · intro hne hunknown
    constructor
    · simp [Table.deleteRecords, hne, findColumn_of_not_mem hunknown]
    · by_cases hset : set_column ∈ t.columns
      · rw [update_unknown_where t set_column set_value where_column where_value hset hne
          hunknown]
      · rw [update_unknown_set t set_column set_value where_column where_value hset]

/-- Witness for C12: `DELETE FROM t WHERE nosuch = 1` on the scenario table. -/
theorem mutation_error_leaves_table_witness :
    scenarioTable.deleteRecords "nosuch".toList "1".toList =
      (scenarioTable, .error (.UnknownColumn "nosuch".toList)) ∧
    (scenarioTable.update "b".toList "q".toList "nosuch".toList "1".toList).1 =
      scenarioTable :=
  (mutation_error_leaves_table scenarioTable [] "b".toList "q".toList "nosuch".toList
    "1".toList).2.2.2 (by decide) (by decide)

/-! ## Error handling of the query engine -/

/-- C13, evaluated at the failing input: on the table `t(a)` without records a
select whose WHERE column `nosuch` is not a column of the table reports no
error, without GROUP BY and with `GROUP BY a`: in both cases the header is
printed and no row follows.  The check of the WHERE column sits inside the loops
over the records, so it is never reached on an empty table. -/
theorem select_unknown_where_on_empty_table
    (sort : (Record → Record → Bool) → List Record → List Record) :
    "nosuch".toList ∉ emptyTable.columns ∧
    emptyTable.select sort [] [] "nosuch".toList "1".toList [] [] =
      .ok ⟨["a".toList], [], []⟩ ∧
    emptyTable.select sort [] [("COUNT".toList, "*".toList)] "nosuch".toList "1".toList []
        ["a".toList] =
      .ok ⟨["a".toList, "COUNT(*)".toList], [], []⟩ :=
  ⟨by decide, rfl, rfl⟩

theorem resolveColumns_cases (columns cols : List Str) :
    ((∀ c ∈ cols, c ∈ columns) ∧
      ∀ acc, resolveColumns columns cols acc = .ok (acc ++ cols.map (columnIndex columns))) ∨
    (∃ c ∈ cols, c ∉ columns ∧
      ∀ acc, resolveColumns columns cols acc = .error (.UnknownColumn c)) := by
  induction cols with
  | nil => exact Or.inl ⟨by simp, fun acc => by simp [resolveColumns]⟩
  | cons c rest ih =>
    by_cases hc : c ∈ columns
    · rcases ih with ⟨hall, hok⟩ | ⟨d, hd, hdn, herr⟩
      · refine Or.inl ⟨?_, fun acc => ?_⟩
        · intro x hx
          rcases List.mem_cons.mp hx with rfl | hx
          · exact hc
          · exact hall x hx
        · unfold resolveColumns
          rw [findColumn_of_mem hc]
          simp [hok]
      · refine Or.inr ⟨d, List.mem_cons_of_mem _ hd, hdn, fun acc => ?_⟩
        unfold resolveColumns
        rw [findColumn_of_mem hc]
        exact herr _
    · refine Or.inr ⟨c, List.mem_cons_self _ _, hc, fun acc => ?_⟩
      unfold resolveColumns
      rw [findColumn_of_not_mem hc]

theorem prepareAggregates_cases (columns : List Str) (aggregates : List (Str × Str)) :
    ((∀ agg ∈ aggregates, agg.1.map Char.toUpper = "COUNT".toList ∧
        (agg.2 = "*".toList ∨ agg.2 ∈ columns)) ∧
      ∀ acc, prepareAggregates columns aggregates acc =
        .ok (acc ++ aggregates.map (aggCode columns))) ∨
    (∃ agg ∈ aggregates, agg.1.map Char.toUpper = "COUNT".toList ∧ agg.2 ≠ "*".toList ∧
      agg.2 ∉ columns ∧
      ∀ acc, prepareAggregates columns aggregates acc = .error (.UnknownColumn agg.2)) ∨
    (∃ agg ∈ aggregates, agg.1.map Char.toUpper ≠ "COUNT".toList ∧
      ∀ acc, prepareAggregates columns aggregates acc =
        .error (.UnsupportedAggregate (agg.1.map Char.toUpper))) := by
  induction aggregates with
  | nil => exact Or.inl ⟨by simp, fun acc => by simp [prepareAggregates]⟩
  | cons agg rest ih =>
    by_cases hfunc : agg.1.map Char.toUpper = "COUNT".toList
    · by_cases hvalid : agg.2 = "*".toList ∨ agg.2 ∈ columns
      · have hstep : ∀ acc, prepareAggregates columns (agg :: rest) acc =
            prepareAggregates columns rest (acc ++ [aggCode columns agg]) := by
          intro acc
          conv_lhs => rw [prepareAggregates]
          simp only [hfunc, if_true]
          by_cases hstar : agg.2 = "*".toList
          · rw [if_pos hstar]
            simp only [aggCode, if_pos hstar]
          · rw [if_neg hstar, findColumn_of_mem (hvalid.resolve_left hstar)]
            simp only [aggCode, if_neg hstar]
        rcases ih with ⟨hall, hok⟩ | ⟨a, ha, h1, h2, h3, herr⟩ | ⟨a, ha, h1, herr⟩
        · refine Or.inl ⟨?_, fun acc => ?_⟩
          · intro x hx
            rcases List.mem_cons.mp hx with rfl | hx
            · exact ⟨hfunc, hvalid⟩
            · exact hall x hx
          · rw [hstep, hok]
            simp
        · exact Or.inr (Or.inl ⟨a, List.mem_cons_of_mem _ ha, h1, h2, h3,
            fun acc => by rw [hstep, herr]⟩)
        · exact Or.inr (Or.inr ⟨a, List.mem_cons_of_mem _ ha, h1,
            fun acc => by rw [hstep, herr]⟩)
      · rw [not_or] at hvalid
        refine Or.inr (Or.inl ⟨agg, List.mem_cons_self _ _, hfunc, hvalid.1, hvalid.2,
          fun acc => ?_⟩)
        unfold prepareAggregates
        simp only [hfunc, if_true]
        rw [if_neg hvalid.1, findColumn_of_not_mem hvalid.2]
    · refine Or.inr (Or.inr ⟨agg, List.mem_cons_self _ _, hfunc, fun acc => ?_⟩)
      unfold prepareAggregates
      simp only [hfunc, if_false]

theorem select_grouped_invalid_aggregate
    (sort : (Record → Record → Bool) → List Record → List Record)
    (t : Table) (select_columns : List Str) (aggregates : List (Str × Str))
    (where_column where_value : Str) (order_by : List (Str × Str)) (group_by : List Str)
    (hgb : group_by ≠ [])
    (hbad : ¬ ∀ agg ∈ aggregates, agg.1.map Char.toUpper = "COUNT".toList ∧
      (agg.2 = "*".toList ∨ agg.2 ∈ t.columns)) :
    (∃ c, c ∉ t.columns ∧
      (c ∈ select_columns ∨ c ∈ group_by ∨
        ∃ agg ∈ aggregates, agg.2 = c ∧ c ≠ "*".toList ∧
          agg.1.map Char.toUpper = "COUNT".toList) ∧
      t.select sort select_columns aggregates where_column where_value order_by group_by =
        .error (.UnknownColumn c)) ∨
    (∃ agg ∈ aggregates, agg.1.map Char.toUpper ≠ "COUNT".toList ∧
      t.select sort select_columns aggregates where_column where_value order_by group_by =
        .error (.UnsupportedAggregate (agg.1.map Char.toUpper))) := by
  have hgrouped : (∃ c, c ∉ t.columns ∧
        (c ∈ select_columns ∨ c ∈ group_by ∨
          ∃ agg ∈ aggregates, agg.2 = c ∧ c ≠ "*".toList ∧
            agg.1.map Char.toUpper = "COUNT".toList) ∧
        selectGrouped t aggregates where_column where_value group_by =
          .error (.UnknownColumn c)) ∨
      (∃ agg ∈ aggregates, agg.1.map Char.toUpper ≠ "COUNT".toList ∧
        selectGrouped t aggregates where_column where_value group_by =
          .error (.UnsupportedAggregate (agg.1.map Char.toUpper))) := by
    unfold selectGrouped
    rcases resolveColumns_cases t.columns group_by with ⟨-, hok⟩ | ⟨c, hc, hcn, herr⟩
    · rw [hok]
      rcases prepareAggregates_cases t.columns aggregates with
        ⟨hall, -⟩ | ⟨a, ha, h1, h2, h3, herr⟩ | ⟨a, ha, h1, herr⟩
      · exact absurd hall hbad
      · exact Or.inl ⟨a.2, h3, Or.inr (Or.inr ⟨a, ha, rfl, h2, h1⟩), by simp [herr]⟩
      · exact Or.inr ⟨a, ha, h1, by simp [herr]⟩
    · exact Or.inl ⟨c, hcn, Or.inr (Or.inl hc), by simp [herr]⟩
  by_cases hs : select_columns = []
  · have hsel : t.select sort select_columns aggregates where_column where_value order_by
        group_by = selectGrouped t aggregates where_column where_value group_by := by
      simp [Table.select, hs, hgb]
    rw [hsel]
    exact hgrouped
  · rcases resolveColumns_cases t.columns select_columns with ⟨-, hok⟩ | ⟨c, hc, hcn, herr⟩
    · have hsel : t.select sort select_columns aggregates where_column where_value order_by
          group_by = selectGrouped t aggregates where_column where_value group_by := by
        simp [Table.select, hs, hgb, hok]
      rw [hsel]
      exact hgrouped
    · exact Or.inl ⟨c, hcn, Or.inl hc, by simp [Table.select, hs, herr]⟩

theorem select_plain_shape (sort : (Record → Record → Bool) → List Record → List Record)
    (t : Table) (select_columns : List Str) (aggregates : List (Str × Str))
    (where_column where_value : Str) (order_by : List (Str × Str)) (out : SelectOutput)
    (h : t.select sort select_columns aggregates where_column where_value order_by [] =
      .ok out) :
    ∃ (col_indices : List Nat) (recs : List Record),
      out = printPlain t select_columns aggregates col_indices recs := by
  by_cases hob : order_by = []
  · subst hob
    have hproj : ∀ c ∈ select_columns, c ∈ t.columns := by
      by_cases hs : select_columns = []
      · simp [hs]
      · cases hres : resolveColumns t.columns select_columns [] with
        | error e => simp [Table.select, hs, hres] at h
        | ok idxs => exact resolveColumns_ok_inv _ _ _ hres
    unfold Table.select selectPlain at h
    rw [resolveColumns_of_known select_columns hproj] at h
    cases hf : filterLoop t.columns where_column where_value t.records [] with
    | error e => by_cases hs : select_columns = [] <;> simp [hs, hf] at h
    | ok filtered =>
      by_cases hs : select_columns = []
      · simp only [hs, hf, if_true, ne_eq, not_true_eq_false, if_false] at h
        cases h
        exact ⟨List.range t.columns.length, filtered, by rw [hs]⟩
      · simp only [hs, hf, if_true, ne_eq, not_true_eq_false, if_false] at h
        cases h
        exact ⟨_, _, rfl⟩
  · exact ⟨_, _, select_sorted_inv sort t select_columns aggregates where_column where_value
      order_by hob out h⟩

theorem select_plain_succeeds (sort : (Record → Record → Bool) → List Record → List Record)
    (t : Table) (select_columns : List Str) (aggregates : List (Str × Str))
    (where_column where_value : Str) (order_by : List (Str × Str))
    (hproj : ∀ c ∈ select_columns, c ∈ t.columns)
    (hwhere : where_column = [] ∨ where_column ∈ t.columns)
    (horder : ∀ ob ∈ order_by, ob.1 ∈ t.columns) :
    ∃ out, t.select sort select_columns aggregates where_column where_value order_by [] =
      .ok out := by
  by_cases hob : order_by = []
  · subst hob
    exact ⟨_, select_plain_unsorted sort t select_columns aggregates where_column where_value
      hproj hwhere⟩
  · exact ⟨_, select_sorted_of_known sort t select_columns aggregates where_column where_value
      order_by hob hproj hwhere horder⟩

theorem rowAggCell_unknown_target (columns : List Str) (record : Record) (target : Str)
    (hstar : target ≠ "*".toList) (hunknown : target ∉ columns) :
    rowAggCell columns record ("COUNT".toList, target) = some 0 := by
  simp only [rowAggCell, if_true, if_neg hstar, findColumn_of_not_mem hunknown]

theorem summaryLine_unknown_target (columns : List Str) (recs : List Record) (target : Str)
    (hstar : target ≠ "*".toList) (hunknown : target ∉ columns) :
    summaryLine columns recs ("COUNT".toList, target) =
      some ("COUNT(".toList ++ target ++ ")".toList, 0) := by
  simp only [summaryLine, if_true, if_neg hstar, findColumn_of_not_mem hunknown]

theorem printPlain_row_cell (t : Table) (select_columns : List Str)
    (aggregates : List (Str × Str)) (col_indices : List Nat) (recs : List Record)
    (row : Row) (hrow : row ∈ (printPlain t select_columns aggregates col_indices recs).rows)
    (i : Nat) (agg : Str × Str) (hi : aggregates[i]? = some agg) :
    ∃ record ∈ recs, row.aggs[i]? = some (rowAggCell t.columns record agg) := by
  simp only [printPlain, List.mem_map] at hrow
  obtain ⟨record, hrec, rfl⟩ := hrow
  exact ⟨record, hrec, by simp [List.getElem?_map, hi]⟩

/-- C14 as stated fails: without GROUP BY, `COUNT(nosuch)` on the scenario table
does not fail; every row shows 0 for the aggregate and the summary is
`COUNT(nosuch) = 0`.  With GROUP BY the select fails, but an unsupported
aggregate earlier in the list is reported first. -/
theorem count_unknown_target_counterexample :
    "nosuch".toList ∉ scenarioTable.columns ∧
    scenarioTable.select insertionSortBy [] [("COUNT".toList, "nosuch".toList)] [] [] [] [] =
      .ok ⟨["a".toList, "b".toList, "COUNT(nosuch)".toList],
        [⟨["1".toList, "x".toList], [some 0]⟩, ⟨["2".toList, "y".toList], [some 0]⟩,
          ⟨["1".toList, "z".toList], [some 0]⟩],
        [("COUNT(nosuch)".toList, 0)]⟩ ∧
    scenarioTable.select insertionSortBy []
        [("SUM".toList, "b".toList), ("COUNT".toList, "nosuch".toList)] [] [] []
        ["a".toList] =
      .error (.UnsupportedAggregate "SUM".toList) := by
  decide

/-- C14, amended: for a COUNT target that is not `*` and not a column of the
table.  With GROUP BY, a select whose aggregates are all COUNT and that requests
it fails with `UnknownColumn` and prints nothing.  Without GROUP BY the select
does not fail for it: it succeeds whenever the projection, WHERE and ORDER BY
columns exist, and whenever it prints, every row shows 0 for that aggregate and
the summary holds the line `COUNT(target) = 0`. -/
theorem count_unknown_target (sort : (Record → Record → Bool) → List Record → List Record)
    (t : Table) (select_columns : List Str) (aggregates : List (Str × Str))
    (where_column where_value : Str) (order_by : List (Str × Str)) (group_by : List Str)
    (target : Str) (hstar : target ≠ "*".toList) (hunknown : target ∉ t.columns) :
    (group_by ≠ [] → (∀ agg ∈ aggregates, agg.1.map Char.toUpper = "COUNT".toList) →
      (∃ agg ∈ aggregates, agg.2 = target) →
      ∃ c, c ∉ t.columns ∧
        t.select sort select_columns aggregates where_column where_value order_by group_by =
          .error (.UnknownColumn c)) ∧
    ((∀ c ∈ select_columns, c ∈ t.columns) → (where_column = [] ∨ where_column ∈ t.columns) →
      (∀ ob ∈ order_by, ob.1 ∈ t.columns) →
      ∃ out, t.select sort select_columns aggregates where_column where_value order_by [] =
        .ok out) ∧
    (∀ out, t.select sort select_columns aggregates where_column where_value order_by [] =
        .ok out →
      ∀ i : Nat, aggregates[i]? = some ("COUNT".toList, target) →
        (∀ row ∈ out.rows, row.aggs[i]? = some (some 0)) ∧
        ("COUNT(".toList ++ target ++ ")".toList, 0) ∈ out.summary) := by
  refine ⟨?_, select_plain_succeeds sort t select_columns aggregates where_column where_value
    order_by, ?_⟩
  · intro hgb hcount ⟨agg, hagg, htarget⟩
    have hbad : ¬ ∀ a ∈ aggregates, a.1.map Char.toUpper = "COUNT".toList ∧
        (a.2 = "*".toList ∨ a.2 ∈ t.columns) := by
      intro hall
      rcases (hall agg hagg).2 with h | h
      · exact hstar (htarget ▸ h)
      · exact hunknown (htarget ▸ h)
    rcases select_grouped_invalid_aggregate sort t select_columns aggregates where_column
      where_value order_by group_by hgb hbad with ⟨c, hc, -, hsel⟩ | ⟨a, ha, hne, -⟩
    · exact ⟨c, hc, hsel⟩
    · exact absurd (hcount a ha) hne
  · intro out hout i hi
    obtain ⟨col_indices, recs, rfl⟩ := select_plain_shape sort t select_columns aggregates
      where_column where_value order_by out hout
    constructor
    · intro row hrow
      obtain ⟨record, -, hcell⟩ := printPlain_row_cell t select_columns aggregates col_indices
        recs row hrow i _ hi
      rw [hcell, rowAggCell_unknown_target t.columns record target hstar hunknown]
    · have hmem : ("COUNT".toList, target) ∈ aggregates := List.getElem?_mem hi
      have hne : aggregates ≠ [] := List.ne_nil_of_mem hmem
      simp only [printPlain, if_pos hne]
      exact List.mem_filterMap.mpr ⟨_, hmem,
        summaryLine_unknown_target t.columns recs target hstar hunknown⟩

/-- Witness for C14 (amended): `COUNT(nosuch)` with `GROUP BY a` on the scenario table. -/
theorem count_unknown_target_witness :
    ∃ c, c ∉ scenarioTable.columns ∧
      scenarioTable.select insertionSortBy [] [("COUNT".toList, "nosuch".toList)] [] [] []
        ["a".toList] = .error (.UnknownColumn c) :=
  (count_unknown_target insertionSortBy scenarioTable [] [("COUNT".toList, "nosuch".toList)]
    [] [] [] ["a".toList] "nosuch".toList (by decide) (by decide)).1 (by decide) (by decide)
    ⟨_, List.mem_cons_self _ _, rfl⟩

/-- A direct call of `Table::select` with a function name that `Database::run`
never passes: without GROUP BY, `SUM(b)` on the scenario table prints the rows
with nothing in the aggregate cell; with GROUP BY the function name is
upper-cased first, so `count(*)` is counted. -/
theorem direct_select_other_function_example :
    scenarioTable.select insertionSortBy [] [("SUM".toList, "b".toList)] [] [] [] [] =
      .ok ⟨["a".toList, "b".toList, "SUM(b)".toList],
        [⟨["1".toList, "x".toList], [none]⟩, ⟨["2".toList, "y".toList], [none]⟩,
          ⟨["1".toList, "z".toList], [none]⟩], []⟩ ∧
    scenarioTable.select insertionSortBy [] [("count".toList, "*".toList)] [] [] []
        ["a".toList] =
      .ok ⟨["a".toList, "COUNT(*)".toList],
        [⟨["1".toList], [some 2]⟩, ⟨["2".toList], [some 1]⟩], []⟩ := by
  decide

/-- Direct calls of `Table::select` with an aggregate whose function name is not
`COUNT`.  With GROUP BY, when the upper-cased name is not `COUNT` the select
fails and prints nothing; the error is `UnsupportedAggregate` when the
projection columns, the GROUP BY columns and all aggregate targets exist, and
`UnsupportedAggregate` or `UnknownColumn` otherwise.  Without GROUP BY the call
succeeds whenever the projection, WHERE and ORDER BY columns exist, and a
function name other than `COUNT` leaves the aggregate cell of every row empty. -/
theorem direct_select_other_function (sort : (Record → Record → Bool) → List Record → List Record)
    (t : Table) (select_columns : List Str) (aggregates : List (Str × Str))
    (where_column where_value : Str) (order_by : List (Str × Str)) (group_by : List Str)
    (agg : Str × Str) (hagg : agg ∈ aggregates) :
    (group_by ≠ [] → agg.1.map Char.toUpper ≠ "COUNT".toList →
      (∃ c, c ∉ t.columns ∧
        t.select sort select_columns aggregates where_column where_value order_by group_by =
          .error (.UnknownColumn c)) ∨
      (∃ a ∈ aggregates, a.1.map Char.toUpper ≠ "COUNT".toList ∧
        t.select sort select_columns aggregates where_column where_value order_by group_by =
          .error (.UnsupportedAggregate (a.1.map Char.toUpper)))) ∧
    (group_by ≠ [] → agg.1.map Char.toUpper ≠ "COUNT".toList →
      (∀ c ∈ select_columns, c ∈ t.columns) → (∀ g ∈ group_by, g ∈ t.columns) →
      (∀ a ∈ aggregates, a.2 = "*".toList ∨ a.2 ∈ t.columns) →
      ∃ a ∈ aggregates, a.1.map Char.toUpper ≠ "COUNT".toList ∧
        t.select sort select_columns aggregates where_column where_value order_by group_by =
          .error (.UnsupportedAggregate (a.1.map Char.toUpper))) ∧
    ((∀ c ∈ select_columns, c ∈ t.columns) → (where_column = [] ∨ where_column ∈ t.columns) →
      (∀ ob ∈ order_by, ob.1 ∈ t.columns) →
      ∃ out, t.select sort select_columns aggregates where_column where_value order_by [] =
        .ok out) ∧
    (agg.1 ≠ "COUNT".toList →
      ∀ out, t.select sort select_columns aggregates where_column where_value order_by [] =
          .ok out →
        ∀ i : Nat, aggregates[i]? = some agg → ∀ row ∈ out.rows, row.aggs[i]? = some none) := by
  have hbad : agg.1.map Char.toUpper ≠ "COUNT".toList →
      ¬ ∀ a ∈ aggregates, a.1.map Char.toUpper = "COUNT".toList ∧
        (a.2 = "*".toList ∨ a.2 ∈ t.columns) :=
    fun hne hall => hne (hall agg hagg).1
  refine ⟨?_, ?_, select_plain_succeeds sort t select_columns aggregates where_column
    where_value order_by, ?_⟩
  · intro hgb hne
    rcases select_grouped_invalid_aggregate sort t select_columns aggregates where_column
      where_value order_by group_by hgb (hbad hne) with ⟨c, hc, -, hsel⟩ | h
    · exact Or.inl ⟨c, hc, hsel⟩
    · exact Or.inr h
  · intro hgb hne hproj hgroup htargets
    rcases select_grouped_invalid_aggregate sort t select_columns aggregates where_column
      where_value order_by group_by hgb (hbad hne) with ⟨c, hc, hfrom, -⟩ | h
    · rcases hfrom with h | h | ⟨a, ha, h1, h2, -⟩
      · exact absurd (hproj c h) hc
      · exact absurd (hgroup c h) hc
      · rcases htargets a ha with h3 | h3
        · exact absurd (h1 ▸ h3) h2
        · exact absurd (h1 ▸ h3) hc
    · exact h
  · intro hne out hout i hi row hrow
    obtain ⟨col_indices, recs, rfl⟩ := select_plain_shape sort t select_columns aggregates
      where_column where_value order_by out hout
    obtain ⟨record, -, hcell⟩ := printPlain_row_cell t select_columns aggregates col_indices
      recs row hrow i _ hi
    rw [hcell]
    simp only [rowAggCell, if_neg hne]

/-! ## Aggregates in the SELECT command -/

theorem aggregateCall_not_from (token : Str) (call : Str × Str)
    (h : aggregateCall token = some call) : isFrom token = false := by
  unfold isFrom
  rw [decide_eq_false_iff_not]
  intro hfrom
  have h1 : aggregateCall "FROM".toList = none := by decide
  have h2 : aggregateCall "from".toList = none := by decide
  have h3 : aggregateCall "From".toList = none := by decide
  rcases hfrom with rfl | rfl | rfl
  · rw [h1] at h
    cases h
  · rw [h2] at h
    cases h
  · rw [h3] at h
    cases h

theorem selectListLoop_aggregates (words : List Str) (token : Str)
    (selected_columns : List Str) (aggregates : List (Str × Str))
    (h : ∀ agg ∈ aggregates, agg.1 = "COUNT".toList) :
    ∀ agg ∈ (selectListLoop words token selected_columns aggregates).aggregates,
      agg.1 = "COUNT".toList := by
  induction words generalizing token selected_columns aggregates with
  | nil => exact h
  | cons word unread ih =>
    unfold selectListLoop
    by_cases hf : isFrom word = true
    · rw [if_pos hf]
      exact h
    · rw [if_neg hf]
      cases hcall : aggregateCall (stripComma word) with
      | none => exact ih _ _ _ h
      | some call =>
        obtain ⟨func, arg⟩ := call
        by_cases hc : func = "COUNT".toList
        · simp only [if_pos hc]
          apply ih
          intro agg hagg
          rcases List.mem_append.mp hagg with h1 | h1
          · exact h agg h1
          · rw [List.mem_singleton.mp h1]
        · simp only [if_neg hc]
          intro agg hagg
          cases hagg

theorem selectListLoop_unsupported (words : List Str) (token : Str)
    (selected_columns : List Str) (aggregates : List (Str × Str))
    (h : ∃ word ∈ words.takeWhile (fun w => !isFrom w), ∃ func arg,
      aggregateCall (stripComma word) = some (func, arg) ∧ func ≠ "COUNT".toList) :
    ∃ word ∈ words.takeWhile (fun w => !isFrom w), ∃ func arg,
      aggregateCall (stripComma word) = some (func, arg) ∧ func ≠ "COUNT".toList ∧
      (selectListLoop words token selected_columns aggregates).reports =
        [.error (.UnsupportedAggregate func)] ∧
      (selectListLoop words token selected_columns aggregates).token = stripComma word ∧
      (selectListLoop words token selected_columns aggregates).aggregates = [] := by
  induction words generalizing token selected_columns aggregates with
  | nil =>
    obtain ⟨word, hword, -⟩ := h
    cases hword
  | cons word unread ih =>
    obtain ⟨w, hw, func, arg, hcall, hne⟩ := h
    by_cases hf : isFrom word = true
    · simp [List.takeWhile, hf] at hw
    · have hf2 : isFrom word = false := by simpa using hf
      have htake : (word :: unread).takeWhile (fun w => !isFrom w) =
          word :: unread.takeWhile (fun w => !isFrom w) := by
        simp [List.takeWhile, hf2]
      rw [htake] at hw ⊢
      have hrest : ∀ (tok : Str) (sel : List Str) (aggs : List (Str × Str)),
          w ∈ unread.takeWhile (fun w => !isFrom w) →
          ∃ word2 ∈ word :: unread.takeWhile (fun w => !isFrom w), ∃ func2 arg2,
            aggregateCall (stripComma word2) = some (func2, arg2) ∧
            func2 ≠ "COUNT".toList ∧
            (selectListLoop unread tok sel aggs).reports =
              [.error (.UnsupportedAggregate func2)] ∧
            (selectListLoop unread tok sel aggs).token = stripComma word2 ∧
            (selectListLoop unread tok sel aggs).aggregates = [] := by
        intro tok sel aggs hmem
        obtain ⟨word2, hword2, func2, arg2, h1, h2, h3⟩ :=
          ih tok sel aggs ⟨w, hmem, func, arg, hcall, hne⟩
        exact ⟨word2, List.mem_cons_of_mem _ hword2, func2, arg2, h1, h2, h3⟩
      unfold selectListLoop
      rw [if_neg hf]
      cases hcall0 : aggregateCall (stripComma word) with
      | none =>
        rcases List.mem_cons.mp hw with rfl | hmem
        · rw [hcall0] at hcall
          cases hcall
        · exact hrest _ _ _ hmem
      | some call =>
        obtain ⟨func0, arg0⟩ := call
        by_cases hc : func0 = "COUNT".toList
        · simp only [if_pos hc]
          rcases List.mem_cons.mp hw with rfl | hmem
          · rw [hcall0] at hcall
            cases hcall
            exact absurd hc hne
          · exact hrest _ _ _ hmem
        · refine ⟨word, List.mem_cons_self _ _, func0, arg0, hcall0, hc, ?_⟩
          have hc2 : ¬ func0 = ['C', 'O', 'U', 'N', 'T'] := hc
          simp [hc2]

/-- C15: for every SELECT command, with or without GROUP BY and whatever follows
`FROM`, whose select list includes an aggregate `func(arg)` with a function name
that is not `COUNT` (names are compared after upper-casing): the command reports
`UnsupportedAggregate` for such a name, then the missing `FROM`, and ends
without running the rest of the branch, so `Table::select` is not called and no
row is printed.  Moreover every aggregate that a select list hands on to
`Table::select` has the function name `COUNT`. -/
theorem unsupported_aggregate_rejected {α : Type} (afterFrom : SelectList → α)
    (words : List Str)
    (h : ∃ word ∈ words.takeWhile (fun w => !isFrom w), ∃ func arg,
      aggregateCall (stripComma word) = some (func, arg) ∧ func ≠ "COUNT".toList) :
    (∃ word ∈ words.takeWhile (fun w => !isFrom w), ∃ func arg,
      aggregateCall (stripComma word) = some (func, arg) ∧ func ≠ "COUNT".toList ∧
      runSelect afterFrom words =
        ([.error (.UnsupportedAggregate func), .missingFrom], none)) ∧
    (∀ (words2 : List Str),
      ∀ agg ∈ (selectListLoop words2 [] [] []).aggregates, agg.1 = "COUNT".toList) := by
  constructor
  · obtain ⟨word, hword, func, arg, hcall, hne, hreports, htoken, -⟩ :=
      selectListLoop_unsupported words [] [] [] h
    refine ⟨word, hword, func, arg, hcall, hne, ?_⟩
    unfold runSelect
    simp only [htoken, aggregateCall_not_from _ _ hcall, hreports, if_true]
    rfl
  · intro words2
    exact selectListLoop_aggregates words2 [] [] [] (by simp)

/-- Witness for C15: the command `SELECT a, SUM(b) FROM t GROUP BY a`. -/
theorem unsupported_aggregate_rejected_witness :
    ∃ word ∈ ["a,".toList, "SUM(b)".toList, "FROM".toList, "t".toList, "GROUP".toList,
        "BY".toList, "a".toList].takeWhile (fun w => !isFrom w), ∃ func arg,
      aggregateCall (stripComma word) = some (func, arg) ∧ func ≠ "COUNT".toList ∧
      runSelect (fun parsed => parsed.aggregates)
          ["a,".toList, "SUM(b)".toList, "FROM".toList, "t".toList, "GROUP".toList,
            "BY".toList, "a".toList] =
        ([.error (.UnsupportedAggregate func), .missingFrom], none) :=
  (unsupported_aggregate_rejected (fun parsed => parsed.aggregates)
    ["a,".toList, "SUM(b)".toList, "FROM".toList, "t".toList, "GROUP".toList,
      "BY".toList, "a".toList]
    ⟨"SUM(b)".toList, by decide, "SUM".toList, "b".toList, by decide, by decide⟩).1

/-! ## Storage effects of the catalog operations -/

theorem save_writable (t : Table) (fs : Storage) : (t.save fs).writable = fs.writable := by
  unfold Table.save
  split <;> rfl

theorem save_files_self (t : Table) (fs : Storage) (hw : fs.writable t.filepath = true) :
    (t.save fs).files t.filepath = some t.encode := by
  simp [Table.save, hw]

theorem save_sameFile (t : Table) (fs : Storage) : (t.save fs).sameFile = fs.sameFile := by
  unfold Table.save
  split <;> rfl

theorem save_files_other (t : Table) (fs : Storage) (path : Str) (h : path ≠ t.filepath)
    (hs : fs.sameFile path t.filepath = false) :
    (t.save fs).files path = fs.files path := by
  unfold Table.save
  split
  · rfl
  · simp [h, hs]

theorem tablePath_injective {a b : Str} (h : tablePath a = tablePath b) : a = b := by
  unfold tablePath at h
  rw [List.append_assoc, List.append_assoc] at h
  exact List.append_cancel_right (List.append_cancel_left h)

theorem insert_filepath (t : Table) (fields : List Str) :
    (t.insert fields).1.filepath = t.filepath := by
  unfold Table.insert
  split <;> rfl

theorem update_filepath (t : Table) (set_column set_value where_column where_value : Str) :
    (t.update set_column set_value where_column where_value).1.filepath = t.filepath := by
  unfold Table.update
  split <;> rfl

theorem deleteRecords_filepath (t : Table) (where_column where_value : Str) :
    (t.deleteRecords where_column where_value).1.filepath = t.filepath := by
  unfold Table.deleteRecords
  split <;> rfl

theorem lookup_insert_eq_some (tables : TableMap) (name k : Str) (t t2 : Table)
    (h : (tables.insert name t).lookup k = some t2) :
    (k = name ∧ t2 = t) ∨ (k ≠ name ∧ tables.lookup k = some t2) := by
  by_cases hk : k = name
  · subst hk
    rw [AList.lookup_insert] at h
    exact Or.inl ⟨rfl, (Option.some.inj h).symm⟩
  · rw [AList.lookup_insert_ne hk] at h
    exact Or.inr ⟨hk, h⟩

theorem catalogPathsOk_insert (tables : TableMap) (name : Str) (t : Table)
    (h : catalogPathsOk tables) (ht : t.filepath = tablePath name) :
    catalogPathsOk (tables.insert name t) := by
  intro k t2 hk
  rcases lookup_insert_eq_some tables name k t t2 hk with ⟨rfl, rfl⟩ | ⟨-, hk2⟩
  · exact ht
  · exact h k t2 hk2

/-- The catalog invariant and the set of writable paths are kept by every
mutation request, inside and outside a transaction. -/
theorem mutate_keeps_paths (db : Database) (op : Mutation) (h : catalogPathsOk db.tables) :
    catalogPathsOk (db.mutate op).tables ∧
    (db.mutate op).storage.writable = db.storage.writable := by
  cases op with
  | CreateTable name columns =>
    simp only [Database.mutate, Database.createTable]
    split
    · exact ⟨h, rfl⟩
    · refine ⟨catalogPathsOk_insert _ _ _ h rfl, ?_⟩
      dsimp only
      split
      · rw [save_writable]
        exact save_writable _ _
      · exact save_writable _ _
  | Insert table values =>
    simp only [Database.mutate, Database.insertInto]
    split
    · exact ⟨h, rfl⟩
    · rename_i t0 ht0
      refine ⟨catalogPathsOk_insert _ _ _ h ((insert_filepath _ _).trans (h _ _ ht0)), ?_⟩
      dsimp only
      split
      · exact save_writable _ _
      · rfl
  | Update table set_column set_value where_column where_value =>
    simp only [Database.mutate, Database.updateTable]
    split
    · exact ⟨h, rfl⟩
    · rename_i t0 ht0
      refine ⟨catalogPathsOk_insert _ _ _ h ((update_filepath _ _ _ _ _).trans (h _ _ ht0)), ?_⟩
      dsimp only
      split
      · exact save_writable _ _
      · rfl
  | Delete table where_column where_value =>
    simp only [Database.mutate, Database.deleteFrom]
    split
    · exact ⟨h, rfl⟩
    · rename_i t0 ht0
      refine ⟨catalogPathsOk_insert _ _ _ h ((deleteRecords_filepath _ _ _).trans (h _ _ ht0)),
        ?_⟩
      dsimp only
      split
      · exact save_writable _ _
      · rfl

theorem mutateAll_keeps_paths (ops : List Mutation) (db : Database)
    (h : catalogPathsOk db.tables) :
    catalogPathsOk (db.mutateAll ops).tables ∧
    (db.mutateAll ops).storage.writable = db.storage.writable := by
  induction ops generalizing db with
  | nil => exact ⟨h, rfl⟩
  | cons op rest ih =>
    obtain ⟨h1, h2⟩ := mutate_keeps_paths db op h
    obtain ⟨g1, g2⟩ := ih (db.mutate op) h1
    exact ⟨g1, g2.trans h2⟩

theorem mutate_keeps_sameFile (db : Database) (op : Mutation) :
    (db.mutate op).storage.sameFile = db.storage.sameFile := by
  cases op with
  | CreateTable name columns =>
    simp only [Database.mutate, Database.createTable]
    split
    · rfl
    · dsimp only
      split
      · rw [save_sameFile]
        exact save_sameFile _ _
      · exact save_sameFile _ _
  | Insert table values =>
    simp only [Database.mutate, Database.insertInto]
    split
    · rfl
    · dsimp only
      split
      · exact save_sameFile _ _
      · rfl
  | Update table set_column set_value where_column where_value =>
    simp only [Database.mutate, Database.updateTable]
    split
    · rfl
    · dsimp only
      split
      · exact save_sameFile _ _
      · rfl
  | Delete table where_column where_value =>
    simp only [Database.mutate, Database.deleteFrom]
    split
    · rfl
    · dsimp only
      split
      · exact save_sameFile _ _
      · rfl

theorem mutateAll_keeps_sameFile (ops : List Mutation) (db : Database) :
    (db.mutateAll ops).storage.sameFile = db.storage.sameFile := by
  induction ops generalizing db with
  | nil => rfl
  | cons op rest ih => exact (ih (db.mutate op)).trans (mutate_keeps_sameFile db op)

/-- Inside a transaction `insert`, `update` and `delete` requests, and a create
request for a name that is already in the catalog, leave the storage as it is. -/
theorem mutation_storage_in_transaction (db : Database) (hactive : db.transaction_active = true)
    (table set_column set_value where_column where_value : Str) (values columns : List Str) :
    (db.insertInto table values).1.storage = db.storage ∧
    (db.updateTable table set_column set_value where_column where_value).1.storage =
      db.storage ∧
    (db.deleteFrom table where_column where_value).1.storage = db.storage ∧
    ((db.tables.lookup table).isSome = true →
      (db.createTable table columns).1.storage = db.storage) := by
  refine ⟨?_, ?_, ?_, ?_⟩
  · unfold Database.insertInto
    split <;> simp [hactive]
  · unfold Database.updateTable
    split <;> simp [hactive]
  · unfold Database.deleteFrom
    split <;> simp [hactive]
  · intro h
    simp [Database.createTable, h]

/-- C16, evaluated at the failing input: inside a transaction, on a catalog
without tables over a file system without files, `CREATE TABLE u (c)` writes the
file `data/u.tbl` with the header line `c`.  `Database::createTable` skips its
own `save` while the transaction is active, but the constructor
`Table(name, columns)` it calls has saved the schema already. -/
theorem create_in_transaction_writes :
    activeDatabase.transaction_active = true ∧
    (activeDatabase.tables.lookup "u".toList).isSome = false ∧
    activeDatabase.storage.files "data/u.tbl".toList = none ∧
    (activeDatabase.createTable "u".toList ["c".toList]).1.storage.files
      "data/u.tbl".toList = some ['c', NEWLINE] := by
  decide

theorem foldl_save_writable (l : List (Sigma fun _ : Str => Table)) (fs : Storage) :
    (l.foldl (fun fs a => a.2.save fs) fs).writable = fs.writable := by
  induction l generalizing fs with
  | nil => rfl
  | cons e rest ih => rw [List.foldl_cons, ih, save_writable]

theorem foldl_save_sameFile (l : List (Sigma fun _ : Str => Table)) (fs : Storage) :
    (l.foldl (fun fs a => a.2.save fs) fs).sameFile = fs.sameFile := by
  induction l generalizing fs with
  | nil => rfl
  | cons e rest ih => rw [List.foldl_cons, ih, save_sameFile]

theorem foldl_save_files_other (l : List (Sigma fun _ : Str => Table)) (fs : Storage)
    (path : Str)
    (h : ∀ e ∈ l, path ≠ e.2.filepath ∧ fs.sameFile path e.2.filepath = false) :
    (l.foldl (fun fs a => a.2.save fs) fs).files path = fs.files path := by
  induction l generalizing fs with
  | nil => rfl
  | cons e rest ih =>
    have he := h e (List.mem_cons_self _ _)
    rw [List.foldl_cons, ih _ (fun x hx => by
        rw [save_sameFile]
        exact h x (List.mem_cons_of_mem _ hx)),
      save_files_other _ _ _ he.1 he.2]

theorem foldl_save_files (l : List (Sigma fun _ : Str => Table)) (fs : Storage)
    (hdistinct : l.Pairwise (fun a b => a.2.filepath ≠ b.2.filepath ∧
      fs.sameFile a.2.filepath b.2.filepath = false))
    (hw : ∀ e ∈ l, fs.writable e.2.filepath = true) :
    ∀ e ∈ l, (l.foldl (fun fs a => a.2.save fs) fs).files e.2.filepath = some e.2.encode := by
  induction l generalizing fs with
  | nil => simp
  | cons e0 rest ih =>
    obtain ⟨h0, hrest⟩ := List.pairwise_cons.mp hdistinct
    intro e he
    rw [List.foldl_cons]
    rcases List.mem_cons.mp he with rfl | he
    · rw [foldl_save_files_other rest _ _ (fun x hx => by
        rw [save_sameFile]
        exact h0 x hx)]
      exact save_files_self _ _ (hw e (List.mem_cons_self _ _))
    · apply ih _ ?_ ?_ e he
      · rw [save_sameFile]
        exact hrest
      · intro x hx
        rw [save_writable]
        exact hw x (List.mem_cons_of_mem _ hx)

theorem entries_distinct_paths (fs : Storage) (tables : TableMap) (h : catalogPathsOk tables)
    (hfiles : catalogFilesDistinct fs tables) :
    tables.entries.Pairwise (fun a b => a.2.filepath ≠ b.2.filepath ∧
      fs.sameFile a.2.filepath b.2.filepath = false) := by
  have hkeys := List.nodupKeys_iff_pairwise.mp tables.nodupKeys
  apply hkeys.imp_of_mem
  intro a b ha hb hne
  have hla : tables.lookup a.1 = some a.2 := by
    apply AList.mem_lookup_iff.mpr
    cases a
    exact ha
  have hlb : tables.lookup b.1 = some b.2 := by
    apply AList.mem_lookup_iff.mpr
    cases b
    exact hb
  refine ⟨?_, hfiles a.1 b.1 a.2 b.2 hla hlb hne⟩
  intro heq
  rw [h _ _ hla, h _ _ hlb] at heq
  exact hne (tablePath_injective heq)

theorem commit_of_active (db : Database) (hactive : db.transaction_active = true) :
    db.commitTransaction =
      ({ db with
          storage := db.tables.foldl (fun fs _ t => t.save fs) db.storage,
          table_backups := ∅,
          transaction_active := false }, .ok ()) := by
  simp [Database.commitTransaction, hactive]

theorem commit_files (db : Database) (hactive : db.transaction_active = true)
    (hpaths : catalogPathsOk db.tables)
    (hwrite : ∀ (name : Str) (t : Table), db.tables.lookup name = some t →
      db.storage.writable t.filepath = true)
    (hfiles : catalogFilesDistinct db.storage db.tables)
    (name : Str) (t : Table) (ht : db.tables.lookup name = some t) :
    db.commitTransaction.1.storage.files t.filepath = some t.encode := by
  rw [commit_of_active db hactive]
  have hmem : (⟨name, t⟩ : Sigma fun _ : Str => Table) ∈ db.tables.entries :=
    AList.mem_lookup_iff.mp ht
  have hw : ∀ e ∈ db.tables.entries, db.storage.writable e.2.filepath = true := by
    intro e he
    apply hwrite e.1 e.2
    apply AList.mem_lookup_iff.mpr
    cases e
    exact he
  exact foldl_save_files db.tables.entries db.storage
    (entries_distinct_paths db.storage db.tables hpaths hfiles) hw ⟨name, t⟩ hmem

theorem catalogFilesDistinct_of_paths (fs : Storage) (tables : TableMap)
    (hfs : ∀ p q, fs.sameFile p q = true → p = q) (h : catalogPathsOk tables) :
    catalogFilesDistinct fs tables := by
  intro a b ta tb ha hb hne
  cases hsf : fs.sameFile ta.filepath tb.filepath with
  | false => rfl
  | true =>
    have heq := hfs _ _ hsf
    rw [h _ _ ha, h _ _ hb] at heq
    exact absurd (tablePath_injective heq) hne

/-- C17 as stated fails when two loaded tables are stored in the same file.  After
`CREATE TABLE a (x)`, `CREATE TABLE ./a (y)`, `BEGIN` and `INSERT INTO a VALUES (1)`
the tables `a` and `./a` have the paths `data/a.tbl` and `data/./a.tbl`, which
name one file.  Commit succeeds, both paths then show the same content, and the
encodings of the two tables differ: whatever the order in which commit saves
them, the file of one table does not hold the encoding of that table. -/
theorem commit_aliased_files_counterexample :
    aliasedDatabase.transaction_active = true ∧
    aliasedDatabase.tables.lookup "a".toList =
      some ⟨"a".toList, ["x".toList], [⟨["1".toList]⟩], "data/a.tbl".toList⟩ ∧
    aliasedDatabase.tables.lookup "./a".toList =
      some ⟨"./a".toList, ["y".toList], [], "data/./a.tbl".toList⟩ ∧
    aliasedDatabase.storage.sameFile "data/a.tbl".toList "data/./a.tbl".toList = true ∧
    aliasedDatabase.commitTransaction.2 = .ok () ∧
    aliasedDatabase.commitTransaction.1.storage.files "data/a.tbl".toList =
      aliasedDatabase.commitTransaction.1.storage.files "data/./a.tbl".toList ∧
    (⟨"a".toList, ["x".toList], [⟨["1".toList]⟩], "data/a.tbl".toList⟩ : Table).encode ≠
      (⟨"./a".toList, ["y".toList], [], "data/./a.tbl".toList⟩ : Table).encode ∧
    ¬ (aliasedDatabase.commitTransaction.1.storage.files "data/a.tbl".toList =
        some (⟨"a".toList, ["x".toList], [⟨["1".toList]⟩], "data/a.tbl".toList⟩ :
          Table).encode ∧
      aliasedDatabase.commitTransaction.1.storage.files "data/./a.tbl".toList =
        some (⟨"./a".toList, ["y".toList], [], "data/./a.tbl".toList⟩ : Table).encode) := by
  decide

/-- C17, amended: in the Active state, when every loaded table has the storage
path of its name, no two loaded tables are stored in the same file and every
such path can be written, commit succeeds, ends Idle with an empty snapshot,
leaves the in-memory tables as they are, and leaves for every loaded table a
file whose content is the encoding of that table.  Hence after begin, any
sequence of mutations and commit, when no two tables of the resulting catalog
are stored in the same file, the file of every table in the catalog holds the
encoding of its mutated content. -/
theorem commit_persists (db : Database) (hactive : db.transaction_active = true)
    (hpaths : catalogPathsOk db.tables)
    (hwrite : ∀ (name : Str) (t : Table), db.tables.lookup name = some t →
      db.storage.writable t.filepath = true)
    (hfiles : catalogFilesDistinct db.storage db.tables) :
    (db.commitTransaction.2 = .ok () ∧
      db.commitTransaction.1.transaction_active = false ∧
      db.commitTransaction.1.table_backups = ∅ ∧
      db.commitTransaction.1.tables = db.tables ∧
      ∀ (name : Str) (t : Table), db.tables.lookup name = some t →
        db.commitTransaction.1.storage.files t.filepath = some t.encode) ∧
    (∀ (db0 : Database) (ops : List Mutation), db0.beginTransaction.2 = .ok () →
      catalogPathsOk db0.tables → (∀ path, db0.storage.writable path = true) →
      catalogFilesDistinct db0.storage (db0.beginTransaction.1.mutateAll ops).tables →
      ((db0.beginTransaction.1.mutateAll ops).commitTransaction).2 = .ok () ∧
      ((db0.beginTransaction.1.mutateAll ops).commitTransaction).1.tables =
        (db0.beginTransaction.1.mutateAll ops).tables ∧
      ∀ (name : Str) (t : Table),
        (db0.beginTransaction.1.mutateAll ops).tables.lookup name = some t →
        ((db0.beginTransaction.1.mutateAll ops).commitTransaction).1.storage.files
          (tablePath name) = some t.encode) := by
  constructor
  · refine ⟨?_, ?_, ?_, ?_, commit_files db hactive hpaths hwrite hfiles⟩ <;>
      rw [commit_of_active db hactive]
  · intro db0 ops hbegin hpaths0 hwrite0 hfiles0
    have hidle : db0.transaction_active = false := by
      cases h : db0.transaction_active
      · rfl
      · simp [Database.beginTransaction, h] at hbegin
    have hb : db0.beginTransaction.1 =
        { db0 with
          table_backups := db0.tables.foldl (fun backups name t => backups.insert name t)
            db0.table_backups,
          transaction_active := true } := by
      simp [Database.beginTransaction, hidle]
    obtain ⟨hact, -, -⟩ := mutateAll_in_transaction ops db0.beginTransaction.1 (by rw [hb])
    obtain ⟨hp, hwr⟩ := mutateAll_keeps_paths ops db0.beginTransaction.1 (by rw [hb]; exact hpaths0)
    have hsf : (db0.beginTransaction.1.mutateAll ops).storage.sameFile =
        db0.storage.sameFile := by
      rw [mutateAll_keeps_sameFile ops db0.beginTransaction.1, hb]
    have hwrite2 : ∀ (name : Str) (t : Table),
        (db0.beginTransaction.1.mutateAll ops).tables.lookup name = some t →
        (db0.beginTransaction.1.mutateAll ops).storage.writable t.filepath = true := by
      intro name t _
      rw [hwr, hb]
      exact hwrite0 _
    have hfiles2 : catalogFilesDistinct (db0.beginTransaction.1.mutateAll ops).storage
        (db0.beginTransaction.1.mutateAll ops).tables := by
      intro a b ta tb ha hb2 hne
      rw [hsf]
      exact hfiles0 a b ta tb ha hb2 hne
    refine ⟨?_, ?_, ?_⟩
    · rw [commit_of_active _ hact]
    · rw [commit_of_active _ hact]
    · intro name t ht
      rw [← hp name t ht]
      exact commit_files _ hact hp hwrite2 hfiles2 name t ht

/-- Witness for C17: begin, the scenario mutations and commit on the scenario
catalog; the file of `u`, created inside the transaction, holds its header. -/
theorem commit_persists_witness :
    ((scenarioDatabase.beginTransaction.1.mutateAll scenarioMutations).commitTransaction).2 =
      .ok () ∧
    ((scenarioDatabase.beginTransaction.1.mutateAll scenarioMutations).commitTransaction).1.tables =
      (scenarioDatabase.beginTransaction.1.mutateAll scenarioMutations).tables ∧
    ∀ (name : Str) (t : Table),
      (scenarioDatabase.beginTransaction.1.mutateAll scenarioMutations).tables.lookup name =
        some t →
      ((scenarioDatabase.beginTransaction.1.mutateAll
        scenarioMutations).commitTransaction).1.storage.files (tablePath name) =
          some t.encode :=
  have hp : catalogPathsOk scenarioDatabase.tables := by
    intro name t h
    by_cases hn : name = "t".toList
    · subst hn
      cases h
      rfl
    · have h2 : List.dlookup name [(⟨"t".toList, scenarioTable⟩ :
          Sigma fun _ : Str => Table)] = some t := h
      rw [List.dlookup_cons_ne _ _ hn] at h2
      cases h2
  (commit_persists activeDatabase rfl (by intro name t h; cases h) (by intro name t h; cases h)
    (by intro a b ta tb h; cases h)).2
    scenarioDatabase scenarioMutations rfl hp (fun _ => rfl)
    (catalogFilesDistinct_of_paths scenarioDatabase.storage _
      (fun _ _ h => of_decide_eq_true h)
      (mutateAll_keeps_paths scenarioMutations scenarioDatabase.beginTransaction.1 hp).1)

/-! ## The transaction state machine and table creation -/

/-- C18: the transaction manager is a two-state machine without nesting.  In
Idle, begin succeeds and moves to Active, while commit and rollback fail with
`NoActiveTransaction` and change nothing; in Active, begin fails with
`AlreadyActive` and changes nothing (catalog, snapshot, storage, state), while
commit and rollback succeed and move to Idle. -/
theorem transaction_state_machine (db : Database) :
    (db.transaction_active = false →
      db.beginTransaction.2 = .ok () ∧ db.beginTransaction.1.transaction_active = true ∧
      db.beginTransaction.1.tables = db.tables ∧
      db.commitTransaction = (db, .error .NoActiveTransaction) ∧
      db.rollbackTransaction = (db, .error .NoActiveTransaction)) ∧
    (db.transaction_active = true →
      db.beginTransaction = (db, .error .AlreadyActive) ∧
      db.commitTransaction.2 = .ok () ∧ db.commitTransaction.1.transaction_active = false ∧
      db.rollbackTransaction.2 = .ok () ∧
      db.rollbackTransaction.1.transaction_active = false) := by
  constructor
  · intro h
    simp [Database.beginTransaction, Database.commitTransaction, Database.rollbackTransaction, h]
  · intro h
    simp [Database.beginTransaction, Database.commitTransaction, Database.rollbackTransaction, h]

/-- Witness for C18: a second begin inside a transaction fails and changes nothing. -/
theorem transaction_state_machine_witness :
    activeDatabase.beginTransaction = (activeDatabase, .error .AlreadyActive) ∧
    activeDatabase.commitTransaction.2 = .ok () ∧
    activeDatabase.commitTransaction.1.transaction_active = false ∧
    activeDatabase.rollbackTransaction.2 = .ok () ∧
    activeDatabase.rollbackTransaction.1.transaction_active = false :=
  (transaction_state_machine activeDatabase).2 rfl

theorem rollback_of_active (db : Database) (hactive : db.transaction_active = true) :
    db.rollbackTransaction =
      ({ db with
          tables := db.table_backups.foldl
            (fun tables name backup =>
              if (tables.lookup name).isSome then tables.insert name backup else tables)
            db.tables,
          table_backups := ∅,
          transaction_active := false }, .ok ()) := by
  simp [Database.rollbackTransaction, hactive]

theorem createTable_new (db : Database) (name : Str) (columns : List Str)
    (h : db.tables.lookup name = none) :
    (db.createTable name columns).1.tables =
      db.tables.insert name ⟨name, columns, [], tablePath name⟩ ∧
    (db.createTable name columns).1.table_backups = db.table_backups ∧
    (db.createTable name columns).1.transaction_active = db.transaction_active ∧
    (db.createTable name columns).2 = .ok () := by
  simp [Database.createTable, h, Table.create, tablePath]

/-- C19: rollback leaves a table that is absent from the snapshot as it is.  In
an Active catalog, a table whose name has no backup is, after rollback, in the
catalog with the state it had right before; in particular a table created after
begin under a new name is still there after any further mutations and the
rollback, with exactly the state it had immediately before the rollback. -/
theorem created_table_survives_rollback (db : Database) (name : Str) (t : Table)
    (hactive : db.transaction_active = true)
    (hsnapshot : db.table_backups.lookup name = none)
    (ht : db.tables.lookup name = some t) :
    (db.rollbackTransaction.2 = .ok () ∧
      ∃ t2, db.rollbackTransaction.1.tables.lookup name = some t2 ∧
        t2.columns = t.columns ∧ t2.records = t.records ∧ t2 = t) ∧
    (∀ (db0 : Database) (created : Str) (columns : List Str) (ops : List Mutation),
      db0.beginTransaction.2 = .ok () → db0.tables.lookup created = none →
      db0.table_backups.lookup created = none →
      ∃ t1, (((db0.beginTransaction.1.createTable created columns).1.mutateAll
          ops).tables.lookup created = some t1) ∧
        (((db0.beginTransaction.1.createTable created columns).1.mutateAll
          ops).rollbackTransaction).1.tables.lookup created = some t1) := by
  have hkeep : ∀ (d : Database) (k : Str) (x : Table), d.transaction_active = true →
      d.table_backups.lookup k = none → d.tables.lookup k = some x →
      d.rollbackTransaction.1.tables.lookup k = some x := by
    intro d k x hd hk hx
    rw [rollback_of_active d hd]
    have hnot : k ∉ d.table_backups.entries.keys := by
      have := AList.lookup_eq_none.mp hk
      exact fun hm => this (AList.mem_keys.mpr hm)
    exact (foldl_restore_lookup_of_not_mem d.table_backups.entries d.tables k hnot).trans hx
  constructor
  · refine ⟨by rw [rollback_of_active db hactive], t, hkeep db name t hactive hsnapshot ht,
      rfl, rfl, rfl⟩
  · intro db0 created columns ops hbegin hnew hstale
    have hidle : db0.transaction_active = false := by
      cases h : db0.transaction_active
      · rfl
      · simp [Database.beginTransaction, h] at hbegin
    have hb : db0.beginTransaction.1 =
        { db0 with
          table_backups := db0.tables.foldl (fun backups name t => backups.insert name t)
            db0.table_backups,
          transaction_active := true } := by
      simp [Database.beginTransaction, hidle]
    have hb_tables : db0.beginTransaction.1.tables.lookup created = none := by
      rw [hb]
      exact hnew
    have hb_backups : db0.beginTransaction.1.table_backups.lookup created = none := by
      rw [hb]
      have hnot : created ∉ db0.tables.entries.keys := by
        have := AList.lookup_eq_none.mp hnew
        exact fun hm => this (AList.mem_keys.mpr hm)
      exact (foldl_backup_lookup_of_not_mem db0.tables.entries db0.table_backups created
        hnot).trans hstale
    obtain ⟨hc1, hc2, hc3, -⟩ := createTable_new db0.beginTransaction.1 created columns
      hb_tables
    have hact1 : (db0.beginTransaction.1.createTable created columns).1.transaction_active =
        true := by
      rw [hc3, hb]
    have hthere : ((db0.beginTransaction.1.createTable created columns).1.tables.lookup
        created).isSome = true := by
      rw [hc1, AList.lookup_insert]
      rfl
    obtain ⟨g1, g2, g3⟩ := mutateAll_in_transaction ops
      (db0.beginTransaction.1.createTable created columns).1 hact1
    have hsome := g3 created hthere
    obtain ⟨t1, ht1⟩ := Option.isSome_iff_exists.mp hsome
    refine ⟨t1, ht1, hkeep _ created t1 g1 ?_ ht1⟩
    rw [g2, hc2]
    exact hb_backups

/-- Witness for C19: `u` is created inside a transaction on a catalog without
tables; the rollback succeeds and `u` is still there, unchanged. -/
theorem created_table_survives_rollback_witness :
    (activeDatabase.createTable "u".toList ["c".toList]).1.rollbackTransaction.2 = .ok () ∧
    ∃ t2, (activeDatabase.createTable "u".toList
        ["c".toList]).1.rollbackTransaction.1.tables.lookup "u".toList = some t2 ∧
      t2.columns = ["c".toList] ∧ t2.records = [] ∧
      t2 = ⟨"u".toList, ["c".toList], [], "data/u.tbl".toList⟩ :=
  (created_table_survives_rollback (activeDatabase.createTable "u".toList ["c".toList]).1
    "u".toList ⟨"u".toList, ["c".toList], [], "data/u.tbl".toList⟩ rfl (by decide)
    (by decide)).1

/-- C20 as stated fails when the storage file cannot be opened for writing:
outside a transaction, on a catalog without tables over a file system in which
no path is writable, `CREATE TABLE u (c)` succeeds and registers `u`, but no file
`data/u.tbl` exists afterwards. -/
theorem create_unwritable_counterexample :
    readOnlyDatabase.transaction_active = false ∧
    readOnlyDatabase.tables.lookup "u".toList = none ∧
    (readOnlyDatabase.createTable "u".toList ["c".toList]).2 = .ok () ∧
    (readOnlyDatabase.createTable "u".toList ["c".toList]).1.tables.lookup "u".toList =
      some ⟨"u".toList, ["c".toList], [], "data/u.tbl".toList⟩ ∧
    (readOnlyDatabase.createTable "u".toList ["c".toList]).1.storage.files
      "data/u.tbl".toList = none := by
  decide

/-- C20, amended: outside a transaction, create with a name already in the
catalog fails with `AlreadyExists` and leaves catalog and storage unchanged;
otherwise it succeeds, the catalog gains a table of that name with the given
columns and no records, every other table is unchanged, and, when the storage
file of the new table can be opened for writing, that file is exactly the
header line: the comma-joined column names and a newline. -/
theorem createTable_spec (db : Database) (name : Str) (columns : List Str)
    (hidle : db.transaction_active = false) :
    ((db.tables.lookup name).isSome = true →
      db.createTable name columns = (db, .error (.AlreadyExists name))) ∧
    (db.tables.lookup name = none →
      (db.createTable name columns).2 = .ok () ∧
      (∃ t, (db.createTable name columns).1.tables.lookup name = some t ∧
        t.name = name ∧ t.columns = columns ∧ t.records = [] ∧
        t.filepath = tablePath name) ∧
      (∀ k, k ≠ name →
        (db.createTable name columns).1.tables.lookup k = db.tables.lookup k) ∧
      (db.createTable name columns).1.transaction_active = false ∧
      (db.createTable name columns).1.table_backups = db.table_backups ∧
      (db.storage.writable (tablePath name) = true →
        (db.createTable name columns).1.storage.files (tablePath name) =
          some (joinComma columns ++ [NEWLINE]))) := by
  constructor
  · intro h
    simp [Database.createTable, h]
  · intro hnew
    obtain ⟨h1, h2, h3, h4⟩ := createTable_new db name columns hnew
    have hstorage : (db.createTable name columns).1.storage =
        Table.save ⟨name, columns, [], tablePath name⟩
          (Table.save ⟨name, columns, [], tablePath name⟩ db.storage) := by
      simp [Database.createTable, hnew, hidle, Table.create, tablePath]
    refine ⟨h4, ⟨_, by rw [h1, AList.lookup_insert], rfl, rfl, rfl, rfl⟩, ?_, ?_, h2, ?_⟩
    · intro k hk
      rw [h1, AList.lookup_insert_ne hk]
    · rw [h3, hidle]
    · intro hw
      rw [hstorage]
      have hw2 : (Table.save ⟨name, columns, [], tablePath name⟩ db.storage).writable
          (tablePath name) = true := by
        rw [save_writable]
        exact hw
      have hself := save_files_self ⟨name, columns, [], tablePath name⟩
        (Table.save ⟨name, columns, [], tablePath name⟩ db.storage) hw2
      rw [hself]
      simp [Table.encode]

/-- Witness for C20 (amended): `CREATE TABLE u (c, d)` on the scenario catalog. -/
theorem createTable_spec_witness :
    (scenarioDatabase.createTable "u".toList ["c".toList, "d".toList]).1.storage.files
        (tablePath "u".toList) =
      some (joinComma ["c".toList, "d".toList] ++ [NEWLINE]) :=
  ((createTable_spec scenarioDatabase "u".toList ["c".toList, "d".toList] rfl).2
    (by decide)).2.2.2.2.2 rfl

/-! ## Invariants of the data model -/

theorem updateLoop_field_count (columns : List Str) (set_idx : Nat)
    (set_value where_column where_value : Str) (k : Nat) (l done : List Record) (n : Nat)
    (hdone : ∀ r ∈ done, r.fields.length = k) (hl : ∀ r ∈ l, r.fields.length = k) :
    ∀ r ∈ (updateLoop columns set_idx set_value where_column where_value l done n).1,
      r.fields.length = k := by
  induction l generalizing done n with
  | nil => simpa [updateLoop] using hdone
  | cons record rest ih =>
    have hrec : record.fields.length = k := hl record (List.mem_cons_self _ _)
    have hrest : ∀ r ∈ rest, r.fields.length = k :=
      fun r hr => hl r (List.mem_cons_of_mem _ hr)
    unfold updateLoop
    cases hm : whereMatch columns where_column where_value record with
    | error e =>
      intro r hr
      rcases List.mem_append.mp hr with h | h
      · exact hdone r h
      · exact hl r h
    | ok b =>
      cases b
      · apply ih
        · intro r hr
          rcases List.mem_append.mp hr with h | h
          · exact hdone r h
          · rw [List.mem_singleton.mp h]
            exact hrec
        · exact hrest
      · apply ih
        · intro r hr
          rcases List.mem_append.mp hr with h | h
          · exact hdone r h
          · rw [List.mem_singleton.mp h]
            simpa using hrec
        · exact hrest

theorem update_columns (t : Table) (set_column set_value where_column where_value : Str) :
    (t.update set_column set_value where_column where_value).1.columns = t.columns := by
  unfold Table.update
  split <;> rfl

/-- C21: the field-count invariant (every record has exactly as many fields as
the table has columns) holds for a newly created table and is kept by every
`insert`, `update` and `deleteRecords`, whether the call succeeds or fails. -/
theorem field_count_invariant (t : Table) (name : Str) (columns : List Str) (fs : Storage)
    (fields : List Str) (set_column set_value where_column where_value : Str) :
    (Table.create name columns fs).1.fieldCountOk ∧
    (t.fieldCountOk →
      (t.insert fields).1.fieldCountOk ∧
      (t.update set_column set_value where_column where_value).1.fieldCountOk ∧
      (t.deleteRecords where_column where_value).1.fieldCountOk) := by
  constructor
  · intro r hr
    simp [Table.create] at hr
  · intro hinv
    refine ⟨?_, ?_, ?_⟩
    · unfold Table.insert
      by_cases h : fields.length = t.columns.length
      · simp only [ne_eq, h, not_true_eq_false, if_false]
        intro r hr
        rcases List.mem_append.mp hr with h2 | h2
        · exact hinv r h2
        · rw [List.mem_singleton.mp h2]
          exact h
      · simp only [ne_eq, h, not_false_eq_true, if_true]
        exact hinv
    · intro r hr
      rw [update_columns]
      unfold Table.update at hr
      cases hf : findColumn t.columns set_column with
      | none =>
        simp only [hf] at hr
        exact hinv r hr
      | some set_idx =>
        simp only [hf] at hr
        exact updateLoop_field_count t.columns set_idx set_value where_column where_value
          t.columns.length t.records [] 0 (by simp) hinv r hr
    · unfold Table.deleteRecords
      split
      · exact hinv
      · intro r hr
        exact hinv r (List.mem_of_mem_filter hr)

/-- Witness for C21: an update of the scenario table keeps the invariant. -/
theorem field_count_invariant_witness :
    (scenarioTable.insert ["3".toList, "w".toList]).1.fieldCountOk ∧
    (scenarioTable.update "b".toList "q".toList "a".toList "1".toList).1.fieldCountOk ∧
    (scenarioTable.deleteRecords "a".toList "1".toList).1.fieldCountOk :=
  (field_count_invariant scenarioTable "t".toList ["a".toList, "b".toList] emptyStorage
    ["3".toList, "w".toList] "b".toList "q".toList "a".toList "1".toList).2 (by decide)

/-- C22 as stated fails: `CREATE TABLE u (a, a)` on the scenario catalog adds a
table whose two column names are equal. -/
theorem duplicate_columns_counterexample :
    scenarioDatabase.tables.lookup "u".toList = none ∧
    (scenarioDatabase.createTable "u".toList ["a".toList, "a".toList]).2 = .ok () ∧
    (scenarioDatabase.createTable "u".toList ["a".toList, "a".toList]).1.tables.lookup
      "u".toList = some ⟨"u".toList, ["a".toList, "a".toList], [], "data/u.tbl".toList⟩ ∧
    ¬ (["a".toList, "a".toList] : List Str).Nodup := by
  decide

/-- C22, amended: a table that create adds to the catalog has exactly the column
list passed to create, so its column names are pairwise distinct if and only if
the names passed are; create does not reject a list with repeated names. -/
theorem createTable_columns (db : Database) (name : Str) (columns : List Str)
    (hnew : db.tables.lookup name = none) :
    (db.createTable name columns).2 = .ok () ∧
    ∃ t, (db.createTable name columns).1.tables.lookup name = some t ∧
      t.columns = columns ∧ (t.columns.Nodup ↔ columns.Nodup) := by
  obtain ⟨h1, -, -, h4⟩ := createTable_new db name columns hnew
  refine ⟨h4, ⟨name, columns, [], tablePath name⟩, ?_, rfl, Iff.rfl⟩
  rw [h1, AList.lookup_insert]

/-- Witness for C22 (amended): `CREATE TABLE u (c, d)` on the scenario catalog. -/
theorem createTable_columns_witness :
    (scenarioDatabase.createTable "u".toList ["c".toList, "d".toList]).2 = .ok () ∧
    ∃ t, (scenarioDatabase.createTable "u".toList ["c".toList, "d".toList]).1.tables.lookup
        "u".toList = some t ∧
      t.columns = ["c".toList, "d".toList] ∧
      (t.columns.Nodup ↔ (["c".toList, "d".toList] : List Str).Nodup) :=
  createTable_columns scenarioDatabase "u".toList ["c".toList, "d".toList] (by decide)

/-! ## Further properties of the query engine -/

/-- C25: with a non-empty GROUP BY list the result of `Table::select`, output or
error, does not depend on the ORDER BY list passed, nor on the sort routine. -/
theorem order_by_ignored_with_group_by
    (sort1 sort2 : (Record → Record → Bool) → List Record → List Record)
    (t : Table) (select_columns : List Str) (aggregates : List (Str × Str))
    (where_column where_value : Str) (order_by1 order_by2 : List (Str × Str))
    (group_by : List Str) (hgb : group_by ≠ []) :
    t.select sort1 select_columns aggregates where_column where_value order_by1 group_by =
      t.select sort2 select_columns aggregates where_column where_value order_by2 group_by ∧
    t.select sort1 select_columns aggregates where_column where_value order_by1 group_by =
      t.select sort1 select_columns aggregates where_column where_value [] group_by := by
  constructor <;> simp [Table.select, hgb]

/-- Witness for C25: `GROUP BY a` on the scenario table with and without
`ORDER BY nosuch DESC`. -/
theorem order_by_ignored_with_group_by_witness :
    scenarioTable.select insertionSortBy [] [("COUNT".toList, "*".toList)] [] []
        [("nosuch".toList, "DESC".toList)] ["a".toList] =
      scenarioTable.select insertionSortBy [] [("COUNT".toList, "*".toList)] [] [] []
        ["a".toList] :=
  (order_by_ignored_with_group_by insertionSortBy insertionSortBy scenarioTable []
    [("COUNT".toList, "*".toList)] [] [] [("nosuch".toList, "DESC".toList)] []
    ["a".toList] (by decide)).1

/-- C29: for sort keys whose directions are all `ASC` or `DESC`, the comparator
given to the sort is a strict weak ordering on all records (in particular on
those satisfying the field-count invariant): it is irreflexive, asymmetric and
transitive, two records are incomparable exactly when they are equal on all sort
keys, and incomparability is transitive. -/
theorem order_comparator_strict_weak (keys : List (Nat × Str))
    (hdirs : ∀ key ∈ keys, key.2 = "ASC".toList ∨ key.2 = "DESC".toList) :
    (∀ a, orderLess keys a a = false) ∧
    (∀ a b, orderLess keys a b = true → orderLess keys b a = false) ∧
    (∀ a b c, orderLess keys a b = true → orderLess keys b c = true →
      orderLess keys a c = true) ∧
    (∀ a b, (orderLess keys a b = false ∧ orderLess keys b a = false) ↔
      ∀ key ∈ keys, a.fieldAt key.1 = b.fieldAt key.1) ∧
    (∀ a b c, orderLess keys a b = false → orderLess keys b a = false →
      orderLess keys b c = false → orderLess keys c b = false →
      orderLess keys a c = false ∧ orderLess keys c a = false) ∧
    StrictWeakOrder (orderLess keys) := by
  have hswo := orderLess_strictWeakOrder keys hdirs
  refine ⟨orderLess_irrefl keys, ?_, fun a b c => orderLess_trans keys,
    orderLess_incomparable_iff keys hdirs, hswo.2.2, hswo⟩
  intro a b hab
  rcases swo_asymm hswo a b with h | h
  · exact h
  · rw [hab] at h
    cases h

/-- Witness for C29: the single key `b DESC` of the specification's scenario. -/
theorem order_comparator_strict_weak_witness :
    StrictWeakOrder (orderLess [(1, "DESC".toList)]) :=
  (order_comparator_strict_weak [(1, "DESC".toList)] (by decide)).2.2.2.2.2

/-- C28: for a table with at least one column that satisfies the field-count
invariant, whose column names hold no comma, quote or newline and whose fields
hold no quote or newline, decoding the text that `save` writes gives back the
same columns and the same records in the same order, as text and through any
file system in which the file can be written; fields with commas and empty
fields are covered. -/
theorem roundtrip_well_formed (t : Table) (hcols : t.columns ≠ []) (hinv : t.fieldCountOk)
    (hnames : ∀ c ∈ t.columns, COMMA ∉ c ∧ QUOTE ∉ c ∧ NEWLINE ∉ c)
    (hfields : ∀ r ∈ t.records, ∀ f ∈ r.fields, QUOTE ∉ f ∧ NEWLINE ∉ f) :
    ((loadLines (getlines NEWLINE t.encode) true ⟨t.name, [], [], t.filepath⟩).columns =
        t.columns ∧
      (loadLines (getlines NEWLINE t.encode) true ⟨t.name, [], [], t.filepath⟩).records =
        t.records) ∧
    (∀ fs : Storage, fs.writable t.filepath = true →
      (Table.load ⟨t.name, [], [], t.filepath⟩ (t.save fs)).columns = t.columns ∧
      (Table.load ⟨t.name, [], [], t.filepath⟩ (t.save fs)).records = t.records) := by
  have hrecs : ∀ r ∈ t.records, r.fields ≠ [] := by
    intro r hr hnil
    have hlen := hinv r hr
    rw [hnil] at hlen
    exact hcols (List.length_eq_zero.mp hlen.symm)
  constructor
  · have h := load_save_roundtrip t emptyStorage rfl hcols hnames hrecs hfields
    have htext : Table.load ⟨t.name, [], [], t.filepath⟩ (t.save emptyStorage) =
        loadLines (getlines NEWLINE t.encode) true ⟨t.name, [], [], t.filepath⟩ := by
      simp [Table.load, Table.save, emptyStorage]
    rw [← htext, h]
    exact ⟨rfl, rfl⟩
  · intro fs hw
    rw [load_save_roundtrip t fs hw hcols hnames hrecs hfields]
    exact ⟨rfl, rfl⟩

/-- Witness for C28: the table whose record holds a comma inside a field and an
empty field. -/
theorem roundtrip_well_formed_witness :
    (loadLines (getlines NEWLINE commaFieldTable.encode) true
      ⟨commaFieldTable.name, [], [], commaFieldTable.filepath⟩).columns =
        commaFieldTable.columns ∧
    (loadLines (getlines NEWLINE commaFieldTable.encode) true
      ⟨commaFieldTable.name, [], [], commaFieldTable.filepath⟩).records =
        commaFieldTable.records :=
  (roundtrip_well_formed commaFieldTable (by decide) (by decide) (by decide) (by decide)).1

/-! ## Group keys -/

theorem groupKey_eq_flatten (group_indices : List Nat) (r : Record) :
    groupKey group_indices r =
      (group_indices.map (fun idx => r.fieldAt idx ++ [UNDERSCORE])).flatten := by
  have hgen : ∀ (l : List Nat) (acc : Str),
      l.foldl (fun key idx => key ++ (r.fieldAt idx ++ [UNDERSCORE])) acc =
        acc ++ (l.map (fun idx => r.fieldAt idx ++ [UNDERSCORE])).flatten := by
    intro l
    induction l with
    | nil => simp
    | cons idx rest ih =>
      intro acc
      rw [List.foldl_cons, ih]
      simp
  simpa [groupKey] using hgen group_indices []

theorem getlines_groupKey (group_indices : List Nat) (r : Record)
    (h : ∀ idx ∈ group_indices, UNDERSCORE ∉ r.fieldAt idx) :
    getlines UNDERSCORE (groupKey group_indices r) = group_indices.map r.fieldAt := by
  have hmap : group_indices.map (fun idx => r.fieldAt idx ++ [UNDERSCORE]) =
      (group_indices.map r.fieldAt).map (fun l => l ++ [UNDERSCORE]) := by
    rw [List.map_map]
    rfl
  rw [groupKey_eq_flatten, hmap]
  apply getlines_terminated
  intro l hl
  obtain ⟨idx, hidx, rfl⟩ := List.mem_map.mp hl
  exact h idx hidx

theorem groupKey_eq_iff (group_indices : List Nat) (a b : Record)
    (ha : ∀ idx ∈ group_indices, UNDERSCORE ∉ a.fieldAt idx)
    (hb : ∀ idx ∈ group_indices, UNDERSCORE ∉ b.fieldAt idx) :
    groupKey group_indices a = groupKey group_indices b ↔
      ∀ idx ∈ group_indices, a.fieldAt idx = b.fieldAt idx := by
  constructor
  · intro h
    have h2 : group_indices.map a.fieldAt = group_indices.map b.fieldAt := by
      rw [← getlines_groupKey group_indices a ha, ← getlines_groupKey group_indices b hb, h]
    exact List.map_inj_left.mp h2
  · intro h
    rw [groupKey_eq_flatten, groupKey_eq_flatten]
    congr 1
    apply List.map_congr_left
    intro idx hidx
    rw [h idx hidx]

/-- C30: for two records whose GROUP BY column values hold no underscore, the
concatenated group keys are equal if and only if the records agree on every
GROUP BY column; hence, among the filtered records, two such records are put
into the same partition by the grouping loop exactly when they agree on every
GROUP BY column. -/
theorem group_key_injective (group_indices : List Nat) (a b : Record)
    (ha : ∀ idx ∈ group_indices, UNDERSCORE ∉ a.fieldAt idx)
    (hb : ∀ idx ∈ group_indices, UNDERSCORE ∉ b.fieldAt idx) :
    (groupKey group_indices a = groupKey group_indices b ↔
      ∀ idx ∈ group_indices, a.fieldAt idx = b.fieldAt idx) ∧
    (∀ (columns : List Str) (where_column where_value : Str) (records : List Record),
      ((where_column = [] ∨ where_column ∈ columns) →
        ∃ grouped, groupLoop columns where_column where_value group_indices records [] =
          .ok grouped) ∧
      ∀ grouped : List (Str × List Record),
        groupLoop columns where_column where_value group_indices records [] = .ok grouped →
        a ∈ records.filter (specWhere columns where_column where_value) →
        b ∈ records.filter (specWhere columns where_column where_value) →
        ((∃ g ∈ grouped, a ∈ g.2 ∧ b ∈ g.2) ↔
          ∀ idx ∈ group_indices, a.fieldAt idx = b.fieldAt idx)) := by
  have hiff := groupKey_eq_iff group_indices a b ha hb
  refine ⟨hiff, ?_⟩
  intro columns where_column where_value records
  constructor
  · intro hwhere
    obtain ⟨ks2, -, -, h⟩ := groupLoop_of_known where_value group_indices hwhere records [] []
      List.Pairwise.nil (by simp)
    exact ⟨_, h⟩
  intro grouped hloop hamem hbmem
  obtain ⟨ks, -, hks, rfl⟩ := groupLoop_ok_inv group_indices records grouped hloop
  rw [← hiff]
  constructor
  · rintro ⟨g, hg, hag, hbg⟩
    obtain ⟨k, -, rfl⟩ := List.mem_map.mp hg
    have h1 := (List.mem_filter.mp hag).2
    have h2 := (List.mem_filter.mp hbg).2
    rw [of_decide_eq_true h1, of_decide_eq_true h2]
  · intro hkey
    refine ⟨_, List.mem_map.mpr ⟨groupKey group_indices a,
      (hks _).mpr ⟨a, hamem, rfl⟩, rfl⟩, ?_, ?_⟩
    · exact List.mem_filter.mpr ⟨hamem, decide_eq_true rfl⟩
    · exact List.mem_filter.mpr ⟨hbmem, decide_eq_true hkey.symm⟩

/-- Witness for C30: the records `(1, x)` and `(1, z)` of the scenario table
have the same key under `GROUP BY a`. -/
theorem group_key_injective_witness :
    groupKey [0] ⟨["1".toList, "x".toList]⟩ = groupKey [0] ⟨["1".toList, "z".toList]⟩ ↔
      ∀ idx ∈ [0], (⟨["1".toList, "x".toList]⟩ : Record).fieldAt idx =
        (⟨["1".toList, "z".toList]⟩ : Record).fieldAt idx :=
  (group_key_injective [0] ⟨["1".toList, "x".toList]⟩ ⟨["1".toList, "z".toList]⟩
    (by decide) (by decide)).1

theorem printKeyPieces_eq_take (group_by_size : Nat) (pieces : List Str) (idx : Nat) :
    printKeyPieces group_by_size pieces idx = pieces.take (group_by_size - idx) := by
  induction pieces generalizing idx with
  | nil => simp [printKeyPieces]
  | cons value rest ih =>
    unfold printKeyPieces
    by_cases h : idx < group_by_size
    · rw [if_pos h, ih]
      have hsub : group_by_size - idx = (group_by_size - (idx + 1)) + 1 := by omega
      rw [hsub, List.take_succ_cons]
    · rw [if_neg h, ih]
      have h1 : group_by_size - (idx + 1) = 0 := by omega
      have h2 : group_by_size - idx = 0 := by omega
      rw [h1, h2]
      simp

/-- C23 as stated fails: on a table `t(a)` holding the record `(x_y)`, `GROUP BY a`
prints the value `x` for the group, not the field `x_y` of its record; the key
`x_y_` is split again at every underscore. -/
theorem grouped_values_counterexample :
    underscoreTable.records = [⟨["x_y".toList]⟩] ∧
    underscoreTable.select insertionSortBy [] [("COUNT".toList, "*".toList)] [] [] []
        ["a".toList] =
      .ok ⟨["a".toList, "COUNT(*)".toList], [⟨["x".toList], [some 1]⟩], []⟩ := by
  decide

/-- C23, amended: with a non-empty GROUP BY list the select succeeds when the
referenced columns exist and every aggregate is a COUNT, and whenever it prints,
the rows correspond one to one to the distinct group keys, and the row of a key
shows the pieces of that key (the GROUP BY values of a record, each followed by
an underscore) split at every underscore, cut to the number of GROUP BY
columns, followed by one value per requested aggregate.  When no
GROUP BY column value of a record of the partition holds an underscore, these
pieces are, position by position, the values that every record of the partition
holds in the GROUP BY columns, one per GROUP BY column. -/
theorem grouped_row_values (sort : (Record → Record → Bool) → List Record → List Record)
    (t : Table) (select_columns : List Str) (aggregates : List (Str × Str))
    (where_column where_value : Str) (order_by : List (Str × Str)) (group_by : List Str)
    (hgb : group_by ≠ []) :
    ((∀ c ∈ select_columns, c ∈ t.columns) → (where_column = [] ∨ where_column ∈ t.columns) →
      (∀ g ∈ group_by, g ∈ t.columns) →
      (∀ agg ∈ aggregates, agg.1.map Char.toUpper = "COUNT".toList ∧
        (agg.2 = "*".toList ∨ agg.2 ∈ t.columns)) →
      ∃ out, t.select sort select_columns aggregates where_column where_value order_by
        group_by = .ok out) ∧
    (∀ out, t.select sort select_columns aggregates where_column where_value order_by
        group_by = .ok out →
      ∃ keys : List Str, keys.Nodup ∧
        (∀ k, k ∈ keys ↔
          ∃ r ∈ t.records.filter (specWhere t.columns where_column where_value),
            groupKey (group_by.map (columnIndex t.columns)) r = k) ∧
        out.rows.length = keys.length ∧
        ∀ (i : Nat) (k : Str) (row : Row), keys[i]? = some k → out.rows[i]? = some row →
          row.values = (getlines UNDERSCORE k).take group_by.length ∧
          row.aggs.length = aggregates.length ∧
          (∀ cell ∈ row.aggs, cell ≠ none) ∧
          ((∀ r ∈ t.records.filter (specWhere t.columns where_column where_value),
              groupKey (group_by.map (columnIndex t.columns)) r = k →
              ∀ g ∈ group_by, UNDERSCORE ∉ r.fieldAt (columnIndex t.columns g)) →
            (∀ r ∈ t.records.filter (specWhere t.columns where_column where_value),
              groupKey (group_by.map (columnIndex t.columns)) r = k →
              row.values = group_by.map (fun g => r.fieldAt (columnIndex t.columns g))) ∧
            row.values.length = group_by.length)) ∧
    (∀ r : Record, groupKey (group_by.map (columnIndex t.columns)) r =
      (group_by.map (fun g => r.fieldAt (columnIndex t.columns g) ++ [UNDERSCORE])).flatten) := by
  refine ⟨fun hproj hwhere hgroup haggs => select_grouped_of_known sort t select_columns
    aggregates where_column where_value order_by group_by hgb hproj hwhere hgroup haggs, ?_,
    fun r => by rw [groupKey_eq_flatten, List.map_map]; rfl⟩
  intro out hout
  obtain ⟨ks, h1, h2, h3⟩ := select_grouped_inv sort t select_columns aggregates where_column
    where_value order_by group_by hgb out hout
  have hnodup : ks.Nodup := by
    apply h1.imp
    intro a b hab e
    rw [e, strLt_irrefl] at hab
    cases hab
  refine ⟨ks, hnodup, h2, by simp [h3], ?_⟩
  intro i k row hk hrow
  rw [h3, List.getElem?_map, hk] at hrow
  simp only [Option.map_some', Option.some.injEq] at hrow
  subst hrow
  have hpieces : (groupRow group_by.length (aggregates.map (aggCode t.columns))
      (k, (t.records.filter (specWhere t.columns where_column where_value)).filter
        (fun r => decide (groupKey (group_by.map (columnIndex t.columns)) r = k)))).values =
      (getlines UNDERSCORE k).take group_by.length := by
    simp only [groupRow]
    rw [printKeyPieces_eq_take, Nat.sub_zero]
  refine ⟨hpieces, by simp [groupRow], ?_, ?_⟩
  · intro cell hcell
    simp only [groupRow, List.map_map, List.mem_map, Function.comp] at hcell
    obtain ⟨agg, -, rfl⟩ := hcell
    rw [groupAggCell_aggCode]
    simp
  · intro hclean
    have hvalues : ∀ r ∈ t.records.filter (specWhere t.columns where_column where_value),
        groupKey (group_by.map (columnIndex t.columns)) r = k →
        (groupRow group_by.length (aggregates.map (aggCode t.columns))
          (k, (t.records.filter (specWhere t.columns where_column where_value)).filter
            (fun r => decide (groupKey (group_by.map (columnIndex t.columns)) r = k)))).values =
          group_by.map (fun g => r.fieldAt (columnIndex t.columns g)) := by
      intro r hr hkey
      have hr_clean : ∀ idx ∈ group_by.map (columnIndex t.columns),
          UNDERSCORE ∉ r.fieldAt idx := by
        intro idx hidx
        obtain ⟨g, hg, rfl⟩ := List.mem_map.mp hidx
        exact hclean r hr hkey g hg
      rw [hpieces, ← hkey, getlines_groupKey _ r hr_clean, List.map_map]
      apply List.take_of_length_le
      simp
    refine ⟨hvalues, ?_⟩
    obtain ⟨r, hr, hkey⟩ := (h2 k).mp (List.getElem?_mem hk)
    rw [hvalues r hr hkey]
    simp

/-- Witness for C23 (amended): `GROUP BY a` with `COUNT(*)` on the scenario
table; the first row shows the value `1` of the records of its partition. -/
theorem grouped_row_values_witness :
    ∃ k : Str, (["1".toList] : List Str) = (getlines UNDERSCORE k).take 1 ∧
      ∀ r ∈ scenarioTable.records.filter (specWhere scenarioTable.columns [] []),
        groupKey (["a".toList].map (columnIndex scenarioTable.columns)) r = k →
        (["1".toList] : List Str) =
          ["a".toList].map (fun g => r.fieldAt (columnIndex scenarioTable.columns g)) := by
  obtain ⟨keys, -, -, h3, h4⟩ := (grouped_row_values insertionSortBy scenarioTable []
    [("COUNT".toList, "*".toList)] [] [] [] ["a".toList] (by decide)).2.1
    ⟨["a".toList, "COUNT(*)".toList], [⟨["1".toList], [some 2]⟩, ⟨["2".toList], [some 1]⟩], []⟩
    (by decide)
  cases keys with
  | nil => cases h3
  | cons k rest =>
    obtain ⟨h5, -, -, h6⟩ := h4 0 k ⟨["1".toList], [some 2]⟩ (by simp) (by simp)
    exact ⟨k, h5, (h6 (fun r hr _ g hg =>
      (by decide : ∀ r ∈ scenarioTable.records.filter (specWhere scenarioTable.columns [] []),
        ∀ g ∈ ["a".toList], UNDERSCORE ∉ r.fieldAt (columnIndex scenarioTable.columns g))
        r hr g hg)).1⟩

/-! ## Decoding of the storage format -/

theorem parseLine_no_quote (line : Str) (in_quotes : Bool) (cur : Str) (acc : List Str)
    (hcur : QUOTE ∉ cur) (hacc : ∀ f ∈ acc, QUOTE ∉ f) :
    ∀ f ∈ parseLine line in_quotes cur acc, QUOTE ∉ f := by
  induction line generalizing in_quotes cur acc with
  | nil =>
    intro f hf
    simp only [parseLine, List.mem_append, List.mem_singleton] at hf
    rcases hf with hf | rfl
    · exact hacc f hf
    · exact hcur
  | cons c cs ih =>
    unfold parseLine
    by_cases hq : c = QUOTE
    · rw [if_pos hq]
      exact ih _ _ _ hcur hacc
    · rw [if_neg hq]
      by_cases hc : c = COMMA ∧ in_quotes = false
      · rw [if_pos hc]
        apply ih _ _ _ (by simp)
        intro f hf
        simp only [List.mem_append, List.mem_singleton] at hf
        rcases hf with hf | rfl
        · exact hacc f hf
        · exact hcur
      · rw [if_neg hc]
        apply ih _ _ _ _ hacc
        intro hm
        simp only [List.mem_append, List.mem_singleton] at hm
        rcases hm with hm | hm
        · exact hcur hm
        · exact hq hm.symm

theorem quotesBefore_prefix (pre rest : Str) :
    quotesBefore (pre ++ rest) pre.length =
      (pre.filter (fun c => decide (c = QUOTE))).length := by
  simp [quotesBefore]

theorem parseLine_toggle (rest pre cur : Str) (acc : List Str) (in_quotes : Bool)
    (hq : in_quotes = decide ((pre.filter (fun c => decide (c = QUOTE))).length % 2 = 1)) :
    (parseLine rest in_quotes cur acc).length =
      acc.length + 1 +
        ((List.range' pre.length rest.length).filter (isSplitComma (pre ++ rest))).length ∧
    (parseLine rest in_quotes cur acc).flatten =
      acc.flatten ++ cur ++
        ((List.range' pre.length rest.length).filter (isKept (pre ++ rest))).filterMap
          (fun i => (pre ++ rest)[i]?) := by
  induction rest generalizing pre cur acc in_quotes with
  | nil => simp [parseLine]
  | cons c cs ih =>
    have hline : pre ++ c :: cs = (pre ++ [c]) ++ cs := by simp
    have hlen : (pre ++ [c]).length = pre.length + 1 := by simp
    have hget : (pre ++ c :: cs)[pre.length]? = some c := by
      rw [List.getElem?_append_right (Nat.le_refl _)]
      simp
    have hsplit : isSplitComma (pre ++ c :: cs) pre.length =
        (decide (c = COMMA) && !in_quotes) := by
      unfold isSplitComma
      rw [hget, quotesBefore_prefix, hq]
      congr 1
      · simp
      · have h2 := Nat.mod_two_eq_zero_or_one
          (pre.filter (fun c => decide (c = QUOTE))).length
        rcases h2 with h2 | h2 <;> simp [h2]
    have hkept : isKept (pre ++ c :: cs) pre.length =
        (!decide (c = QUOTE) && !(decide (c = COMMA) && !in_quotes)) := by
      unfold isKept
      rw [hsplit, hget]
      simp
    have hrange : List.range' pre.length (c :: cs).length =
        pre.length :: List.range' (pre.length + 1) cs.length := by
      simp [List.range']
    rw [hrange, List.filter_cons, List.filter_cons, hsplit, hkept]
    unfold parseLine
    by_cases hcq : c = QUOTE
    · have hne : ¬ c = COMMA := by rw [hcq]; decide
      have hq2 : (!in_quotes) = decide (((pre ++ [c]).filter
          (fun c => decide (c = QUOTE))).length % 2 = 1) := by
        rw [hq, List.filter_append]
        have h2 := Nat.mod_two_eq_zero_or_one
          (pre.filter (fun c => decide (c = QUOTE))).length
        rcases h2 with h2 | h2 <;> simp [hcq, Nat.add_mod, h2]
      have h := ih (pre ++ [c]) cur acc (!in_quotes) hq2
      rw [← hline, hlen] at h
      rw [if_pos hcq]
      simpa [hcq, hne] using h
    · have hq2 : in_quotes = decide (((pre ++ [c]).filter
          (fun c => decide (c = QUOTE))).length % 2 = 1) := by
        rw [hq, List.filter_append]
        simp [hcq]
      rw [if_neg hcq]
      by_cases hc : c = COMMA ∧ in_quotes = false
      · have h := ih (pre ++ [c]) [] (acc ++ [cur]) in_quotes hq2
        rw [← hline, hlen] at h
        rw [if_pos hc]
        obtain ⟨h1, h2⟩ := h
        constructor
        · rw [h1]
          simp [hc.1, hc.2]
          omega
        · rw [h2]
          simp [hc.1, hc.2, hcq]
      · have h := ih (pre ++ [c]) (cur ++ [c]) acc in_quotes hq2
        rw [← hline, hlen] at h
        rw [if_neg hc]
        obtain ⟨h1, h2⟩ := h
        have hc2 : (decide (c = COMMA) && !in_quotes) = false := by
          cases in_quotes <;> simp_all
        constructor
        · rw [h1, hc2]
          simp
        · rw [h2, hc2]
          simp [hcq, hget]

/-- C27: the line scanner follows the toggle rule. For every line, no decoded
field contains a quote character; the number of decoded fields is one plus the
number of commas of the line preceded by an even number of quote characters; and
the concatenation of the decoded fields is the line with every quote character
and every such splitting comma removed, the other commas being kept. -/
theorem parseLine_toggle_rule (line : Str) :
    (∀ f ∈ parseLine line false [] [], QUOTE ∉ f) ∧
    (parseLine line false [] []).length = specFieldCount line ∧
    (parseLine line false [] []).flatten = specFieldText line := by
  refine ⟨parseLine_no_quote line false [] [] (by simp) (by simp), ?_⟩
  have h := parseLine_toggle line [] [] [] false (by simp)
  simp only [List.nil_append, List.length_nil, List.flatten_nil, List.append_nil,
    Nat.zero_add] at h
  exact ⟨by rw [h.1, specFieldCount], h.2⟩

/-- C26 as stated fails: `Table::load` has no test for an empty line.  For the
file with the lines `a`, an empty line and `x`, only one line after the header
is non-empty, but the decoded table holds two records, the first one made of a
single empty field. -/
theorem load_blank_line_counterexample :
    getlines NEWLINE blankLineText = ["a".toList, [], "x".toList] ∧
    (["".toList, "x".toList].filter (fun l => decide (l ≠ []))).length = 1 ∧
    (Table.loadNew "t".toList blankLineStorage).records = [⟨[[]]⟩, ⟨["x".toList]⟩] ∧
    (Table.loadNew "t".toList blankLineStorage).records.length = 2 := by
  decide

/-- C26, amended: decoding does not skip empty lines.  When the file exists and
has a header line, the header gives the columns and every line after the
header, empty or not, contributes exactly one record, an empty line giving a
record of one empty field; so the number of records added equals the number of
lines after the header. -/
theorem load_record_per_line (t : Table) (fs : Storage) (text header : Str) (rest : List Str)
    (hfile : fs.files t.filepath = some text)
    (hlines : getlines NEWLINE text = header :: rest) :
    (t.load fs).columns = parseLine header false [] [] ∧
    (t.load fs).records = t.records ++ rest.map (fun l => ⟨parseLine l false [] []⟩) ∧
    (t.load fs).records.length = t.records.length + rest.length ∧
    (∀ i, rest[i]? = some [] → (t.load fs).records[t.records.length + i]? = some ⟨[[]]⟩) := by
  have hload : t.load fs = ⟨t.name, parseLine header false [] [],
      t.records ++ rest.map (fun l => ⟨parseLine l false [] []⟩), t.filepath⟩ := by
    simp only [Table.load, hfile, hlines, loadLines, if_true]
    rw [loadLines_records]
  have hrecs : (t.load fs).records =
      t.records ++ rest.map (fun l => ⟨parseLine l false [] []⟩) := by rw [hload]
  refine ⟨by rw [hload], hrecs, by rw [hrecs]; simp, ?_⟩
  intro i hi
  rw [hrecs, List.getElem?_append_right (Nat.le_add_right _ _), Nat.add_sub_cancel_left,
    List.getElem?_map, hi]
  rfl

/-- Witness for C26 (amended): the file with an empty second line, loaded into a
fresh table. -/
theorem load_record_per_line_witness :
    ((⟨"t".toList, [], [], "data/t.tbl".toList⟩ : Table).load blankLineStorage).records =
      ([] : List Record) ++ ["".toList, "x".toList].map (fun l => ⟨parseLine l false [] []⟩) :=
  (load_record_per_line ⟨"t".toList, [], [], "data/t.tbl".toList⟩ blankLineStorage
    blankLineText "a".toList ["".toList, "x".toList] (by decide) (by decide)).2.1

/-! ## COUNT without GROUP BY -/

theorem select_plain_inv (sort : (Record → Record → Bool) → List Record → List Record)
    (t : Table) (select_columns : List Str) (aggregates : List (Str × Str))
    (where_column where_value : Str) (order_by : List (Str × Str)) (out : SelectOutput)
    (h : t.select sort select_columns aggregates where_column where_value order_by [] =
      .ok out) :
    out = printPlain t select_columns aggregates
      (if select_columns = [] then List.range t.columns.length
        else select_columns.map (columnIndex t.columns))
      (if order_by = [] then t.records.filter (specWhere t.columns where_column where_value)
        else sort (orderLess (orderKeys t.columns order_by))
          (t.records.filter (specWhere t.columns where_column where_value))) := by
  by_cases hob : order_by = []
  · rw [if_pos hob]
    subst hob
    have hproj : ∀ c ∈ select_columns, c ∈ t.columns := by
      by_cases hs : select_columns = []
      · simp [hs]
      · cases hres : resolveColumns t.columns select_columns [] with
        | error e => simp [Table.select, hs, hres] at h
        | ok idxs => exact resolveColumns_ok_inv _ _ _ hres
    unfold Table.select selectPlain at h
    rw [resolveColumns_of_known select_columns hproj] at h
    cases hf : filterLoop t.columns where_column where_value t.records [] with
    | error e => by_cases hs : select_columns = [] <;> simp [hs, hf] at h
    | ok filtered =>
      have hfil := filterLoop_ok_inv _ _ _ hf
      rw [List.nil_append] at hfil
      subst hfil
      by_cases hs : select_columns = []
      · simp only [hs, hf, if_true, ne_eq, not_true_eq_false, if_false] at h
        cases h
        rw [hs]
        rfl
      · simp only [hs, hf, if_true, ne_eq, not_true_eq_false, if_false] at h
        cases h
        simp [hs]
  · rw [if_neg hob]
    exact select_sorted_inv sort t select_columns aggregates where_column where_value
      order_by hob out h

theorem rowAggCell_count (columns : List Str) (r : Record) (agg : Str × Str)
    (hcount : agg.1 = "COUNT".toList) (htarget : agg.2 = "*".toList ∨ agg.2 ∈ columns) :
    rowAggCell columns r agg = some (specRowCount columns r agg) := by
  unfold rowAggCell specRowCount
  rw [if_pos hcount]
  by_cases hstar : agg.2 = "*".toList
  · rw [if_pos hstar, if_pos hstar]
  · rw [if_neg hstar, if_neg hstar]
    rcases htarget with h | h
    · exact absurd h hstar
    · rw [findColumn_of_mem h]

theorem summaryLine_count (columns : List Str) (recs : List Record) (agg : Str × Str)
    (hcount : agg.1 = "COUNT".toList) (htarget : agg.2 = "*".toList ∨ agg.2 ∈ columns) :
    summaryLine columns recs agg =
      some ("COUNT(".toList ++ agg.2 ++ ")".toList, specSummaryCount columns recs agg) := by
  unfold summaryLine specSummaryCount
  rw [if_pos hcount]
  by_cases hstar : agg.2 = "*".toList
  · rw [if_pos hstar, if_pos hstar, hstar]
    rfl
  · rw [if_neg hstar, if_neg hstar]
    rcases htarget with h | h
    · exact absurd h hstar
    · rw [findColumn_of_mem h]
      simp only []
      rw [countNonEmpty_eq_countP]

theorem filterMap_eq_map_of_some {α β : Type} (f : α → Option β) (g : α → β) (l : List α)
    (h : ∀ a ∈ l, f a = some (g a)) : l.filterMap f = l.map g := by
  induction l with
  | nil => rfl
  | cons a rest ih =>
    rw [List.filterMap_cons, h a (List.mem_cons_self _ _), List.map_cons,
      ih (fun b hb => h b (List.mem_cons_of_mem _ hb))]

theorem specSummaryCount_eq_sum (columns : List Str) (recs : List Record) (agg : Str × Str) :
    specSummaryCount columns recs agg =
      (recs.map (fun r => specRowCount columns r agg)).sum := by
  unfold specSummaryCount specRowCount
  by_cases hstar : agg.2 = "*".toList
  · simp only [if_pos hstar]
    induction recs with
    | nil => rfl
    | cons r rest ih => rw [List.length_cons, ih, List.map_cons, List.sum_cons, Nat.add_comm]
  · simp only [if_neg hstar]
    induction recs with
    | nil => rfl
    | cons r rest ih =>
      rw [List.countP_cons, ih, List.map_cons, List.sum_cons]
      by_cases hne : r.fieldAt (columnIndex columns agg.2) = []
      · simp [hne]
      · simp [hne, Nat.add_comm]

theorem specSummaryCount_perm (columns : List Str) (agg : Str × Str) {l₁ l₂ : List Record}
    (h : l₁.Perm l₂) : specSummaryCount columns l₁ agg = specSummaryCount columns l₂ agg := by
  unfold specSummaryCount
  rw [h.length_eq, h.countP_eq]

/-- C24: for a select without GROUP BY whose aggregates are all `COUNT` with
target `*` or an existing column (under any `std::sort` that meets its contract
and ORDER BY directions `ASC` or `DESC`): the select succeeds when the referenced
columns exist, and whenever it prints, the rows shown belong to a permutation of
the filtered records (the filtered records themselves without ORDER BY); each
row carries per aggregate the value 1 for `COUNT(*)` and 1 or 0 for
`COUNT(column)` according to whether the row's record has a non-empty value for
the column; the summary has one line per aggregate, labelled `COUNT(target)`,
whose value is the number of filtered records for `COUNT(*)` and the number of
filtered records with a non-empty value for `COUNT(column)`; and each summary
value is the sum of the per-row values of that aggregate. -/
theorem count_without_group_by
    (sort : (Record → Record → Bool) → List Record → List Record)
    (hsort : StdSortContract sort) (t : Table) (select_columns : List Str)
    (aggregates : List (Str × Str)) (where_column where_value : Str)
    (order_by : List (Str × Str))
    (hdirs : ∀ ob ∈ order_by, ob.2 = "ASC".toList ∨ ob.2 = "DESC".toList)
    (hcount : ∀ agg ∈ aggregates, agg.1 = "COUNT".toList)
    (htarget : ∀ agg ∈ aggregates, agg.2 = "*".toList ∨ agg.2 ∈ t.columns) :
    ((∀ c ∈ select_columns, c ∈ t.columns) → (where_column = [] ∨ where_column ∈ t.columns) →
      (∀ ob ∈ order_by, ob.1 ∈ t.columns) →
      ∃ out, t.select sort select_columns aggregates where_column where_value order_by [] =
        .ok out) ∧
    (∀ out, t.select sort select_columns aggregates where_column where_value order_by [] =
        .ok out →
      ∃ shown : List Record,
        shown.Perm (t.records.filter (specWhere t.columns where_column where_value)) ∧
        (order_by = [] →
          shown = t.records.filter (specWhere t.columns where_column where_value)) ∧
        out.rows.map Row.values = shown.map (specProject t.columns select_columns) ∧
        out.rows.map Row.aggs = shown.map (fun r =>
          aggregates.map (fun agg => some (specRowCount t.columns r agg))) ∧
        out.summary = aggregates.map (fun agg =>
          ("COUNT(".toList ++ agg.2 ++ ")".toList,
            specSummaryCount t.columns
              (t.records.filter (specWhere t.columns where_column where_value)) agg)) ∧
        ∀ (j : Nat) (agg : Str × Str), aggregates[j]? = some agg →
          specSummaryCount t.columns
              (t.records.filter (specWhere t.columns where_column where_value)) agg =
            (out.rows.map (fun row => (row.aggs.getD j none).getD 0)).sum) := by
  refine ⟨fun hproj hwhere horder => select_plain_succeeds sort t select_columns aggregates
    where_column where_value order_by hproj hwhere horder, ?_⟩
  intro out hout
  have hinv := select_plain_inv sort t select_columns aggregates where_column where_value
    order_by out hout
  obtain ⟨shown, hdef⟩ : ∃ shown : List Record, shown =
      (if order_by = [] then t.records.filter (specWhere t.columns where_column where_value)
        else sort (orderLess (orderKeys t.columns order_by))
          (t.records.filter (specWhere t.columns where_column where_value))) := ⟨_, rfl⟩
  rw [← hdef] at hinv
  have hperm : shown.Perm
      (t.records.filter (specWhere t.columns where_column where_value)) := by
    rw [hdef]
    by_cases hob : order_by = []
    · rw [if_pos hob]
    · rw [if_neg hob]
      exact (hsort _ _ (orderLess_strictWeakOrder (orderKeys t.columns order_by)
        (orderKeys_directions t.columns order_by hdirs))).1
  have haggs : out.rows.map Row.aggs = shown.map (fun r =>
      aggregates.map (fun agg => some (specRowCount t.columns r agg))) := by
    rw [hinv]
    simp only [printPlain, List.map_map]
    apply List.map_congr_left
    intro r _
    simp only [Function.comp]
    apply List.map_congr_left
    intro agg hagg
    exact rowAggCell_count t.columns r agg (hcount agg hagg) (htarget agg hagg)
  have hsummary : out.summary = aggregates.map (fun agg =>
      ("COUNT(".toList ++ agg.2 ++ ")".toList, specSummaryCount t.columns shown agg)) := by
    rw [hinv]
    simp only [printPlain]
    by_cases hne : aggregates = []
    · simp [hne]
    · rw [if_pos hne]
      exact filterMap_eq_map_of_some _ _ aggregates (fun agg hagg =>
        summaryLine_count t.columns shown agg (hcount agg hagg) (htarget agg hagg))
  refine ⟨shown, hperm, ?_, ?_, haggs, ?_, ?_⟩
  · intro hob
    rw [hdef, if_pos hob]
  · rw [hinv]
    exact printPlain_rows_values t select_columns aggregates _
  · rw [hsummary]
    apply List.map_congr_left
    intro agg _
    rw [specSummaryCount_perm t.columns agg hperm]
  · intro j agg hj
    rw [← specSummaryCount_perm t.columns agg hperm, specSummaryCount_eq_sum]
    have hmap : out.rows.map (fun row => (row.aggs.getD j none).getD 0) =
        (out.rows.map Row.aggs).map (fun a => (a.getD j none).getD 0) := by
      rw [List.map_map]
      rfl
    rw [hmap, haggs, List.map_map]
    congr 1
    apply List.map_congr_left
    intro r _
    simp [List.getD_eq_getElem?_getD, hj]

/-- Witness for C24: `COUNT(*)` and `COUNT(b)` over the scenario table. -/
theorem count_without_group_by_witness :
    ∃ out, scenarioTable.select insertionSortBy []
      [("COUNT".toList, "*".toList), ("COUNT".toList, "b".toList)] [] [] [] [] = .ok out :=
  (count_without_group_by insertionSortBy insertionSortBy_contract scenarioTable []
    [("COUNT".toList, "*".toList), ("COUNT".toList, "b".toList)] [] [] []
    (by decide) (by decide) (by decide)).1 (by decide) (by decide) (by decide)

/-! ## Field accesses stay in bounds -/

theorem fieldChecked_of_lt (r : Record) (idx : Nat) (h : idx < r.fields.length) :
    r.fieldChecked idx = some (r.fieldAt idx) := by
  simp [Record.fieldChecked, Record.fieldAt, List.getD_eq_getElem?_getD,
    List.getElem?_eq_getElem h]

theorem mapChecked_eq {α β : Type} (f : α → Option β) (g : α → β) (l : List α)
    (h : ∀ a ∈ l, f a = some (g a)) : mapChecked f l = some (l.map g) := by
  induction l with
  | nil => rfl
  | cons a rest ih =>
    simp only [mapChecked, h a (List.mem_cons_self _ _),
      ih (fun b hb => h b (List.mem_cons_of_mem _ hb)), List.map_cons]

theorem whereMatchChecked_eq (columns : List Str) (where_column where_value : Str)
    (record : Record) (hlen : record.fields.length = columns.length) :
    whereMatchChecked columns where_column where_value record =
      some (whereMatch columns where_column where_value record) := by
  unfold whereMatchChecked whereMatch
  by_cases hw : where_column ≠ []
  · rw [if_pos hw, if_pos hw]
    cases hf : findColumn columns where_column with
    | none => rfl
    | some idx =>
      have hlt : idx < record.fields.length := by
        rw [hlen]
        exact findColumn_lt hf
      simp only [fieldChecked_of_lt record idx hlt]
      split <;> rfl
  · rw [if_neg hw, if_neg hw]

theorem updateLoopChecked_eq (columns : List Str) (set_idx : Nat)
    (set_value where_column where_value : Str) (hset : set_idx < columns.length)
    (l done : List Record) (updated_count : Nat)
    (hl : ∀ r ∈ l, r.fields.length = columns.length) :
    updateLoopChecked columns set_idx set_value where_column where_value l done
        updated_count =
      some (updateLoop columns set_idx set_value where_column where_value l done
        updated_count) := by
  induction l generalizing done updated_count with
  | nil => rfl
  | cons record rest ih =>
    have hrec := hl record (List.mem_cons_self _ _)
    have hrest : ∀ r ∈ rest, r.fields.length = columns.length :=
      fun r hr => hl r (List.mem_cons_of_mem _ hr)
    have hlt : set_idx < record.fields.length := by rw [hrec]; exact hset
    unfold updateLoopChecked updateLoop
    rw [whereMatchChecked_eq columns where_column where_value record hrec]
    cases hw : whereMatch columns where_column where_value record with
    | error e => rfl
    | ok b =>
      cases b
      · exact ih _ _ hrest
      · simp only [Record.setChecked, if_pos hlt]
        exact ih _ _ hrest

theorem updateChecked_eq (t : Table) (hinv : t.fieldCountOk)
    (set_column set_value where_column where_value : Str) :
    t.updateChecked set_column set_value where_column where_value =
      some (t.update set_column set_value where_column where_value) := by
  unfold Table.updateChecked Table.update
  cases hf : findColumn t.columns set_column with
  | none => rfl
  | some set_idx =>
    simp only [updateLoopChecked_eq t.columns set_idx set_value where_column where_value
      (findColumn_lt hf) t.records [] 0 hinv]

theorem deletePredChecked_eq (columns : List Str) (where_column where_value : Str)
    (record : Record) (hlen : record.fields.length = columns.length) :
    deletePredChecked columns where_column where_value record =
      some (deletePred columns where_column where_value record) := by
  unfold deletePredChecked deletePred
  by_cases hw : where_column = []
  · rw [if_pos hw, if_pos hw]
  · rw [if_neg hw, if_neg hw]
    cases hf : findColumn columns where_column with
    | none => rfl
    | some idx =>
      have hlt : idx < record.fields.length := by
        rw [hlen]
        exact findColumn_lt hf
      simp only [fieldChecked_of_lt record idx hlt]

theorem zip_map_filter {α : Type} (p : α → Bool) (l : List α) :
    ((l.zip (l.map p)).filter (fun q => !q.2)).map Prod.fst = l.filter (fun a => !p a) := by
  induction l with
  | nil => rfl
  | cons a rest ih =>
    simp only [List.map_cons, List.zip_cons_cons, List.filter_cons]
    cases p a <;> simp [ih]

theorem deleteRecordsChecked_eq (t : Table) (hinv : t.fieldCountOk)
    (where_column where_value : Str) :
    t.deleteRecordsChecked where_column where_value =
      some (t.deleteRecords where_column where_value) := by
  unfold Table.deleteRecordsChecked Table.deleteRecords
  split
  · rfl
  · rw [mapChecked_eq _ (deletePred t.columns where_column where_value) t.records
      (fun r hr => deletePredChecked_eq t.columns where_column where_value r (hinv r hr))]
    simp only [zip_map_filter]

theorem filterLoopChecked_eq (columns : List Str) (where_column where_value : Str)
    (l filtered_records : List Record) (hl : ∀ r ∈ l, r.fields.length = columns.length) :
    filterLoopChecked columns where_column where_value l filtered_records =
      some (filterLoop columns where_column where_value l filtered_records) := by
  induction l generalizing filtered_records with
  | nil => rfl
  | cons record rest ih =>
    have hrec := hl record (List.mem_cons_self _ _)
    have hrest : ∀ r ∈ rest, r.fields.length = columns.length :=
      fun r hr => hl r (List.mem_cons_of_mem _ hr)
    unfold filterLoopChecked filterLoop
    rw [whereMatchChecked_eq columns where_column where_value record hrec]
    cases hw : whereMatch columns where_column where_value record with
    | error e => rfl
    | ok b =>
      cases b
      · exact ih _ hrest
      · exact ih _ hrest

theorem groupKeyChecked_eq (record : Record) (group_indices : List Nat) (key : Str)
    (h : ∀ idx ∈ group_indices, idx < record.fields.length) :
    groupKeyChecked record group_indices key =
      some (group_indices.foldl
        (fun key idx => key ++ (record.fieldAt idx ++ [UNDERSCORE])) key) := by
  induction group_indices generalizing key with
  | nil => rfl
  | cons idx rest ih =>
    unfold groupKeyChecked
    rw [fieldChecked_of_lt record idx (h idx (List.mem_cons_self _ _))]
    exact ih _ (fun i hi => h i (List.mem_cons_of_mem _ hi))

theorem groupLoopChecked_eq (columns : List Str) (where_column where_value : Str)
    (group_indices : List Nat) (hidx : ∀ idx ∈ group_indices, idx < columns.length)
    (l : List Record) (grouped_records : List (Str × List Record))
    (hl : ∀ r ∈ l, r.fields.length = columns.length) :
    groupLoopChecked columns where_column where_value group_indices l grouped_records =
      some (groupLoop columns where_column where_value group_indices l grouped_records) := by
  induction l generalizing grouped_records with
  | nil => rfl
  | cons record rest ih =>
    have hrec := hl record (List.mem_cons_self _ _)
    have hrest : ∀ r ∈ rest, r.fields.length = columns.length :=
      fun r hr => hl r (List.mem_cons_of_mem _ hr)
    have hkey : groupKeyChecked record group_indices [] =
        some (groupKey group_indices record) :=
      groupKeyChecked_eq record group_indices [] (fun idx hi => by rw [hrec]; exact hidx idx hi)
    unfold groupLoopChecked groupLoop
    rw [whereMatchChecked_eq columns where_column where_value record hrec]
    cases hw : whereMatch columns where_column where_value record with
    | error e => rfl
    | ok b =>
      cases b
      · exact ih _ hrest
      · simp only [hkey]
        exact ih _ hrest

theorem countNonEmptyChecked_eq (idx : Nat) (recs : List Record) (count : Nat)
    (h : ∀ r ∈ recs, idx < r.fields.length) :
    countNonEmptyChecked idx recs count =
      some (recs.foldl (fun count r => if r.fieldAt idx ≠ [] then count + 1 else count)
        count) := by
  induction recs generalizing count with
  | nil => rfl
  | cons r rest ih =>
    unfold countNonEmptyChecked
    rw [fieldChecked_of_lt r idx (h r (List.mem_cons_self _ _))]
    exact ih _ (fun q hq => h q (List.mem_cons_of_mem _ hq))

theorem groupAggCellChecked_eq (agg : Str × Int) (recs : List Record)
    (h : agg.2 = -1 ∨ ∀ r ∈ recs, agg.2.toNat < r.fields.length) :
    groupAggCellChecked agg recs = some (groupAggCell agg recs) := by
  unfold groupAggCellChecked groupAggCell
  by_cases hc : agg.1 = "COUNT".toList
  · rw [if_pos hc, if_pos hc]
    by_cases hstar : agg.2 = -1
    · rw [if_pos hstar, if_pos hstar]
    · rw [if_neg hstar, if_neg hstar]
      rcases h with h | h
      · exact absurd h hstar
      · rw [countNonEmptyChecked_eq agg.2.toNat recs 0 h]
        rfl
  · rw [if_neg hc, if_neg hc]

theorem groupRowChecked_eq (group_by_size : Nat) (agg_functions : List (Str × Int))
    (pair : Str × List Record)
    (h : ∀ agg ∈ agg_functions, agg.2 = -1 ∨ ∀ r ∈ pair.2, agg.2.toNat < r.fields.length) :
    groupRowChecked group_by_size agg_functions pair =
      some (groupRow group_by_size agg_functions pair) := by
  unfold groupRowChecked groupRow
  rw [mapChecked_eq _ (fun agg => groupAggCell agg pair.2) agg_functions
    (fun agg hagg => groupAggCellChecked_eq agg pair.2 (h agg hagg))]

theorem resolveColumns_bound {columns : List Str} (cols : List Str) (indices : List Nat)
    (h : resolveColumns columns cols [] = .ok indices) :
    ∀ idx ∈ indices, idx < columns.length := by
  rcases resolveColumns_cases columns cols with ⟨hall, hok⟩ | ⟨c, -, -, herr⟩
  · rw [hok [], List.nil_append] at h
    cases h
    intro idx hidx
    obtain ⟨c, hc, rfl⟩ := List.mem_map.mp hidx
    exact columnIndex_lt_length.mpr (hall c hc)
  · rw [herr []] at h
    cases h

theorem prepareAggregates_bound {columns : List Str} (aggregates : List (Str × Str))
    (agg_functions : List (Str × Int))
    (h : prepareAggregates columns aggregates [] = .ok agg_functions) :
    ∀ agg ∈ agg_functions, agg.2 = -1 ∨ agg.2.toNat < columns.length := by
  have hvalid := prepareAggregates_ok_inv aggregates [] agg_functions h
  rw [prepareAggregates_of_valid aggregates hvalid [], List.nil_append] at h
  cases h
  intro agg hagg
  obtain ⟨a, ha, rfl⟩ := List.mem_map.mp hagg
  unfold aggCode
  by_cases hstar : a.2 = "*".toList
  · left
    simp only [if_pos hstar]
  · right
    simp only [if_neg hstar, Int.toNat_ofNat]
    rcases (hvalid a ha).2 with h2 | h2
    · exact absurd h2 hstar
    · exact columnIndex_lt_length.mpr h2

theorem selectGroupedChecked_eq (t : Table) (hinv : t.fieldCountOk)
    (aggregates : List (Str × Str)) (where_column where_value : Str) (group_by : List Str) :
    selectGroupedChecked t aggregates where_column where_value group_by =
      some (selectGrouped t aggregates where_column where_value group_by) := by
  unfold selectGroupedChecked selectGrouped
  cases hres : resolveColumns t.columns group_by [] with
  | error e => rfl
  | ok group_indices =>
    cases hagg : prepareAggregates t.columns aggregates [] with
    | error e => rfl
    | ok agg_functions =>
      simp only [groupLoopChecked_eq t.columns where_column where_value group_indices
        (resolveColumns_bound group_by group_indices hres) t.records [] hinv]
      cases hloop : groupLoop t.columns where_column where_value group_indices t.records [] with
      | error e => rfl
      | ok grouped_records =>
        obtain ⟨ks, -, -, hgrouped⟩ := groupLoop_ok_inv group_indices t.records grouped_records
          hloop
        have hrows : mapChecked (groupRowChecked group_by.length agg_functions)
            grouped_records =
            some (grouped_records.map (groupRow group_by.length agg_functions)) := by
          apply mapChecked_eq
          intro pair hpair
          apply groupRowChecked_eq
          intro agg hagg_mem
          rcases prepareAggregates_bound aggregates agg_functions hagg agg hagg_mem with h | h
          · exact Or.inl h
          · right
            intro r hr
            rw [hgrouped] at hpair
            obtain ⟨k, -, rfl⟩ := List.mem_map.mp hpair
            have hmem : r ∈ t.records :=
              List.mem_of_mem_filter (List.mem_of_mem_filter hr)
            rw [hinv r hmem]
            exact h
        simp only [hrows]

theorem rowAggCellChecked_eq (columns : List Str) (record : Record) (agg : Str × Str)
    (hlen : record.fields.length = columns.length) :
    rowAggCellChecked columns record agg = some (rowAggCell columns record agg) := by
  unfold rowAggCellChecked rowAggCell
  by_cases hc : agg.1 = "COUNT".toList
  · rw [if_pos hc, if_pos hc]
    by_cases hstar : agg.2 = "*".toList
    · rw [if_pos hstar, if_pos hstar]
    · rw [if_neg hstar, if_neg hstar]
      cases hf : findColumn columns agg.2 with
      | none => rfl
      | some idx =>
        have hlt : idx < record.fields.length := by
          rw [hlen]
          exact findColumn_lt hf
        simp only [fieldChecked_of_lt record idx hlt]
  · rw [if_neg hc, if_neg hc]

theorem summaryLineChecked_eq (columns : List Str) (recs : List Record) (agg : Str × Str)
    (hl : ∀ r ∈ recs, r.fields.length = columns.length) :
    summaryLineChecked columns recs agg = some (summaryLine columns recs agg) := by
  unfold summaryLineChecked summaryLine
  by_cases hc : agg.1 = "COUNT".toList
  · rw [if_pos hc, if_pos hc]
    by_cases hstar : agg.2 = "*".toList
    · rw [if_pos hstar, if_pos hstar]
    · rw [if_neg hstar, if_neg hstar]
      cases hf : findColumn columns agg.2 with
      | none => rfl
      | some idx =>
        have hlt : ∀ r ∈ recs, idx < r.fields.length := by
          intro r hr
          rw [hl r hr]
          exact findColumn_lt hf
        simp only [countNonEmptyChecked_eq idx recs 0 hlt]
        rfl
  · rw [if_neg hc, if_neg hc]

theorem plainRowChecked_eq (columns : List Str) (aggregates : List (Str × Str))
    (col_indices : List Nat) (record : Record)
    (hcols : ∀ idx ∈ col_indices, idx < columns.length)
    (hlen : record.fields.length = columns.length) :
    plainRowChecked columns aggregates col_indices record =
      some { values := col_indices.map record.fieldAt,
             aggs := aggregates.map (rowAggCell columns record) } := by
  unfold plainRowChecked
  rw [mapChecked_eq record.fieldChecked record.fieldAt col_indices
      (fun idx hidx => fieldChecked_of_lt record idx (by rw [hlen]; exact hcols idx hidx)),
    mapChecked_eq (rowAggCellChecked columns record) (rowAggCell columns record) aggregates
      (fun agg _ => rowAggCellChecked_eq columns record agg hlen)]

theorem printPlainChecked_eq (t : Table) (select_columns : List Str)
    (aggregates : List (Str × Str)) (col_indices : List Nat) (recs : List Record)
    (hcols : ∀ idx ∈ col_indices, idx < t.columns.length)
    (hl : ∀ r ∈ recs, r.fields.length = t.columns.length) :
    printPlainChecked t select_columns aggregates col_indices recs =
      some (printPlain t select_columns aggregates col_indices recs) := by
  unfold printPlainChecked printPlain
  rw [mapChecked_eq (plainRowChecked t.columns aggregates col_indices) _ recs
    (fun r hr => plainRowChecked_eq t.columns aggregates col_indices r hcols (hl r hr))]
  by_cases hne : aggregates ≠ []
  · simp only [if_pos hne]
    rw [mapChecked_eq (summaryLineChecked t.columns recs) (summaryLine t.columns recs)
      aggregates (fun agg _ => summaryLineChecked_eq t.columns recs agg hl)]
    simp only [List.filterMap_map]
    rfl
  · simp only [if_neg hne]
    rfl

theorem orderLessChecked_eq (keys : List (Nat × Str)) (a b : Record)
    (ha : ∀ key ∈ keys, key.1 < a.fields.length)
    (hb : ∀ key ∈ keys, key.1 < b.fields.length) :
    orderLessChecked keys a b = some (orderLess keys a b) := by
  induction keys with
  | nil => rfl
  | cons key rest ih =>
    obtain ⟨idx, direction⟩ := key
    have h1 := ha (idx, direction) (List.mem_cons_self _ _)
    have h2 := hb (idx, direction) (List.mem_cons_self _ _)
    unfold orderLessChecked orderLess
    simp only [fieldChecked_of_lt a idx h1, fieldChecked_of_lt b idx h2]
    split
    · rfl
    · split
      · rfl
      · exact ih (fun k hk => ha k (List.mem_cons_of_mem _ hk))
          (fun k hk => hb k (List.mem_cons_of_mem _ hk))

theorem sortChecked_eq (sort : (Record → Record → Bool) → List Record → List Record)
    (columns : List Str) (keys : List (Nat × Str)) (recs : List Record)
    (hkeys : ∀ key ∈ keys, key.1 < columns.length)
    (hl : ∀ r ∈ recs, r.fields.length = columns.length) :
    sortChecked sort keys recs = some (sort (orderLess keys) recs) := by
  unfold sortChecked
  rw [if_pos]
  rw [List.all_eq_true]
  intro a ha
  rw [List.all_eq_true]
  intro b hb
  rw [orderLessChecked_eq keys a b (fun key hk => by rw [hl a ha]; exact hkeys key hk)
    (fun key hk => by rw [hl b hb]; exact hkeys key hk)]
  rfl

theorem resolveOrderBy_bound {columns : List Str} (order_by : List (Str × Str))
    (keys : List (Nat × Str)) (h : resolveOrderBy columns order_by [] = .ok keys) :
    keys = orderKeys columns order_by ∧ ∀ key ∈ keys, key.1 < columns.length := by
  have hknown := resolveOrderBy_ok_inv order_by [] keys h
  rw [resolveOrderBy_of_known order_by hknown [], List.nil_append] at h
  cases h
  refine ⟨rfl, ?_⟩
  intro key hkey
  obtain ⟨ob, hob, rfl⟩ := List.mem_map.mp hkey
  exact columnIndex_lt_length.mpr (hknown ob hob)

theorem sort_perm_of_contract (sort : (Record → Record → Bool) → List Record → List Record)
    (hsort : StdSortContract sort) (columns : List Str) (order_by : List (Str × Str))
    (hdirs : ∀ ob ∈ order_by, ob.2 = "ASC".toList ∨ ob.2 = "DESC".toList)
    (recs : List Record) :
    (sort (orderLess (orderKeys columns order_by)) recs).Perm recs :=
  (hsort _ recs (orderLess_strictWeakOrder (orderKeys columns order_by)
    (orderKeys_directions columns order_by hdirs))).1

theorem selectPlainChecked_eq (sort : (Record → Record → Bool) → List Record → List Record)
    (t : Table) (hinv : t.fieldCountOk) (select_columns : List Str)
    (aggregates : List (Str × Str)) (where_column where_value : Str)
    (order_by : List (Str × Str)) (col_indices : List Nat)
    (hcols : ∀ idx ∈ col_indices, idx < t.columns.length)
    (hsort : order_by ≠ [] →
      (sort (orderLess (orderKeys t.columns order_by))
        (t.records.filter (specWhere t.columns where_column where_value))).Perm
        (t.records.filter (specWhere t.columns where_column where_value))) :
    selectPlainChecked sort t select_columns aggregates where_column where_value order_by
        col_indices =
      some (selectPlain sort t select_columns aggregates where_column where_value order_by
        col_indices) := by
  unfold selectPlainChecked selectPlain
  simp only [filterLoopChecked_eq t.columns where_column where_value t.records [] hinv]
  cases hf : filterLoop t.columns where_column where_value t.records [] with
  | error e => rfl
  | ok filtered =>
    have hfil := filterLoop_ok_inv _ _ _ hf
    rw [List.nil_append] at hfil
    have hfiltered : ∀ r ∈ filtered, r.fields.length = t.columns.length := by
      intro r hr
      rw [hfil] at hr
      exact hinv r (List.mem_of_mem_filter hr)
    by_cases hob : order_by ≠ []
    · simp only [if_pos hob]
      cases hres : resolveOrderBy t.columns order_by [] with
      | error e => rfl
      | ok keys =>
        obtain ⟨hkeys_eq, hkeys⟩ := resolveOrderBy_bound order_by keys hres
        have hsorted : ∀ r ∈ sort (orderLess keys) filtered,
            r.fields.length = t.columns.length := by
          intro r hr
          have hperm := hsort hob
          rw [← hfil, ← hkeys_eq] at hperm
          exact hfiltered r (hperm.subset hr)
        simp only [sortChecked_eq sort t.columns keys filtered hkeys hfiltered,
          printPlainChecked_eq t select_columns aggregates col_indices _ hcols hsorted]
    · simp only [if_neg hob,
        printPlainChecked_eq t select_columns aggregates col_indices filtered hcols hfiltered]

theorem selectChecked_eq (sort : (Record → Record → Bool) → List Record → List Record)
    (t : Table) (hinv : t.fieldCountOk) (select_columns : List Str)
    (aggregates : List (Str × Str)) (where_column where_value : Str)
    (order_by : List (Str × Str)) (group_by : List Str)
    (hsort : group_by = [] → order_by ≠ [] →
      (sort (orderLess (orderKeys t.columns order_by))
        (t.records.filter (specWhere t.columns where_column where_value))).Perm
        (t.records.filter (specWhere t.columns where_column where_value))) :
    t.selectChecked sort select_columns aggregates where_column where_value order_by
        group_by =
      some (t.select sort select_columns aggregates where_column where_value order_by
        group_by) := by
  unfold Table.selectChecked Table.select
  have hbranch : ∀ col_indices : List Nat, (∀ idx ∈ col_indices, idx < t.columns.length) →
      (if group_by ≠ [] then
          selectGroupedChecked t aggregates where_column where_value group_by
        else selectPlainChecked sort t select_columns aggregates where_column where_value
          order_by col_indices) =
        some (if group_by ≠ [] then
          selectGrouped t aggregates where_column where_value group_by
        else selectPlain sort t select_columns aggregates where_column where_value order_by
          col_indices) := by
    intro col_indices hcols
    by_cases hgb : group_by ≠ []
    · rw [if_pos hgb, if_pos hgb]
      exact selectGroupedChecked_eq t hinv aggregates where_column where_value group_by
    · rw [if_neg hgb, if_neg hgb]
      exact selectPlainChecked_eq sort t hinv select_columns aggregates where_column
        where_value order_by col_indices hcols (hsort (not_not.mp hgb))
  by_cases hs : select_columns = []
  · simp only [if_pos hs]
    exact hbranch _ (fun idx hidx => List.mem_range.mp hidx)
  · simp only [if_neg hs]
    cases hres : resolveColumns t.columns select_columns [] with
    | error e => rfl
    | ok col_indices => exact hbranch _ (resolveColumns_bound select_columns col_indices hres)

/-- The checked embedding does report an access out of bounds: on the table
`t(a, b)` whose record has one field only, reading or writing column `b` has no
value. -/
theorem short_record_out_of_bounds :
    ¬ shortRecordTable.fieldCountOk ∧
    shortRecordTable.selectChecked insertionSortBy [] [] [] [] [] [] = none ∧
    shortRecordTable.selectChecked insertionSortBy ["a".toList] [] [] [] [] ["b".toList] =
      none ∧
    shortRecordTable.updateChecked "b".toList "x".toList [] [] = none ∧
    shortRecordTable.deleteRecordsChecked "b".toList "x".toList = none := by
  decide

/-- C31: for every table satisfying the field-count invariant and every argument
list, every field access by resolved column index in `select`, `update` and
`deleteRecords` is within the bounds of the record's field list: the embedding
with checked accesses never reports an access out of bounds and returns exactly
what the total embedding returns, and every index that the column lookup
resolves is below the field count of every record.  The one library assumption
is that the call of `std::sort`, where `select` makes it, returns a rearrangement
of the filtered records, which the contract of `std::sort` gives for the
directions `ASC` and `DESC`. -/
theorem field_access_in_bounds
    (sort : (Record → Record → Bool) → List Record → List Record) (t : Table)
    (hinv : t.fieldCountOk) (select_columns : List Str) (aggregates : List (Str × Str))
    (where_column where_value : Str) (order_by : List (Str × Str)) (group_by : List Str)
    (set_column set_value : Str)
    (hsort : group_by = [] → order_by ≠ [] →
      (sort (orderLess (orderKeys t.columns order_by))
        (t.records.filter (specWhere t.columns where_column where_value))).Perm
        (t.records.filter (specWhere t.columns where_column where_value))) :
    t.selectChecked sort select_columns aggregates where_column where_value order_by
        group_by =
      some (t.select sort select_columns aggregates where_column where_value order_by
        group_by) ∧
    t.updateChecked set_column set_value where_column where_value =
      some (t.update set_column set_value where_column where_value) ∧
    t.deleteRecordsChecked where_column where_value =
      some (t.deleteRecords where_column where_value) ∧
    (∀ (col : Str) (idx : Nat), findColumn t.columns col = some idx →
      ∀ r ∈ t.records, idx < r.fields.length ∧ r.fieldChecked idx = some (r.fieldAt idx)) := by
  refine ⟨selectChecked_eq sort t hinv select_columns aggregates where_column where_value
      order_by group_by hsort,
    updateChecked_eq t hinv set_column set_value where_column where_value,
    deleteRecordsChecked_eq t hinv where_column where_value, ?_⟩
  intro col idx hfind r hr
  have hlt : idx < r.fields.length := by
    rw [hinv r hr]
    exact findColumn_lt hfind
  exact ⟨hlt, fieldChecked_of_lt r idx hlt⟩

/-- Witness for C31: the scenario table under insertion sort, with `WHERE a = 1
ORDER BY b DESC`, `SET b = q` and the delete of the same records. -/
theorem field_access_in_bounds_witness :
    scenarioTable.selectChecked insertionSortBy [] [("COUNT".toList, "b".toList)]
        "a".toList "1".toList [("b".toList, "DESC".toList)] [] =
      some (scenarioTable.select insertionSortBy [] [("COUNT".toList, "b".toList)]
        "a".toList "1".toList [("b".toList, "DESC".toList)] []) ∧
    scenarioTable.updateChecked "b".toList "q".toList "a".toList "1".toList =
      some (scenarioTable.update "b".toList "q".toList "a".toList "1".toList) ∧
    scenarioTable.deleteRecordsChecked "a".toList "1".toList =
      some (scenarioTable.deleteRecords "a".toList "1".toList) :=
  let h := field_access_in_bounds insertionSortBy scenarioTable (by decide) []
    [("COUNT".toList, "b".toList)] "a".toList "1".toList [("b".toList, "DESC".toList)] []
    "b".toList "q".toList (fun _ _ => List.perm_insertionSort _ _)
  ⟨h.1, h.2.1, h.2.2.1⟩

end MiniDB
